import Mathlib

/-! Parameter retransmission engine of `QGCParamWidget`.

A shallow embedding of the reconciliation logic of `src/ui/QGCParamWidget.cc`
(QGroundControl): the per-component store of parameter values, the list of
parameter indices still missing from a list transfer, the map of writes that
have not been echoed yet, and the timer-driven retransmission guard.

Conventions of the embedding.

* A `QMap<K, V>` is a list of entries with strictly ascending keys; the order
  is the one `QMap` iterates in.
* A `QMap<int, T*>` whose values are heap objects created with `new` and never
  shared is a `QMap Int T`; `m.value(k)` is an `Option` (`none` is the null
  pointer) and an update through the pointer is `QMap.modify`.
* A `QString` is the list of its UTF-16 code units, a `float` is its IEEE-754
  binary32 bit pattern, `int` is `Int`, `quint64` is a `Nat` reduced modulo
  `2^64`.
* An operation that can dereference a null pointer or divide by zero returns
  an `Option`; `none` is the crash.
* The file dialogs and the palette objects are not state of the engine; of
  the user interface the text and the background colour of the status label
  are kept, since they are the observable result of an operation.
* The items of the tree widget are objects of Qt. The widget acts on the
  engine through its signal `itemChanged`, which the constructor connects to
  the slot `parameterItemChanged`: the signal is emitted when the user edits
  an item and also while `addParameter(uas, component, parameterName, value)`
  updates the item of a parameter, and the slot writes the number read from
  the item back to `parameters`. Which signals the widget emits, and what the
  text of an item reads as, is the answer of the widget; it is kept in the
  state as the field `tree`.
* The clock `QGC::groundTimeMilliseconds()` is an argument `now`, and the
  signals an operation emits are returned next to the new state.
-/

namespace QGC

/-! ## Strings and floats -/

/-- A `QString`, as the list of its UTF-16 code units. -/
abbrev QString := List Nat

/-- The `QString` of an ASCII literal. -/
def qs (s : String) : QString := s.data.map Char.toNat

/-- A C `float`, as its IEEE-754 binary32 bit pattern. -/
structure float where
  bits : Nat
deriving DecidableEq, Repr

namespace float

/-- The value `0.0f`, which `QMap::value` returns for an absent key. -/
def zero : float := ⟨0⟩

/-- A NaN has all exponent bits set and a non-zero mantissa. -/
def isNaN (a : float) : Bool :=
  decide (a.bits / 2 ^ 23 % 256 = 255) && decide (a.bits % 2 ^ 23 ≠ 0)

/-- Plus or minus zero. -/
def isZero (a : float) : Bool := decide (a.bits % 2 ^ 31 = 0)

/-- The C operator `a == b` on floats. -/
def eq (a b : float) : Bool :=
  !a.isNaN && !b.isNaN && ((a.isZero && b.isZero) || decide (a.bits % 2 ^ 32 = b.bits % 2 ^ 32))

/-- The C operator `a != b` on floats. -/
def ne (a b : float) : Bool := !(eq a b)

end float

/-- The quotient `a / b` rounded to the nearest integer, a tie to the even one. -/
def roundHalfEven (a b : Nat) : Nat :=
  if 2 * (a % b) > b ∨ (2 * (a % b) = b ∧ a / b % 2 = 1) then a / b + 1 else a / b

/-- The fraction `n / d` divided by `2 ^ e`, as a numerator and a denominator. -/
def scaleDown (n d : Nat) (e : Int) : Nat × Nat :=
  if 0 ≤ e then (n, d * 2 ^ e.toNat) else (n * 2 ^ (-e).toNat, d)

/-- The number of times `d` can be doubled without exceeding `t`, at most `fuel`, added to
`j`. -/
def binaryExponent (t : Nat) : Nat → Nat → Nat → Nat
  | 0, _, j => j
  | fuel + 1, d, j => if 2 * d ≤ t then binaryExponent t fuel (2 * d) (j + 1) else j

/-- The largest `b` with `2 ^ b ≤ n / d`, for a fraction between `2 ^ -160` and `2 ^ 160`. -/
def floorLog2 (n d : Nat) : Int := (binaryExponent (n * 2 ^ 160) 320 d 0 : Int) - 160

/-- The fraction `n / d` rounded to `p` significant bits, as the pair `(m, q)` of the number
`m * 2 ^ q`; `minExp` is the exponent of the smallest positive number of the format. -/
def roundToBits (p : Nat) (minExp : Int) (n d : Nat) : Nat × Int :=
  let q := max (floorLog2 n d - ((p : Int) - 1)) minExp
  (roundHalfEven (scaleDown n d q).1 (scaleDown n d q).2, q)

/-- The largest `j ≤ fuel` with `10 ^ j * d ≤ t`, or `0`. -/
def decimalExponent (t d : Nat) : Nat → Nat
  | 0 => 0
  | j + 1 => if 10 ^ (j + 1) * d ≤ t then j + 1 else decimalExponent t d j

/-- The `float` with the sign bit `sign` and the magnitude `m * 2 ^ q`, where `m ≤ 2 ^ 24`. -/
def encodeFloat (sign : Nat) (m : Nat) (q : Int) : float :=
  let m1 := if m = 2 ^ 24 then 2 ^ 23 else m
  let q1 := if m = 2 ^ 24 then q + 1 else q
  if m1 < 2 ^ 23 then ⟨sign * 2 ^ 31 + m1⟩
  else if q1 + 150 ≥ 255 then ⟨sign * 2 ^ 31 + 255 * 2 ^ 23⟩
  else ⟨sign * 2 ^ 31 + (q1 + 150).toNat * 2 ^ 23 + (m1 - 2 ^ 23)⟩

/-- The number a new item of the tree shows for `v`, read back by the slot
`parameterItemChanged`: the item is created with the text `QString::number(v)`, which has 6
significant decimal digits, and the slot converts the text with `toDouble()` and assigns the
result to a `float`. An infinity and zero are read back as they are, a NaN as a NaN. -/
def shownValue (v : float) : float :=
  let sign := v.bits / 2 ^ 31 % 2
  let e : Nat := v.bits / 2 ^ 23 % 256
  let m := v.bits % 2 ^ 23
  if e = 255 then (if m = 0 then ⟨sign * 2 ^ 31 + 255 * 2 ^ 23⟩ else ⟨0x7FC00000⟩)
  else if e = 0 ∧ m = 0 then ⟨sign * 2 ^ 31⟩
  else
    let mant := if e = 0 then m else m + 2 ^ 23
    let x : Int := (if e = 0 then (1 : Int) else (e : Nat)) - 150
    let t := (if 0 ≤ x then mant * 2 ^ x.toNat else mant) * 10 ^ 45
    let d := if 0 ≤ x then 1 else 2 ^ (-x).toNat
    let j := decimalExponent t d 90
    let digits :=
      if 5 ≤ j then roundHalfEven t (d * 10 ^ (j - 5)) else roundHalfEven (t * 10 ^ (5 - j)) d
    let rn := if 50 ≤ j then digits * 10 ^ (j - 50) else digits
    let rd := if 50 ≤ j then 1 else 10 ^ (50 - j)
    let dbl := roundToBits 53 (-1074) rn rd
    let f := roundToBits 24 (-149) (scaleDown dbl.1 1 (-dbl.2)).1 (scaleDown dbl.1 1 (-dbl.2)).2
    encodeFloat sign f.1 f.2

/-! ## Machine integers -/

/-- Reduction of an integer to the range of a 32 bit `int`. -/
def wrapInt (x : Int) : Int := (x + 2 ^ 31) % 2 ^ 32 - 2 ^ 31

/-- Conversion of an `int` to `quint64`. -/
def toQuint64 (x : Int) : Nat := (x % 2 ^ 64).toNat

/-- The sum `a + b` of a `quint64` and an `int`, computed in `quint64`. -/
def addQuint64 (a : Nat) (b : Int) : Nat := (a % 2 ^ 64 + toQuint64 b) % 2 ^ 64

/-! ## Association lists with ascending keys -/

namespace Assoc

variable {κ α : Type} [LinearOrder κ]

/-- The first value stored under `k`. -/
def lookup (k : κ) : List (κ × α) → Option α
  | [] => none
  | (k', v) :: t => if k' = k then some v else lookup k t

/-- Insertion at the position the key order gives, replacing an entry with the same key. -/
def insert (k : κ) (v : α) : List (κ × α) → List (κ × α)
  | [] => [(k, v)]
  | (k', v') :: t =>
    if k < k' then (k, v) :: (k', v') :: t
    else if k = k' then (k, v) :: t
    else (k', v') :: insert k v t

/-- Removal of the entries with key `k`. -/
def remove (k : κ) (l : List (κ × α)) : List (κ × α) := l.filter (fun e => decide (e.1 ≠ k))

/-- Update of the value stored under `k`. -/
def modify (k : κ) (f : α → α) (l : List (κ × α)) : List (κ × α) :=
  l.map (fun e => if e.1 = k then (e.1, f e.2) else e)

/-- Strictly ascending keys. -/
def Ascending (l : List (κ × α)) : Prop := l.Pairwise (fun a b => a.1 < b.1)

theorem mem_insert {k : κ} {v : α} {l : List (κ × α)} {e : κ × α}
    (h : e ∈ insert k v l) : e = (k, v) ∨ e ∈ l := by
  induction l with
  | nil => simp [insert] at h; exact Or.inl h
  | cons hd t ih =>
    obtain ⟨k', v'⟩ := hd
    unfold insert at h
    split_ifs at h with h1 h2
    · rcases List.mem_cons.1 h with h | h
      · exact Or.inl h
      · exact Or.inr h
    · rcases List.mem_cons.1 h with h | h
      · exact Or.inl h
      · exact Or.inr (List.mem_cons_of_mem _ h)
    · rcases List.mem_cons.1 h with h | h
      · exact Or.inr (h ▸ List.mem_cons_self _ _)
      · rcases ih h with h | h
        · exact Or.inl h
        · exact Or.inr (List.mem_cons_of_mem _ h)

theorem ascending_insert (k : κ) (v : α) {l : List (κ × α)} (h : Ascending l) :
    Ascending (insert k v l) := by
  induction l with
  | nil => simp [insert, Ascending]
  | cons hd t ih =>
    obtain ⟨k', v'⟩ := hd
    have ht : Ascending t := (List.pairwise_cons.1 h).2
    have hhd : ∀ b ∈ t, k' < b.1 := (List.pairwise_cons.1 h).1
    unfold insert
    split_ifs with h1 h2
    · refine List.pairwise_cons.2 ⟨?_, h⟩
      intro b hb
      rcases List.mem_cons.1 hb with hb | hb
      · subst hb; exact h1
      · exact lt_trans h1 (hhd b hb)
    · subst h2
      exact List.pairwise_cons.2 ⟨hhd, ht⟩
    · refine List.pairwise_cons.2 ⟨?_, ih ht⟩
      intro b hb
      rcases mem_insert hb with hb | hb
      · subst hb
        exact lt_of_le_of_ne (not_lt.1 h1) (fun h => h2 h.symm)
      · exact hhd b hb

theorem ascending_remove (k : κ) {l : List (κ × α)} (h : Ascending l) :
    Ascending (remove k l) :=
  List.Pairwise.sublist (List.filter_sublist l) h

theorem ascending_modify (k : κ) (f : α → α) {l : List (κ × α)} (h : Ascending l) :
    Ascending (modify k f l) := by
  unfold modify Ascending
  rw [List.pairwise_map]
  refine List.Pairwise.imp ?_ h
  intro a b hab
  by_cases ha : a.1 = k <;> by_cases hb : b.1 = k <;> simp [ha, hb] <;> simp [ha, hb] at hab <;> exact hab

end Assoc

/-! ## `QMap` -/

/-- A `QMap<κ, α>`: entries in ascending key order, one per key. -/
structure QMap (κ α : Type) [LinearOrder κ] where
  entries : List (κ × α)
  sorted : Assoc.Ascending entries

namespace QMap

variable {κ α : Type} [LinearOrder κ]

/-- The default constructed, empty map; also the result of `clear()`. -/
def empty : QMap κ α := ⟨[], List.Pairwise.nil⟩

/-- The method `value(key)` for a pointer valued map: `none` is the null pointer. -/
def value (m : QMap κ α) (k : κ) : Option α := Assoc.lookup k m.entries

/-- The method `value(key, defaultValue)`. -/
def valueD (m : QMap κ α) (k : κ) (d : α) : α := (m.value k).getD d

/-- The method `contains(key)`. -/
def contains (m : QMap κ α) (k : κ) : Bool := (m.value k).isSome

/-- The method `insert(key, value)`. -/
def insert (m : QMap κ α) (k : κ) (v : α) : QMap κ α :=
  ⟨Assoc.insert k v m.entries, Assoc.ascending_insert k v m.sorted⟩

/-- The method `remove(key)`. -/
def remove (m : QMap κ α) (k : κ) : QMap κ α :=
  ⟨Assoc.remove k m.entries, Assoc.ascending_remove k m.sorted⟩

/-- An update `m.value(key)->f()` of the object a non-null entry points to. -/
def modify (m : QMap κ α) (k : κ) (f : α → α) : QMap κ α :=
  ⟨Assoc.modify k f m.entries, Assoc.ascending_modify k f m.sorted⟩

/-- The method `keys()`: the keys in ascending order. -/
def keys (m : QMap κ α) : List κ := m.entries.map Prod.fst

/-- The method `count()`. -/
def count (m : QMap κ α) : Int := (m.entries.length : Int)

/-- The loop `foreach (key, m.keys()) m.value(key)->f();`. -/
def foreachValue (m : QMap κ α) (f : α → α) : QMap κ α :=
  m.keys.foldl (fun acc key => acc.modify key f) m

/-- The loop `foreach (key, m.keys()) total += m.value(key)->count();`. -/
def sumCounts (size : α → Int) (m : QMap κ α) : Int :=
  m.keys.foldl (fun total key => total + ((m.value key).map size).getD 0) 0

/-- The loop `foreach (key, m.keys()) { total += m.value(key)->count(); m.value(key)->clear(); }`,
with `clr` the object after `clear()`. -/
def countAndClear (size : α → Int) (clr : α) (m : QMap κ α) : Int × QMap κ α :=
  m.keys.foldl
    (fun acc key => (acc.1 + ((acc.2.value key).map size).getD 0, acc.2.modify key (fun _ => clr)))
    (0, m)

instance [DecidableEq κ] [DecidableEq α] : DecidableEq (QMap κ α) := fun a b =>
  if h : a.entries = b.entries then
    isTrue (by cases a; cases b; cases h; rfl)
  else
    isFalse (fun hab => h (by rw [hab]))

end QMap

/-! ## `QList<int>` -/

namespace QList

/-- Position of the first occurrence of `x`, counted from `i`; `-1` when there is none. -/
def indexOfFrom (x : Int) : List Int → Int → Int
  | [], _ => -1
  | y :: t, i => if y = x then i else indexOfFrom x t (i + 1)

/-- The method `indexOf(value)`. -/
def indexOf (l : List Int) (x : Int) : Int := indexOfFrom x l 0

/-- The method `removeAt(i)`. -/
def removeAt (l : List Int) (i : Int) : List Int :=
  if 0 ≤ i then l.eraseIdx i.toNat else l

/-- The statements `int index = l.indexOf(paramId); if (index != -1) l.removeAt(index);`. -/
def removeFirst (l : List Int) (paramId : Int) : List Int :=
  let index := indexOf l paramId
  if index ≠ -1 then removeAt l index else l

/-- The loop `for (int i = 0; i < paramCount; ++i) if (!l.contains(i)) l.append(i);`. -/
def markAllMissing (paramCount : Int) (l : List Int) : List Int :=
  (List.range paramCount.toNat).foldl
    (fun (acc : List Int) (i : Nat) => if (i : Int) ∈ acc then acc else acc ++ [(i : Int)]) l

end QList

/-- The loop `foreach (x, l) { if (count < burst) { emit x; count++; } else break; }`:
the elements it emits. -/
def burstLoop {α : Type} (burst : Int) : Int → List α → List α
  | _, [] => []
  | count, x :: xs => if count < burst then x :: burstLoop burst (count + 1) xs else []

/-! ## The widget -/

/-- Background colour of the status label. -/
inductive Color
  | base
  | green
  | red
  | orange
deriving DecidableEq, Repr

/-- The texts the status label is set to, with the arguments substituted into them. -/
inductive StatusText
  /-- The text "Click refresh to download parameters". -/
  | clickRefresh
  /-- The text "SUCCESS: WROTE ALL PARAMETERS". -/
  | wroteAll
  /-- The text "SUCCESS: Wrote %2 (#%1/%4): %3". -/
  | wrote (number : Int) (parameterName : QString) (value : float) (paramCount : Int)
  /-- The text "FAILURE: Wrote %1: sent %2 != onboard %3". -/
  | failure (parameterName : QString) (sent : float) (onboard : float)
  /-- The text "Got %2 (#%1/%5): %3 (%4 missing)". -/
  | got (number : Int) (parameterName : QString) (value : float) (missCount : Int)
      (paramCount : Int)
  /-- The text "Requested param list.. waiting". -/
  | requestedList
  /-- The text "Changed Param %1:%2: %3". -/
  | changedParam (key : Int) (str : QString) (value : float)
  /-- The text "TIMEOUT! MISSING: %1 read, %2 write.". -/
  | timeout (missingReadCount : Int) (missingWriteCount : Int)
  /-- The text "Requested retransmission of #%1". -/
  | requestedRetransmission (number : Int)
  /-- The text "Requested rewrite of: %1: %2". -/
  | requestedRewrite (key : QString) (value : float)
  /-- The text "No transmission: No changed values.". -/
  | noTransmission
  /-- The text "Transmitting %1 parameters.". -/
  | transmitting (parametersSent : Int)
deriving DecidableEq, Repr

/-- What the widget sends to the vehicle object. -/
inductive Signal
  /-- The call `mav->requestParameters()`. -/
  | requestParameters
  /-- The signal `requestParameter(component, id)`. -/
  | requestParameter (component : Int) (id : Int)
  /-- The signal `parameterChanged(component, parameterName, value)`. -/
  | parameterChanged (component : Int) (parameterName : QString) (value : float)
deriving DecidableEq, Repr

/-- The two entries of the group `QGC_MAVLINK_PROTOCOL` that `loadSettings` reads;
`none` when the entry is absent or is not an integer. -/
structure Settings where
  PARAMETER_RETRANSMISSION_TIMEOUT : Option Int
  PARAMETER_REWRITE_TIMEOUT : Option Int

/-- The conversions `QString::toInt()` and `(float) QString::toDouble()` of Qt. -/
structure Conversions where
  toInt : QString → Int
  toDouble : QString → float

/-- The members of `QGCParamWidget` (and of its base class) the engine uses. -/
structure QGCParamWidget where
  /-- Keys of `components`; the tree items they map to are not modelled. -/
  components : QMap Int Unit
  parameters : QMap Int (QMap QString float)
  changedValues : QMap Int (QMap QString float)
  transmissionMissingPackets : QMap Int (List Int)
  transmissionMissingWriteAckPackets : QMap Int (QMap QString float)
  transmissionListSizeKnown : QMap Int Bool
  transmissionListMode : Bool
  transmissionActive : Bool
  /-- A `quint64` time stamp in milliseconds. -/
  transmissionTimeout : Nat
  retransmissionTimeout : Int
  rewriteTimeout : Int
  retransmissionBurstRequestSize : Int
  /-- The interval of `retransmissionTimer` while it runs, `none` while it is stopped. -/
  retransmissionTimer : Option Int
  statusLabel : StatusText
  statusColor : Color
  /-- The answers of the tree widget to the calls of
  `addParameter(uas, component, parameterName, value)` to come: `tree n value` lists, for the
  call after `n` further ones, what the slot `parameterItemChanged` reads from the item of the
  parameter each time the signal `itemChanged(item, 1)` is emitted while the call sets the
  data and the background of column 1 of the item (`setData(1, Qt::DisplayRole, value)` for an
  item that exists, `setBackground(1, Qt::NoBrush)` for every item); `none` is a text that is
  not a number. A new item is created with the text `QString::number(value)`, so its list is
  `[some (shownValue value)]`. -/
  tree : Nat → float → List (Option float)

/-- The state `addParameter` leaves, with the values of its local variables. -/
structure Observed where
  state : QGCParamWidget
  justWritten : Bool
  writeMismatch : Bool
  missCount : Int
  missWriteCount : Int

namespace QGCParamWidget

/-- Modelled from the spec: the members as the constructors leave them. The constructor of
the base class `QGCUASParamManager` is not under `src/`; by the spec the store and both
pending sets start empty, no transfer is active, and the two intervals and the burst size are
positive integers. The flag `transmissionListMode`, the deadline and the answers of the tree
widget are left open. -/
def isInitial (s : QGCParamWidget) : Prop :=
  s.components.entries = [] ∧ s.parameters.entries = [] ∧ s.changedValues.entries = [] ∧
  s.transmissionMissingPackets.entries = [] ∧
  s.transmissionMissingWriteAckPackets.entries = [] ∧
  s.transmissionListSizeKnown.entries = [] ∧
  s.transmissionActive = false ∧ s.retransmissionTimer = none ∧
  0 < s.retransmissionTimeout ∧ 0 < s.rewriteTimeout ∧ 0 < s.retransmissionBurstRequestSize

/-- The method `loadSettings()`. -/
def loadSettings (s : QGCParamWidget) (settings : Settings) : QGCParamWidget :=
  let s1 :=
    match settings.PARAMETER_RETRANSMISSION_TIMEOUT with
    | some temp => { s with retransmissionTimeout := temp }
    | none => s
  match settings.PARAMETER_REWRITE_TIMEOUT with
  | some temp => { s1 with rewriteTimeout := temp }
  | none => s1

/-- The method `clear()`: it empties the tree and the map `components`. -/
def clear (s : QGCParamWidget) : QGCParamWidget :=
  { s with components := QMap.empty }

/-- The method `setRetransmissionGuardEnabled(enabled)`. -/
def setRetransmissionGuardEnabled (s : QGCParamWidget) (enabled : Bool) : QGCParamWidget :=
  { s with retransmissionTimer := if enabled then some s.retransmissionTimeout else none }

/-- The method `addComponent(uas, component, componentName)`; the name only goes to the tree.
The branch for a component that is known renames its item; the callers in this file test
`components->contains(component)` first and never take it. -/
def addComponent (s : QGCParamWidget) (_uas : Int) (component : Int) : QGCParamWidget :=
  if s.components.contains component then s
  else
    { s with
      components := s.components.insert component ()
      parameters :=
        if !s.parameters.contains component then s.parameters.insert component QMap.empty
        else s.parameters
      changedValues :=
        if !s.changedValues.contains component then
          s.changedValues.insert component QMap.empty
        else s.changedValues }

/-- The slot `parameterItemChanged(current, column)` for the value column of the item of
parameter `str` below the top-level item of component `key`; `value` is the text of the item
converted to a number, `none` when the conversion fails. -/
def parameterItemChanged (s : QGCParamWidget) (key : Int) (str : QString)
    (value : Option float) : Option QGCParamWidget :=
  let dirty :=
    if !s.changedValues.contains key then s.changedValues.insert key QMap.empty
    else s.changedValues
  match value with
  | none => some { s with changedValues := dirty }
  | some value =>
    match s.parameters.value key with
    | none => none
    | some _ =>
      some { s with
        statusLabel := StatusText.changedParam key str value
        changedValues :=
          dirty.modify key (fun map =>
            (if map.contains str then map.remove str else map).insert str value)
        parameters :=
          s.parameters.modify key (fun m =>
            (if m.contains str then m.remove str else m).insert str value) }

/-- The calls of the slot `parameterItemChanged(item, 1)` that the signal `itemChanged` makes
for the item of `parameterName` below the item of `component`, one for each number read from
the item. -/
def itemsChanged (s : QGCParamWidget) (component : Int) (parameterName : QString) :
    List (Option float) → Option QGCParamWidget
  | [] => some s
  | x :: xs =>
    match s.parameterItemChanged component parameterName x with
    | none => none
    | some t => t.itemsChanged component parameterName xs

/-- The overload `addParameter(uas, component, parameterName, value)`: the update of
`parameters`, the update of the tree, during which the tree calls the slot
`parameterItemChanged` for the item of the parameter, and the update of `changedValues`. The
result is `none` when `parameters.value(component)` is the null pointer. -/
def addParameter4 (s : QGCParamWidget) (uas : Int) (component : Int) (parameterName : QString)
    (value : float) : Option QGCParamWidget :=
  let s1 := if !s.components.contains component then s.addComponent uas component else s
  match s1.parameters.value component with
  | none => none
  | some map =>
    let map1 := if map.contains parameterName then map.remove parameterName else map
    let s2 := { s1 with
      parameters := s1.parameters.modify component (fun _ => map1.insert parameterName value)
      tree := fun n => s1.tree (n + 1) }
    match s2.itemsChanged component parameterName (s1.tree 0 value) with
    | none => none
    | some s3 =>
      some { s3 with
        changedValues :=
          if s3.changedValues.contains component then
            s3.changedValues.modify component (fun m => m.remove parameterName)
          else s3.changedValues }

/-- The statements "Missing packets list has to be instantiated for all components". -/
def instantiateMissingPackets (s : QGCParamWidget) (component : Int) : QGCParamWidget :=
  { s with
    transmissionMissingPackets :=
      if !s.transmissionMissingPackets.contains component then
        s.transmissionMissingPackets.insert component []
      else s.transmissionMissingPackets }

/-- The value `QGC::groundTimeMilliseconds() + ((paramCount/retransmissionBurstRequestSize+5)
*retransmissionTimeout)`: the product is computed in `int` and added in `quint64`. -/
def thisTransmissionTimeout (s : QGCParamWidget) (paramCount : Int) (now : Nat) : Nat :=
  addQuint64 now
    (wrapInt (wrapInt (Int.tdiv paramCount s.retransmissionBurstRequestSize + 5) *
      s.retransmissionTimeout))

/-- The body of `if (!transmissionListSizeKnown.contains(component))`: the list size is
accepted with the first packet of a component. The division crashes for a burst size of `0`. -/
def acceptListSize (s : QGCParamWidget) (component : Int) (paramCount : Int) (now : Nat) :
    Option QGCParamWidget :=
  if s.retransmissionBurstRequestSize = 0 then none
  else
    some { s with
      transmissionListSizeKnown := s.transmissionListSizeKnown.insert component true
      transmissionMissingPackets :=
        s.transmissionMissingPackets.modify component (QList.markAllMissing paramCount)
      transmissionTimeout :=
        if s.thisTransmissionTimeout paramCount now > s.transmissionTimeout then
          s.thisTransmissionTimeout paramCount now
        else s.transmissionTimeout }

/-- The body of `if (transmissionListMode)`. -/
def listModeBlock (s : QGCParamWidget) (component : Int) (paramCount : Int) (now : Nat) :
    Option QGCParamWidget :=
  if s.transmissionListMode then
    match
      (if !s.transmissionListSizeKnown.contains component then
        s.acceptListSize component paramCount now
      else some s) with
    | none => none
    | some s1 => some (s1.setRetransmissionGuardEnabled true)
  else some s

/-- The statements "Mark this parameter as received in read list"; the list of the component
has been instantiated before. -/
def markReceived (s : QGCParamWidget) (component : Int) (paramId : Int) : QGCParamWidget :=
  { s with
    transmissionMissingPackets :=
      s.transmissionMissingPackets.modify component (fun l => QList.removeFirst l paramId) }

/-- The statements "Mark this parameter as received in write ACK list": the new state and the
flags `justWritten` and `writeMismatch`. -/
def markWriteAck (s : QGCParamWidget) (component : Int) (parameterName : QString)
    (value : float) : QGCParamWidget × Bool × Bool :=
  match s.transmissionMissingWriteAckPackets.value component with
  | none => (s, false, false)
  | some map =>
    ({ s with
        transmissionMissingWriteAckPackets :=
          if map.contains parameterName then
            s.transmissionMissingWriteAckPackets.modify component
              (fun m => m.remove parameterName)
          else s.transmissionMissingWriteAckPackets },
      map.contains parameterName,
      map.contains parameterName && (map.valueD parameterName float.zero).ne value)

/-- The local `missCount`. -/
def missCount (s : QGCParamWidget) : Int :=
  QMap.sumCounts (fun l => (l.length : Int)) s.transmissionMissingPackets

/-- The local `missWriteCount`. -/
def missWriteCount (s : QGCParamWidget) : Int :=
  QMap.sumCounts QMap.count s.transmissionMissingWriteAckPackets

/-- The cascade that sets the text and the colour of the status label in `addParameter`.
`sent` is `map->value(parameterName)`, read after the entry has been removed from `map`.
The sum `paramId+1` is not reduced to 32 bits. -/
def statusOf (justWritten writeMismatch : Bool) (missCount missWriteCount : Int)
    (paramCount paramId : Int) (parameterName : QString) (value : float) (sent : float) :
    StatusText × Color :=
  if justWritten && !writeMismatch && decide (missWriteCount = 0) then
    (StatusText.wroteAll, Color.green)
  else if justWritten && !writeMismatch then
    (StatusText.wrote (paramId + 1) parameterName value paramCount, Color.green)
  else if justWritten && writeMismatch then
    (StatusText.failure parameterName sent value, Color.red)
  else
    (StatusText.got (paramId + 1) parameterName value missCount paramCount,
      if missCount > 0 then Color.orange else Color.green)

/-- The statements "Check if last parameter was received". -/
def checkLast (s : QGCParamWidget) (missCount missWriteCount : Int) : QGCParamWidget :=
  if missCount = 0 ∧ missWriteCount = 0 then
    { s with
      transmissionActive := false
      transmissionListMode := false
      transmissionListSizeKnown := QMap.empty
      transmissionMissingPackets := s.transmissionMissingPackets.foreachValue (fun _ => []) }
  else s

/-- The slot `addParameter(uas, component, paramCount, paramId, parameterName, value)`, called
for every parameter value received from the vehicle. -/
def addParameter (s : QGCParamWidget) (uas : Int) (component : Int) (paramCount : Int)
    (paramId : Int) (parameterName : QString) (value : float) (now : Nat) : Option Observed :=
  match s.addParameter4 uas component parameterName value with
  | none => none
  | some s1 =>
    match (s1.instantiateMissingPackets component).listModeBlock component paramCount now with
    | none => none
    | some s2 =>
      let s3 := s2.markReceived component paramId
      let ack := s3.markWriteAck component parameterName value
      let s4 := ack.1
      let justWritten := ack.2.1
      let writeMismatch := ack.2.2
      let missCount := s4.missCount
      let missWriteCount := s4.missWriteCount
      let sent :=
        ((s4.transmissionMissingWriteAckPackets.value component).map
          (fun m => m.valueD parameterName float.zero)).getD float.zero
      let status :=
        statusOf justWritten writeMismatch missCount missWriteCount paramCount paramId
          parameterName value sent
      let s5 := { s4 with statusLabel := status.1, statusColor := status.2 }
      some
        { state := s5.checkLast missCount missWriteCount
          justWritten := justWritten
          writeMismatch := writeMismatch
          missCount := missCount
          missWriteCount := missWriteCount }

/-- The slot `requestParameterList()`. -/
def requestParameterList (s : QGCParamWidget) (settings : Settings) :
    QGCParamWidget × List Signal :=
  let s1 := (s.loadSettings settings).clear
  ({ s1 with
      parameters := QMap.empty
      transmissionListMode := true
      transmissionListSizeKnown := QMap.empty
      transmissionMissingPackets := s1.transmissionMissingPackets.foreachValue (fun _ => [])
      transmissionActive := true
      statusLabel := StatusText.requestedList },
    [Signal.requestParameters, Signal.requestParameters])

/-- The slot `setParameter(component, parameterName, value)`. -/
def setParameter (s : QGCParamWidget) (component : Int) (parameterName : QString)
    (value : float) (now : Nat) : QGCParamWidget × List Signal :=
  let acks :=
    if !s.transmissionMissingWriteAckPackets.contains component then
      s.transmissionMissingWriteAckPackets.insert component QMap.empty
    else s.transmissionMissingWriteAckPackets
  let newTransmissionTimeout := addQuint64 now (wrapInt (5 * s.rewriteTimeout))
  let s1 := { s with
    transmissionMissingWriteAckPackets :=
      acks.modify component (fun m => m.insert parameterName value)
    transmissionActive := true
    transmissionTimeout :=
      if newTransmissionTimeout > s.transmissionTimeout then newTransmissionTimeout
      else s.transmissionTimeout }
  (s1.setRetransmissionGuardEnabled true,
    [Signal.parameterChanged component parameterName value])

/-- The two nested loops of `setParameters()`: state, signals emitted and `parametersSent`. -/
def setParametersLoop (s : QGCParamWidget) (now : Nat) : QGCParamWidget × List Signal × Int :=
  s.changedValues.entries.foldl
    (fun acc i =>
      i.2.entries.foldl
        (fun acc2 j =>
          let r := acc2.1.setParameter i.1 j.1 j.2 now
          (r.1, acc2.2.1 ++ r.2, acc2.2.2 + 1))
        acc)
    (s, [], 0)

/-- The slot `setParameters()`. The division crashes for a burst size of `0`. -/
def setParameters (s : QGCParamWidget) (now : Nat) : Option (QGCParamWidget × List Signal) :=
  let r := s.setParametersLoop now
  let s1 := r.1
  let parametersSent := r.2.2
  if parametersSent = 0 then
    some ({ s1 with statusLabel := StatusText.noTransmission, changedValues := QMap.empty },
      r.2.1)
  else if s1.retransmissionBurstRequestSize = 0 then none
  else
    let newTransmissionTimeout :=
      addQuint64 now
        (wrapInt (wrapInt (Int.tdiv parametersSent s1.retransmissionBurstRequestSize + 5) *
          s1.rewriteTimeout))
    let s2 := { s1 with
      statusLabel := StatusText.transmitting parametersSent
      transmissionActive := true
      transmissionTimeout :=
        if newTransmissionTimeout > s1.transmissionTimeout then newTransmissionTimeout
        else s1.transmissionTimeout }
    some ({ s2.setRetransmissionGuardEnabled true with changedValues := QMap.empty }, r.2.1)

/-- The body of `if (QGC::groundTimeMilliseconds() > transmissionTimeout)` in the guard. -/
def declareTimeout (s : QGCParamWidget) : QGCParamWidget :=
  let s1 := s.setRetransmissionGuardEnabled false
  let reads := QMap.countAndClear (fun l => (l.length : Int)) [] s1.transmissionMissingPackets
  let writes := QMap.countAndClear QMap.count QMap.empty s1.transmissionMissingWriteAckPackets
  { s1 with
    transmissionActive := false
    transmissionMissingPackets := reads.2
    transmissionMissingWriteAckPackets := writes.2
    statusLabel := StatusText.timeout reads.1 writes.1 }

/-- The signals `requestParameter(component, id)` of one guard tick, in the order emitted. -/
def readRequests (s : QGCParamWidget) : List Signal :=
  s.parameters.keys.flatMap (fun component =>
    match s.transmissionMissingPackets.value component with
    | none => []
    | some paramList =>
      (burstLoop s.retransmissionBurstRequestSize 0 paramList).map
        (fun id => Signal.requestParameter component id))

/-- The signals `parameterChanged(component, key, value)` of one guard tick, in the order
emitted. -/
def writeRequests (s : QGCParamWidget) : List Signal :=
  s.transmissionMissingWriteAckPackets.keys.flatMap (fun component =>
    match s.transmissionMissingWriteAckPackets.value component with
    | none => []
    | some missingParams =>
      (burstLoop s.retransmissionBurstRequestSize 0 missingParams.keys).map
        (fun key =>
          Signal.parameterChanged component key (missingParams.valueD key float.zero)))

/-- The text the guard sets with a signal it emits. -/
def labelAfter (label : StatusText) : Signal → StatusText
  | Signal.requestParameters => label
  | Signal.requestParameter _ id => StatusText.requestedRetransmission (id + 1)
  | Signal.parameterChanged _ key value => StatusText.requestedRewrite key value

/-- The slot `retransmissionGuardTick()`, called by `retransmissionTimer`. -/
def retransmissionGuardTick (s : QGCParamWidget) (now : Nat) : QGCParamWidget × List Signal :=
  if s.transmissionActive then
    let s1 := if now > s.transmissionTimeout then s.declareTimeout else s
    let signals := s1.readRequests ++ s1.writeRequests
    ({ s1 with statusLabel := signals.foldl labelAfter s1.statusLabel }, signals)
  else (s.setRetransmissionGuardEnabled false, [])

/-- The method `QString::split(sep)` for a separator of one code unit. -/
def split (sep : Nat) : QString → List QString
  | [] => [[]]
  | c :: cs =>
    if c = sep then [] :: split sep cs
    else
      match split sep cs with
      | [] => [[c]]
      | w :: ws => (c :: w) :: ws

/-- The body of the loop `while (!in.atEnd())` of `loadParameters()` for one line of the file.
The code unit 35 is the hash sign and 9 is the tabulator. -/
def loadLine (conv : Conversions) (uasId : Int) (s : QGCParamWidget) (line : QString) :
    Option QGCParamWidget :=
  if line.head? = some 35 then some s
  else
    match split 9 line with
    | [p0, p1, p2, p3] =>
      if uasId = conv.toInt p0 then
        let component := conv.toInt p1
        let parameterName := p2
        let changed :=
          !s.parameters.contains component ||
            (((s.parameters.value component).map
              (fun m => m.valueD parameterName float.zero)).getD float.zero).ne
              (conv.toDouble p3)
        match s.addParameter4 (conv.toInt p0) component parameterName (conv.toDouble p3) with
        | none => none
        | some s1 =>
          let dirty :=
            if !s1.changedValues.contains component then
              s1.changedValues.insert component QMap.empty
            else s1.changedValues
          some { s1 with
            changedValues :=
              if changed then
                dirty.modify component (fun m =>
                  (if m.contains parameterName then m.remove parameterName else m).insert
                    parameterName (conv.toDouble p3))
              else s1.changedValues }
      else some s
    | _ => some s

/-- The slot `loadParameters()`; `file` is the list of the lines of the chosen file, `none`
when the file cannot be opened. -/
def loadParameters (conv : Conversions) (uasId : Int) (s : QGCParamWidget)
    (file : Option (List QString)) : Option QGCParamWidget :=
  match file with
  | none => some s
  | some lines =>
    lines.foldl
      (fun acc line =>
        match acc with
        | none => none
        | some t => loadLine conv uasId t line)
      (some s.clear)

end QGCParamWidget

/-! ## Runs of the engine -/

/-- One delivery of the signal `parameterChanged(uas, component, paramCount, paramId,
parameterName, value)` by the vehicle object, with the time at which it arrives; the
component and the parameter count are those of the list being received. -/
structure Observation where
  paramId : Int
  parameterName : QString
  value : float
  now : Nat

/-- The deliveries `obs`, all for `component` and all carrying `paramCount`, in order. -/
def receiveAll (uas : Int) (component : Int) (paramCount : Int) :
    QGCParamWidget → List Observation → Option QGCParamWidget
  | s, [] => some s
  | s, o :: os =>
    match s.addParameter uas component paramCount o.paramId o.parameterName o.value o.now with
    | none => none
    | some r => receiveAll uas component paramCount r.state os

/-- The states the widget can be in: those the constructor leaves and those a slot leaves when
it is called in such a state and returns. -/
inductive Reachable : QGCParamWidget → Prop
  | init (s : QGCParamWidget) (h : s.isInitial) : Reachable s
  | requestParameterList (s : QGCParamWidget) (settings : Settings) (h : Reachable s) :
      Reachable (s.requestParameterList settings).1
  | addParameter (s : QGCParamWidget) (uas component paramCount paramId : Int)
      (parameterName : QString) (value : float) (now : Nat) (r : Observed) (h : Reachable s)
      (hr : s.addParameter uas component paramCount paramId parameterName value now = some r) :
      Reachable r.state
  | setParameter (s : QGCParamWidget) (component : Int) (parameterName : QString)
      (value : float) (now : Nat) (h : Reachable s) :
      Reachable (s.setParameter component parameterName value now).1
  | setParameters (s : QGCParamWidget) (now : Nat) (r : QGCParamWidget × List Signal)
      (h : Reachable s) (hr : s.setParameters now = some r) : Reachable r.1
  | retransmissionGuardTick (s : QGCParamWidget) (now : Nat) (h : Reachable s) :
      Reachable (s.retransmissionGuardTick now).1
  | loadParameters (s : QGCParamWidget) (conv : Conversions) (uasId : Int)
      (file : Option (List QString)) (t : QGCParamWidget) (h : Reachable s)
      (ht : QGCParamWidget.loadParameters conv uasId s file = some t) : Reachable t
  | parameterItemChanged (s : QGCParamWidget) (key : Int) (str : QString)
      (value : Option float) (t : QGCParamWidget) (h : Reachable s)
      (hk : s.components.contains key = true)
      (ht : s.parameterItemChanged key str value = some t) : Reachable t

/-- A state the constructor leaves: nothing stored, nothing pending, the timer stopped, a
retransmission interval of 350 ms, a rewrite interval of 500 ms and bursts of 2 requests. The
tree answers every store update as for an item that shows the text `QString::number(value)`,
which is what a new item shows: the slot `parameterItemChanged` reads this text back. -/
def startState : QGCParamWidget :=
  { components := QMap.empty
    parameters := QMap.empty
    changedValues := QMap.empty
    transmissionMissingPackets := QMap.empty
    transmissionMissingWriteAckPackets := QMap.empty
    transmissionListSizeKnown := QMap.empty
    transmissionListMode := false
    transmissionActive := false
    transmissionTimeout := 0
    retransmissionTimeout := 350
    rewriteTimeout := 500
    retransmissionBurstRequestSize := 2
    retransmissionTimer := none
    statusLabel := StatusText.clickRefresh
    statusColor := Color.base
    tree := fun _ value => [some (shownValue value)] }

/-- The result of the first packet after a list request in `startState`: parameter 0 of 3 of
component 1. -/
def firstPacket : Option Observed :=
  (startState.requestParameterList ⟨none, none⟩).1.addParameter 0 1 3 0 (qs "A") ⟨0x3F800000⟩
    1000

/-- A state in the middle of a transfer: the indices 1 and 2 of component 1 are missing and the
write of 5.0 to the parameter P of component 1 is not acknowledged. -/
def midTransfer : QGCParamWidget :=
  match firstPacket with
  | some r => (r.state.setParameter 1 (qs "P") ⟨0x40A00000⟩ 2000).1
  | none => startState

/-- The parameter indices `0, ..., n-1` without those of `seen`, in ascending order. -/
def remaining (n : Nat) (seen : List Int) : List Int :=
  ((List.range n).map (fun (i : Nat) => (i : Int))).filter (fun i => decide (i ∉ seen))

/-- The sum of the sizes of the lists of missing packets of all components. -/
def pendingReads (s : QGCParamWidget) : Int :=
  (s.transmissionMissingPackets.entries.map (fun e => (e.2.length : Int))).sum

/-- The sum of the sizes of the maps of unacknowledged writes of all components. -/
def pendingWrites (s : QGCParamWidget) : Int :=
  (s.transmissionMissingWriteAckPackets.entries.map (fun e => (e.2.entries.length : Int))).sum

/-- The requests `requestParameter(component, id)` among `signals`: their indices `id`. -/
def readRequestsFor (component : Int) : List Signal → List Int
  | [] => []
  | Signal.requestParameter c id :: t =>
    if c = component then id :: readRequestsFor component t else readRequestsFor component t
  | _ :: t => readRequestsFor component t

/-- The requests `parameterChanged(component, name, value)` among `signals`: their pairs. -/
def writeRequestsFor (component : Int) : List Signal → List (QString × float)
  | [] => []
  | Signal.parameterChanged c name value :: t =>
    if c = component then (name, value) :: writeRequestsFor component t
    else writeRequestsFor component t
  | _ :: t => writeRequestsFor component t

/-! ## Operations of the engine -/

/-- A call of one of the slots of the engine, with its arguments and the time of the call. -/
inductive Operation
  /-- The slot `requestParameterList()`. -/
  | requestParameterList (settings : Settings)
  /-- The slot `addParameter(uas, component, paramCount, paramId, parameterName, value)`. -/
  | addParameter (uas component paramCount paramId : Int) (parameterName : QString)
      (value : float) (now : Nat)
  /-- The slot `setParameter(component, parameterName, value)`. -/
  | setParameter (component : Int) (parameterName : QString) (value : float) (now : Nat)
  /-- The slot `setParameters()`. -/
  | setParameters (now : Nat)
  /-- The slot `retransmissionGuardTick()`. -/
  | retransmissionGuardTick (now : Nat)
  /-- The slot `loadParameters()`. -/
  | loadParameters (conv : Conversions) (uasId : Int) (file : Option (List QString))

namespace Operation

/-- The state an operation leaves, `none` when the call crashes. -/
def run : Operation → QGCParamWidget → Option QGCParamWidget
  | requestParameterList settings, s => some (s.requestParameterList settings).1
  | addParameter uas component paramCount paramId parameterName value now, s =>
    (s.addParameter uas component paramCount paramId parameterName value now).map
      (fun r => r.state)
  | setParameter component parameterName value now, s =>
    some (s.setParameter component parameterName value now).1
  | setParameters now, s => (s.setParameters now).map (fun r => r.1)
  | retransmissionGuardTick now, s => some (s.retransmissionGuardTick now).1
  | loadParameters conv uasId file, s => QGCParamWidget.loadParameters conv uasId s file

/-- The state a sequence of operations leaves. -/
def runAll : List Operation → QGCParamWidget → Option QGCParamWidget
  | [], s => some s
  | op :: ops, s =>
    match op.run s with
    | none => none
    | some t => runAll ops t

end Operation

/-- The value of the unacknowledged write of `(component, parameterName)`, `none` when there
is none. -/
def pendingValue (s : QGCParamWidget) (component : Int) (parameterName : QString) :
    Option float :=
  (s.transmissionMissingWriteAckPackets.value component).bind
    (fun m => m.value parameterName)

/-- The number of entries of the map `changedValues`, over all components. -/
def dirtyCount (s : QGCParamWidget) : Int :=
  (s.changedValues.entries.map (fun e => (e.2.entries.length : Int))).sum

/-- The entries of the map `changedValues` as write requests, in the order of iteration. -/
def dirtyRequests (s : QGCParamWidget) : List Signal :=
  s.changedValues.entries.flatMap (fun e =>
    e.2.entries.map (fun j => Signal.parameterChanged e.1 j.1 j.2))

/-- The five rows of the status table of the specification. -/
inductive StatusClass
  /-- The row "all writes complete". -/
  | allWritesComplete
  /-- The row "wrote one of N, M remaining". -/
  | wroteOne
  /-- The row "write mismatch: sent X, peer reports Y". -/
  | writeMismatch
  /-- The row "received one, K missing". -/
  | receivedMissing
  /-- The row "received one, list complete". -/
  | receivedComplete
deriving DecidableEq, Repr

/-- The row a status shown by `addParameter` belongs to: the three texts of a write, and the
text "Got ..." on orange for missing packets and on green for a complete list. -/
def classOf : StatusText × Color → Option StatusClass
  | (StatusText.wroteAll, _) => some StatusClass.allWritesComplete
  | (StatusText.wrote _ _ _ _, _) => some StatusClass.wroteOne
  | (StatusText.failure _ _ _, _) => some StatusClass.writeMismatch
  | (StatusText.got _ _ _ _ _, Color.orange) => some StatusClass.receivedMissing
  | (StatusText.got _ _ _ _ _, Color.green) => some StatusClass.receivedComplete
  | _ => none

/-- The status table as the specification words it, row by row. -/
def specStatusClass (justWritten writeMismatch : Bool) (missingReadCount : Int)
    (missingWriteCount : Int) : Option StatusClass :=
  if justWritten = true ∧ writeMismatch = false ∧ missingWriteCount = 0 then
    some StatusClass.allWritesComplete
  else if justWritten = true ∧ writeMismatch = false ∧ missingWriteCount > 0 then
    some StatusClass.wroteOne
  else if justWritten = true ∧ writeMismatch = true then some StatusClass.writeMismatch
  else if justWritten = false ∧ missingReadCount > 0 then some StatusClass.receivedMissing
  else if justWritten = false ∧ missingReadCount = 0 then some StatusClass.receivedComplete
  else none

/-- A list request, the first packet of component 1, a guard tick after the deadline, and
then the first packet of component 2. -/
def lateFirstPacket : List Operation :=
  [Operation.requestParameterList ⟨none, none⟩,
    Operation.addParameter 0 1 3 0 (qs "A") ⟨0x3F800000⟩ 1000,
    Operation.retransmissionGuardTick 5000,
    Operation.addParameter 0 2 5 0 (qs "X") ⟨0x40000000⟩ 6000]

/-- The entries of the map `changedValues` as triples, in the order of iteration. -/
def dirtyList (s : QGCParamWidget) : List (Int × QString × float) :=
  s.changedValues.entries.flatMap (fun e => e.2.entries.map (fun j => (e.1, j.1, j.2)))

/-- The state after the calls `setParameter(x.1, x.2.1, x.2.2)` for the triples `x` of a list,
all at the time `now`. -/
def writeAll (now : Nat) (s : QGCParamWidget) (l : List (Int × QString × float)) :
    QGCParamWidget :=
  l.foldl (fun t x => (t.setParameter x.1 x.2.1 x.2.2 now).1) s

/-- The value stored for `(component, parameterName)` in `parameters`, `none` when there is
none. -/
def storedValue (s : QGCParamWidget) (component : Int) (parameterName : QString) :
    Option float :=
  (s.parameters.value component).bind (fun m => m.value parameterName)

/-- The start state after an edit of two values of component 1 in the view. -/
def dirtyState : QGCParamWidget :=
  { startState with
    changedValues :=
      QMap.empty.insert 1
        ((QMap.empty.insert (qs "P") (⟨0x40A00000⟩ : float)).insert (qs "Q") ⟨0x40C00000⟩) }

namespace Operation

/-- The requests an operation sends to the vehicle: the slots `addParameter` and
`loadParameters` send none. -/
def requests : Operation → QGCParamWidget → List Signal
  | requestParameterList settings, s => (s.requestParameterList settings).2
  | addParameter _ _ _ _ _ _ _, _ => []
  | setParameter component parameterName value now, s =>
    (s.setParameter component parameterName value now).2
  | setParameters now, s => ((s.setParameters now).map (fun r => r.2)).getD []
  | retransmissionGuardTick now, s => (s.retransmissionGuardTick now).2
  | loadParameters _ _ _, _ => []

/-- The operations by which the caller starts a transfer: `requestParameterList`,
`setParameter` and `setParameters`. -/
def startsTransfer : Operation → Bool
  | requestParameterList _ => true
  | setParameter _ _ _ _ => true
  | setParameters _ => true
  | _ => false

/-- The requests sent in the course of a sequence of operations, up to the first crash. -/
def requestsAll : List Operation → QGCParamWidget → List Signal
  | [], _ => []
  | op :: ops, s =>
    op.requests s ++
      (match op.run s with
      | none => []
      | some t => requestsAll ops t)

end Operation

/-- The value queued for `(component, parameterName)` in `changedValues`, `none` when there
is none. -/
def dirtyValue (s : QGCParamWidget) (component : Int) (parameterName : QString) :
    Option float :=
  (s.changedValues.value component).bind (fun m => m.value parameterName)

/-- The number written by a field of decimal digits, `0` for every other field. -/
def digitsToInt (q : QString) : Int :=
  if q ≠ [] ∧ q.all (fun d => decide (48 ≤ d ∧ d ≤ 57)) then
    q.foldl (fun acc d => acc * 10 + ((d : Int) - 48)) 0
  else 0

/-- Conversions for the fields of the example files: `toInt` reads a field of decimal digits,
`toDouble` reads the texts "0.75", "0.25" and "1234567", and both give `0` for the other
fields, as the conversions of Qt do for the text "0" and for a text that is not a number. -/
def exampleConversions : Conversions :=
  { toInt := digitsToInt
    toDouble := fun q =>
      if q = qs "0.75" then ⟨0x3F400000⟩
      else if q = qs "0.25" then ⟨0x3E800000⟩
      else if q = qs "1234567" then ⟨0x4996B438⟩
      else float.zero }

/-- The start state after the file with the one record `5 TAB 50 TAB THR_MIN TAB 0.25` has
been loaded for the vehicle 5. -/
def thrMinLoaded : QGCParamWidget :=
  match QGCParamWidget.loadParameters exampleConversions 5 startState
      (some [qs "5\t50\tTHR_MIN\t0.25"]) with
  | some t => t
  | none => startState

/-- The start state after a list request and a write of 5.0 to the parameter P of
component 2. -/
def writePending : QGCParamWidget :=
  ((startState.requestParameterList ⟨none, none⟩).1.setParameter 2 (qs "P") ⟨0x40A00000⟩ 100).1

/-- The number the calls of the slot `parameterItemChanged` leave in `parameters` for an
item whose parameter has the value `value` stored: the last number read from the item, or
`value` when none is read. -/
def lastRead (echoes : List (Option float)) (value : float) : float :=
  echoes.foldl (fun acc x => x.getD acc) value

/-! ## Notions used in the proofs -/

namespace QGCParamWidget

/-- Every component of the tree has its map in `parameters`: the store update dereferences
`parameters.value(component)` without a test. -/
def StoreOk (s : QGCParamWidget) : Prop :=
  ∀ k, s.components.contains k = true → s.parameters.contains k = true

/-- The members that the store update leaves alone. -/
structure SameTransfer (s t : QGCParamWidget) : Prop where
  missing : t.transmissionMissingPackets = s.transmissionMissingPackets
  acks : t.transmissionMissingWriteAckPackets = s.transmissionMissingWriteAckPackets
  sizeKnown : t.transmissionListSizeKnown = s.transmissionListSizeKnown
  listMode : t.transmissionListMode = s.transmissionListMode
  active : t.transmissionActive = s.transmissionActive
  timeout : t.transmissionTimeout = s.transmissionTimeout
  retransmission : t.retransmissionTimeout = s.retransmissionTimeout
  rewrite : t.rewriteTimeout = s.rewriteTimeout
  burst : t.retransmissionBurstRequestSize = s.retransmissionBurstRequestSize
  timer : t.retransmissionTimer = s.retransmissionTimer
  color : t.statusColor = s.statusColor

/-- The state before the map of the component is dereferenced. -/
def withComponent (s : QGCParamWidget) (uas c : Int) : QGCParamWidget :=
  if !s.components.contains c then s.addComponent uas c else s

/-- Whether a packet of `c` is the one with which the list size of `c` is accepted. -/
def seeds (s : QGCParamWidget) (c : Int) : Bool :=
  s.transmissionListMode && !s.transmissionListSizeKnown.contains c

/-- The lists of missing packets after a packet `(c, n, i)`, before the final check. -/
def readsAfter (s : QGCParamWidget) (c n i : Int) : QMap Int (List Int) :=
  ((if s.seeds c then
      (if !s.transmissionMissingPackets.contains c then
        s.transmissionMissingPackets.insert c []
      else s.transmissionMissingPackets).modify c (QList.markAllMissing n)
    else
      (if !s.transmissionMissingPackets.contains c then
        s.transmissionMissingPackets.insert c []
      else s.transmissionMissingPackets))).modify c (fun l => QList.removeFirst l i)

/-- Whether a packet for `(c, name)` acknowledges a write. -/
def acknowledges (s : QGCParamWidget) (c : Int) (name : QString) : Bool :=
  ((s.transmissionMissingWriteAckPackets.value c).map (fun m => m.contains name)).getD false

/-- The unacknowledged writes after a packet for `(c, name)`. -/
def acksAfter (s : QGCParamWidget) (c : Int) (name : QString) : QMap Int (QMap QString float) :=
  if s.acknowledges c name then
    s.transmissionMissingWriteAckPackets.modify c (fun m => m.remove name)
  else s.transmissionMissingWriteAckPackets

/-- The value sent with the write a packet for `(c, name)` acknowledges. -/
def sentValue (s : QGCParamWidget) (c : Int) (name : QString) : float :=
  ((s.transmissionMissingWriteAckPackets.value c).map
    (fun m => m.valueD name float.zero)).getD float.zero

/-- The result of `addParameter` in terms of the state `s` before the call and the state `s1`
after the store update. -/
def observed (s s1 : QGCParamWidget) (c n i : Int) (name : QString) (v : float) (now : Nat) :
    Observed :=
  let reads := s.readsAfter c n i
  let acks := s.acksAfter c name
  let missCount := QMap.sumCounts (fun l => (l.length : Int)) reads
  let missWriteCount := QMap.sumCounts QMap.count acks
  let justWritten := s.acknowledges c name
  let writeMismatch := s.acknowledges c name && (s.sentValue c name).ne v
  let status :=
    statusOf justWritten writeMismatch missCount missWriteCount n i name v
      (((acks.value c).map (fun m => m.valueD name float.zero)).getD float.zero)
  { state :=
      { components := s1.components
        parameters := s1.parameters
        changedValues := s1.changedValues
        transmissionMissingPackets :=
          if missCount = 0 ∧ missWriteCount = 0 then reads.foreachValue (fun _ => [])
          else reads
        transmissionMissingWriteAckPackets := acks
        transmissionListSizeKnown :=
          if missCount = 0 ∧ missWriteCount = 0 then QMap.empty
          else if s.seeds c then s.transmissionListSizeKnown.insert c true
          else s.transmissionListSizeKnown
        transmissionListMode :=
          if missCount = 0 ∧ missWriteCount = 0 then false else s.transmissionListMode
        transmissionActive :=
          if missCount = 0 ∧ missWriteCount = 0 then false else s.transmissionActive
        transmissionTimeout :=
          if s.seeds c = true ∧ s.thisTransmissionTimeout n now > s.transmissionTimeout then
            s.thisTransmissionTimeout n now
          else s.transmissionTimeout
        retransmissionTimeout := s.retransmissionTimeout
        rewriteTimeout := s.rewriteTimeout
        retransmissionBurstRequestSize := s.retransmissionBurstRequestSize
        retransmissionTimer :=
          if s.transmissionListMode then some s.retransmissionTimeout
          else s.retransmissionTimer
        statusLabel := status.1
        statusColor := status.2
        tree := s1.tree }
    justWritten := justWritten
    writeMismatch := writeMismatch
    missCount := missCount
    missWriteCount := missWriteCount }

/-- What holds in every state the widget can be in: the store update never meets a null
pointer, the burst size is not `0`, a component with missing packets has reported its list size
and has a map in `parameters`, and every list of missing packets is strictly ascending. -/
structure Inv (s : QGCParamWidget) : Prop where
  store : s.StoreOk
  burst : s.retransmissionBurstRequestSize ≠ 0
  seeded : ∀ c l, s.transmissionMissingPackets.value c = some l → l ≠ [] →
    s.transmissionListSizeKnown.contains c = true ∧ s.parameters.contains c = true
  ascending : ∀ c l, s.transmissionMissingPackets.value c = some l →
    l.Pairwise (fun a b => a < b)

/-- No write waits for its acknowledgement. -/
def NoPendingWrite (s : QGCParamWidget) : Prop :=
  ∀ k m, s.transmissionMissingWriteAckPackets.value k = some m → m.entries = []

/-- The state of a list transfer in which the packets with the indices `seen` have arrived for
component `c`, all with the parameter count `n`, and no packet of another component. -/
structure ListRun (c : Int) (n : Nat) (seen : List Int) (s : QGCParamWidget) : Prop where
  store : s.StoreOk
  burst : s.retransmissionBurstRequestSize ≠ 0
  others : ∀ k l, k ≠ c → s.transmissionMissingPackets.value k = some l → l = []
  own : (s.seeds c = true ∧ seen = [] ∧ (s.transmissionMissingPackets.value c).getD [] = []) ∨
    (s.seeds c = false ∧ s.transmissionMissingPackets.value c = some (remaining n seen))

end QGCParamWidget

/-- The indices of the packets `obs`, the latest first. -/
def seenOf (obs : List Observation) : List Int := (obs.map (fun o => o.paramId)).reverse

/-! ## Facts about association lists -/

namespace Assoc

variable {κ α : Type} [LinearOrder κ]

theorem lookup_insert_self (k : κ) (v : α) (l : List (κ × α)) :
    lookup k (insert k v l) = some v := by
  induction l with
  | nil => simp [insert, lookup]
  | cons hd t ih =>
    obtain ⟨k', v'⟩ := hd
    unfold insert
    split_ifs with h1 h2
    · simp [lookup]
    · simp [lookup]
    · have : k' ≠ k := fun h => h2 h.symm
      simp [lookup, this, ih]

theorem lookup_insert_ne {k k' : κ} (h : k' ≠ k) (v : α) (l : List (κ × α)) :
    lookup k' (insert k v l) = lookup k' l := by
  induction l with
  | nil => simp [insert, lookup, h.symm]
  | cons hd t ih =>
    obtain ⟨k₁, v₁⟩ := hd
    unfold insert
    split_ifs with h1 h2
    · simp [lookup, h.symm]
    · subst h2
      simp [lookup, h.symm]
    · by_cases hk : k₁ = k'
      · simp [lookup, hk]
      · simp [lookup, hk, ih]

theorem lookup_remove (k k' : κ) (l : List (κ × α)) :
    lookup k' (remove k l) = if k' = k then none else lookup k' l := by
  induction l with
  | nil => simp [remove, lookup]
  | cons hd t ih =>
    obtain ⟨k₁, v₁⟩ := hd
    unfold remove at ih ⊢
    by_cases h1 : k₁ = k
    · subst h1
      rw [List.filter_cons_of_neg (by simp), ih]
      by_cases h2 : k' = k₁
      · simp [h2]
      · have : k₁ ≠ k' := fun h => h2 h.symm
        simp [h2, lookup, this]
    · rw [List.filter_cons_of_pos (by simpa using h1)]
      by_cases h2 : k₁ = k'
      · subst h2
        simp [lookup, h1]
      · simp only [lookup, h2, if_false, ih]

theorem modify_cons (k k₁ : κ) (v₁ : α) (f : α → α) (t : List (κ × α)) :
    modify k f ((k₁, v₁) :: t) = (if k₁ = k then (k₁, f v₁) else (k₁, v₁)) :: modify k f t :=
  rfl

theorem lookup_modify (k k' : κ) (f : α → α) (l : List (κ × α)) :
    lookup k' (modify k f l) = if k' = k then (lookup k l).map f else lookup k' l := by
  induction l with
  | nil => simp [modify, lookup]
  | cons hd t ih =>
    obtain ⟨k₁, v₁⟩ := hd
    rw [modify_cons]
    by_cases h1 : k₁ = k
    · subst h1
      rw [if_pos rfl]
      by_cases h2 : k' = k₁
      · subst h2
        simp [lookup]
      · have : k₁ ≠ k' := fun h => h2 h.symm
        simp only [lookup, if_true, this, if_false, ih, h2]
    · rw [if_neg h1]
      by_cases h2 : k₁ = k'
      · subst h2
        simp [lookup, h1]
      · simp only [lookup, h2, h1, if_false, ih]

theorem mem_of_lookup {k : κ} {v : α} {l : List (κ × α)} (h : lookup k l = some v) :
    (k, v) ∈ l := by
  induction l with
  | nil => simp [lookup] at h
  | cons hd t ih =>
    obtain ⟨k₁, v₁⟩ := hd
    unfold lookup at h
    split_ifs at h with h1
    · subst h1
      cases h
      exact List.mem_cons_self _ _
    · exact List.mem_cons_of_mem _ (ih h)

theorem lookup_of_mem {k : κ} {v : α} {l : List (κ × α)} (hl : Ascending l)
    (h : (k, v) ∈ l) : lookup k l = some v := by
  induction l with
  | nil => simp at h
  | cons hd t ih =>
    obtain ⟨k₁, v₁⟩ := hd
    rcases List.mem_cons.1 h with h | h
    · cases h
      simp [lookup]
    · have hlt : k₁ < k := (List.pairwise_cons.1 hl).1 (k, v) h
      have : k₁ ≠ k := ne_of_lt hlt
      simp [lookup, this, ih (List.pairwise_cons.1 hl).2 h]

theorem lookup_eq_none_of_lt {k : κ} {l : List (κ × α)} (h : ∀ e ∈ l, k < e.1) :
    lookup k l = none := by
  induction l with
  | nil => rfl
  | cons hd t ih =>
    obtain ⟨k₁, v₁⟩ := hd
    have h1 : k < k₁ := h (k₁, v₁) (List.mem_cons_self _ _)
    have : k₁ ≠ k := fun e => (ne_of_lt h1) e.symm
    simp [lookup, this, ih (fun e he => h e (List.mem_cons_of_mem _ he))]

theorem modify_eq_map {k : κ} {f : α → α} {l : List (κ × α)} :
    modify k f l = l.map (fun e => if e.1 = k then (e.1, f e.2) else e) := rfl

theorem modify_eq_self {k : κ} {f : α → α} {l : List (κ × α)}
    (h : ∀ e ∈ l, e.1 = k → f e.2 = e.2) : modify k f l = l := by
  unfold modify
  conv_rhs => rw [← List.map_id l]
  apply List.map_congr_left
  intro e he
  by_cases hk : e.1 = k
  · simp [hk, h e he hk]
    rw [← hk]
  · simp [hk]

theorem map_fst_modify (k : κ) (f : α → α) (l : List (κ × α)) :
    (modify k f l).map Prod.fst = l.map Prod.fst := by
  unfold modify
  rw [List.map_map]
  apply List.map_congr_left
  intro e _
  by_cases hk : e.1 = k <;> simp [hk]

/-- Updating the values under the keys `ks` one after the other. -/
theorem foldl_modify (f : α → α) (ks : List κ) (hks : ks.Nodup) (l : List (κ × α)) :
    ks.foldl (fun acc key => modify key f acc) l =
      l.map (fun e => if e.1 ∈ ks then (e.1, f e.2) else e) := by
  induction ks generalizing l with
  | nil => simp
  | cons k ks ih =>
    rw [List.foldl_cons, ih (List.nodup_cons.1 hks).2, modify, List.map_map]
    apply List.map_congr_left
    intro e _
    have hk : k ∉ ks := (List.nodup_cons.1 hks).1
    by_cases h1 : e.1 = k
    · have : e.1 ∉ ks := h1 ▸ hk
      simp [h1, hk]
    · by_cases h2 : e.1 ∈ ks <;> simp [h1, h2]

theorem nodup_keys {l : List (κ × α)} (h : Ascending l) : (l.map Prod.fst).Nodup := by
  unfold Ascending at h
  unfold List.Nodup
  rw [List.pairwise_map]
  exact List.Pairwise.imp (fun hab => ne_of_lt hab) h

end Assoc

/-! ## Facts about `QMap` -/

namespace QMap

variable {κ α : Type} [LinearOrder κ]

theorem ext {a b : QMap κ α} (h : a.entries = b.entries) : a = b := by
  cases a; cases b; cases h; rfl

theorem value_empty (k : κ) : (empty : QMap κ α).value k = none := rfl

theorem contains_empty (k : κ) : (empty : QMap κ α).contains k = false := rfl

theorem value_insert (m : QMap κ α) (k k' : κ) (v : α) :
    (m.insert k v).value k' = if k' = k then some v else m.value k' := by
  unfold value insert
  by_cases h : k' = k
  · subst h
    simp [Assoc.lookup_insert_self]
  · simp [h, Assoc.lookup_insert_ne h]

theorem value_remove (m : QMap κ α) (k k' : κ) :
    (m.remove k).value k' = if k' = k then none else m.value k' :=
  Assoc.lookup_remove k k' m.entries

theorem value_modify (m : QMap κ α) (k k' : κ) (f : α → α) :
    (m.modify k f).value k' = if k' = k then (m.value k).map f else m.value k' :=
  Assoc.lookup_modify k k' f m.entries

theorem contains_iff (m : QMap κ α) (k : κ) : m.contains k = true ↔ ∃ v, m.value k = some v := by
  unfold contains
  exact Option.isSome_iff_exists

theorem contains_false_iff (m : QMap κ α) (k : κ) : m.contains k = false ↔ m.value k = none := by
  unfold contains
  cases m.value k <;> simp

theorem mem_entries_iff (m : QMap κ α) (k : κ) (v : α) :
    (k, v) ∈ m.entries ↔ m.value k = some v :=
  ⟨Assoc.lookup_of_mem m.sorted, Assoc.mem_of_lookup⟩

theorem keys_modify (m : QMap κ α) (k : κ) (f : α → α) : (m.modify k f).keys = m.keys :=
  Assoc.map_fst_modify k f m.entries

theorem modify_noop (m : QMap κ α) (k : κ) (f : α → α)
    (h : ∀ v, m.value k = some v → f v = v) : m.modify k f = m := by
  apply ext
  apply Assoc.modify_eq_self
  intro e he hk
  apply h
  rw [← mem_entries_iff, ← hk]
  exact he

theorem entries_foldl_modify (f : α → α) (ks : List κ) (m : QMap κ α) :
    (ks.foldl (fun acc key => acc.modify key f) m).entries =
      ks.foldl (fun acc key => Assoc.modify key f acc) m.entries := by
  induction ks generalizing m with
  | nil => rfl
  | cons k ks ih => rw [List.foldl_cons, ih, List.foldl_cons]; rfl

theorem entries_foreachValue (m : QMap κ α) (f : α → α) :
    (m.foreachValue f).entries = m.entries.map (fun e => (e.1, f e.2)) := by
  unfold foreachValue
  rw [entries_foldl_modify, Assoc.foldl_modify f m.keys (Assoc.nodup_keys m.sorted)]
  apply List.map_congr_left
  intro e he
  have : e.1 ∈ m.keys := List.mem_map_of_mem Prod.fst he
  simp [this]

theorem value_foreachValue (m : QMap κ α) (f : α → α) (k : κ) :
    (m.foreachValue f).value k = (m.value k).map f := by
  unfold value
  rw [entries_foreachValue]
  induction m.entries with
  | nil => rfl
  | cons hd t ih =>
    obtain ⟨k₁, v₁⟩ := hd
    by_cases h : k₁ = k
    · simp [Assoc.lookup, h]
    · simp only [List.map_cons, Assoc.lookup, h, if_false, ih]

theorem contains_foreachValue (m : QMap κ α) (f : α → α) (k : κ) :
    (m.foreachValue f).contains k = m.contains k := by
  unfold contains
  rw [value_foreachValue]
  cases m.value k <;> rfl

omit [LinearOrder κ] in
theorem foldl_add (g : κ → Int) (ks : List κ) (t : Int) :
    ks.foldl (fun total key => total + g key) t = t + (ks.map g).sum := by
  induction ks generalizing t with
  | nil => simp
  | cons k ks ih => rw [List.foldl_cons, ih, List.map_cons, List.sum_cons, add_assoc]

theorem sumCounts_eq (size : α → Int) (m : QMap κ α) :
    sumCounts size m = (m.entries.map (fun e => size e.2)).sum := by
  unfold sumCounts
  rw [foldl_add, zero_add, keys, List.map_map]
  congr 1
  apply List.map_congr_left
  intro e he
  have : m.value e.1 = some e.2 := (mem_entries_iff m e.1 e.2).1 he
  simp [this]

theorem countAndClear_aux (size : α → Int) (clr : α) (ks : List κ) (hks : ks.Nodup)
    (t : Int) (m : QMap κ α) :
    ks.foldl
        (fun acc key =>
          (acc.1 + ((acc.2.value key).map size).getD 0, acc.2.modify key (fun _ => clr)))
        (t, m) =
      (t + (ks.map (fun key => ((m.value key).map size).getD 0)).sum,
        ks.foldl (fun acc key => acc.modify key (fun _ => clr)) m) := by
  induction ks generalizing t m with
  | nil => simp
  | cons k ks ih =>
    have hk : k ∉ ks := (List.nodup_cons.1 hks).1
    rw [List.foldl_cons, ih (List.nodup_cons.1 hks).2, List.foldl_cons, List.map_cons,
      List.sum_cons, add_assoc]
    have hmap : ks.map (fun key => (((m.modify k (fun _ => clr)).value key).map size).getD 0) =
        ks.map (fun key => ((m.value key).map size).getD 0) := by
      apply List.map_congr_left
      intro k' hk'
      have : k' ≠ k := fun h => hk (h ▸ hk')
      rw [value_modify, if_neg this]
    simp only [hmap]

theorem countAndClear_fst (size : α → Int) (clr : α) (m : QMap κ α) :
    (countAndClear size clr m).1 = (m.entries.map (fun e => size e.2)).sum := by
  unfold countAndClear
  rw [countAndClear_aux size clr m.keys (Assoc.nodup_keys m.sorted), zero_add, keys,
    List.map_map]
  show (List.map _ m.entries).sum = _
  congr 1
  apply List.map_congr_left
  intro e he
  have : m.value e.1 = some e.2 := (mem_entries_iff m e.1 e.2).1 he
  simp [this]

theorem countAndClear_snd (size : α → Int) (clr : α) (m : QMap κ α) :
    (countAndClear size clr m).2 = m.foreachValue (fun _ => clr) := by
  unfold countAndClear
  rw [countAndClear_aux size clr m.keys (Assoc.nodup_keys m.sorted)]
  rfl

/-- The sum over all entries when every entry but the one of `c` has size `0`. -/
theorem sum_eq_single (size : α → Int) (m : QMap κ α) (c : κ)
    (h : ∀ k v, k ≠ c → m.value k = some v → size v = 0) :
    (m.entries.map (fun e => size e.2)).sum = ((m.value c).map size).getD 0 := by
  have key : ∀ l : List (κ × α), Assoc.Ascending l →
      (∀ k v, k ≠ c → (k, v) ∈ l → size v = 0) →
      (l.map (fun e => size e.2)).sum = ((Assoc.lookup c l).map size).getD 0 := by
    intro l
    induction l with
    | nil => intro _ _; rfl
    | cons hd t ih =>
      obtain ⟨k₁, v₁⟩ := hd
      intro hl hz
      have ht := ih (List.pairwise_cons.1 hl).2
        (fun k v hk hm => hz k v hk (List.mem_cons_of_mem _ hm))
      rw [List.map_cons, List.sum_cons, ht]
      by_cases h1 : k₁ = c
      · subst h1
        have hn : Assoc.lookup k₁ t = none :=
          Assoc.lookup_eq_none_of_lt (fun e he => (List.pairwise_cons.1 hl).1 e he)
        simp [Assoc.lookup, hn]
      · have : size v₁ = 0 := hz k₁ v₁ h1 (List.mem_cons_self _ _)
        simp [Assoc.lookup, h1, this]
  exact key m.entries m.sorted (fun k v hk hm => h k v hk ((mem_entries_iff m k v).1 hm))

theorem sum_eq_zero (size : α → Int) (m : QMap κ α)
    (h : ∀ k v, m.value k = some v → size v = 0) :
    (m.entries.map (fun e => size e.2)).sum = 0 := by
  apply List.sum_eq_zero
  intro x hx
  obtain ⟨e, he, rfl⟩ := List.mem_map.1 hx
  exact h e.1 e.2 ((mem_entries_iff m e.1 e.2).1 he)

end QMap

/-! ## Facts about the list of missing packets -/

namespace QList

theorem indexOfFrom_spec (x : Int) (l : List Int) (i : Int) :
    (indexOfFrom x l i = -1 ∧ x ∉ l) ∨
      ∃ j : Nat, indexOfFrom x l i = i + j ∧ l.eraseIdx j = l.erase x := by
  induction l generalizing i with
  | nil => exact Or.inl ⟨rfl, by simp⟩
  | cons y t ih =>
    unfold indexOfFrom
    by_cases h : y = x
    · subst h
      exact Or.inr ⟨0, by simp⟩
    · rw [if_neg h]
      rcases ih (i + 1) with ⟨h1, h2⟩ | ⟨j, h1, h2⟩
      · refine Or.inl ⟨h1, ?_⟩
        simp only [List.mem_cons, not_or]
        exact ⟨fun e => h e.symm, h2⟩
      · refine Or.inr ⟨j + 1, ?_, ?_⟩
        · rw [h1]; push_cast; ring
        · rw [List.eraseIdx_cons_succ, h2, List.erase_cons_tail]
          simpa using h

theorem removeFirst_eq_erase (l : List Int) (x : Int) : removeFirst l x = l.erase x := by
  unfold removeFirst indexOf
  rcases indexOfFrom_spec x l 0 with ⟨h1, h2⟩ | ⟨j, h1, h2⟩
  · simp only [h1, ne_eq, not_true_eq_false, if_false]
    exact (List.erase_of_not_mem h2).symm
  · have hj : (0 : Int) + (j : Int) ≠ -1 := by omega
    simp only [h1, ne_eq, hj, not_false_eq_true, if_true]
    unfold removeAt
    have : (0 : Int) ≤ 0 + (j : Int) := by omega
    rw [if_pos this]
    simpa using h2

theorem markAllMissing_nil (paramCount : Int) :
    markAllMissing paramCount [] = (List.range paramCount.toNat).map (fun (i : Nat) => (i : Int)) := by
  unfold markAllMissing
  induction paramCount.toNat with
  | zero => rfl
  | succ n ih =>
    rw [List.range_succ, List.foldl_append, ih, List.map_append]
    have : (n : Int) ∉ (List.range n).map (fun (i : Nat) => (i : Int)) := by
      simp
    simp [this]

end QList

theorem burstLoop_eq_take {α : Type} (burst : Int) (l : List α) (count : Nat) :
    burstLoop burst (count : Int) l = l.take (burst.toNat - count) := by
  induction l generalizing count with
  | nil => simp [burstLoop]
  | cons x xs ih =>
    unfold burstLoop
    by_cases h : (count : Int) < burst
    · rw [if_pos h]
      have h1 : burst.toNat - count = (burst.toNat - (count + 1)) + 1 := by omega
      have h2 := ih (count + 1)
      push_cast at h2
      rw [h2, h1, List.take_succ_cons]
    · rw [if_neg h]
      have h1 : burst.toNat - count = 0 := by omega
      rw [h1, List.take_zero]

theorem burstLoop_zero {α : Type} (burst : Int) (l : List α) :
    burstLoop burst 0 l = l.take burst.toNat := by
  have := burstLoop_eq_take burst l 0
  simpa using this

theorem remaining_nil (n : Nat) : remaining n [] = (List.range n).map (fun (i : Nat) => (i : Int)) := by
  unfold remaining
  simp

theorem mem_remaining (n : Nat) (seen : List Int) (i : Int) :
    i ∈ remaining n seen ↔ (0 ≤ i ∧ i < n) ∧ i ∉ seen := by
  unfold remaining
  simp only [List.mem_filter, List.mem_map, List.mem_range, decide_eq_true_eq]
  constructor
  · rintro ⟨⟨a, ha, rfl⟩, h⟩
    exact ⟨⟨by omega, by omega⟩, h⟩
  · rintro ⟨⟨h0, h1⟩, h⟩
    exact ⟨⟨i.toNat, by omega, by omega⟩, h⟩

theorem remaining_sorted (n : Nat) (seen : List Int) :
    (remaining n seen).Pairwise (fun a b => a < b) := by
  unfold remaining
  apply List.Pairwise.sublist (List.filter_sublist _)
  rw [List.pairwise_map]
  exact List.Pairwise.imp (fun h => by exact_mod_cast h) (List.pairwise_lt_range n)

theorem nodup_of_sorted {l : List Int} (h : l.Pairwise (fun a b => a < b)) : l.Nodup :=
  List.Pairwise.imp (fun hab => ne_of_lt hab) h

theorem remaining_erase (n : Nat) (seen : List Int) (i : Int) :
    (remaining n seen).erase i = remaining n (i :: seen) := by
  rw [List.Nodup.erase_eq_filter (nodup_of_sorted (remaining_sorted n seen))]
  unfold remaining
  rw [List.filter_filter]
  apply List.filter_congr
  intro x _
  simp only [List.mem_cons, not_or, bne_iff_ne, ne_eq, Bool.decide_and, Bool.and_eq_true,
    decide_eq_true_eq]
  by_cases h1 : x = i <;> by_cases h2 : x ∈ seen <;> simp [h1, h2]

theorem length_remaining (n : Nat) (seen : List Int) (hnd : seen.Nodup)
    (hr : ∀ i ∈ seen, 0 ≤ i ∧ i < n) : (remaining n seen).length = n - seen.length := by
  induction seen with
  | nil => rw [remaining_nil]; simp
  | cons i seen ih =>
    have hi : i ∈ remaining n seen :=
      (mem_remaining n seen i).2 ⟨hr i (List.mem_cons_self _ _), (List.nodup_cons.1 hnd).1⟩
    rw [← remaining_erase, List.length_erase_of_mem hi,
      ih (List.nodup_cons.1 hnd).2 (fun j hj => hr j (List.mem_cons_of_mem _ hj))]
    simp only [List.length_cons]
    omega

theorem remaining_eq_nil_of_perm (n : Nat) (seen : List Int)
    (h : seen.Perm ((List.range n).map (fun (i : Nat) => (i : Int)))) : remaining n seen = [] := by
  apply List.eq_nil_iff_forall_not_mem.2
  intro i hi
  rw [mem_remaining] at hi
  apply hi.2
  rw [h.mem_iff]
  simp only [List.mem_map, List.mem_range]
  exact ⟨i.toNat, by omega, by omega⟩

/-! ## The store update `addParameter(uas, component, parameterName, value)` -/

namespace QGCParamWidget

theorem sameTransfer_refl (s : QGCParamWidget) : SameTransfer s s :=
  ⟨rfl, rfl, rfl, rfl, rfl, rfl, rfl, rfl, rfl, rfl, rfl⟩

theorem addComponent_sameTransfer (s : QGCParamWidget) (uas c : Int) :
    SameTransfer s (s.addComponent uas c) := by
  unfold addComponent
  split_ifs <;> exact ⟨rfl, rfl, rfl, rfl, rfl, rfl, rfl, rfl, rfl, rfl, rfl⟩

theorem addComponent_components (s : QGCParamWidget) (uas c k : Int) :
    (s.addComponent uas c).components.contains k =
      (s.components.contains k || decide (k = c)) := by
  unfold addComponent
  by_cases h : s.components.contains c = true
  · rw [if_pos h]
    by_cases hk : k = c
    · subst hk; simp [h]
    · simp [hk]
  · rw [if_neg h]
    show (s.components.insert c ()).contains k = _
    unfold QMap.contains
    rw [QMap.value_insert]
    by_cases hk : k = c <;> simp [hk]

theorem addComponent_parameters (s : QGCParamWidget) (uas c k : Int) :
    (s.addComponent uas c).parameters.value k =
      if s.components.contains c = false ∧ s.parameters.contains c = false ∧ k = c then
        some QMap.empty
      else s.parameters.value k := by
  unfold addComponent
  by_cases h : s.components.contains c = true
  · simp [h]
  · rw [if_neg h]
    have h' : s.components.contains c = false := by simpa using h
    show (if (!s.parameters.contains c) = true then s.parameters.insert c QMap.empty
      else s.parameters).value k = _
    by_cases hp : s.parameters.contains c = true
    · simp [hp]
    · have hp' : s.parameters.contains c = false := by simpa using hp
      simp only [hp', Bool.not_false, if_true, QMap.value_insert, h', true_and]

theorem addComponent_storeOk (s : QGCParamWidget) (uas c : Int) (h : s.StoreOk) :
    (s.addComponent uas c).StoreOk ∧ ((s.addComponent uas c).components.contains c = true) := by
  refine ⟨?_, by rw [addComponent_components]; simp⟩
  intro k hk
  rw [addComponent_components] at hk
  rw [QMap.contains_iff, addComponent_parameters]
  by_cases hc : s.components.contains c = false ∧ s.parameters.contains c = false ∧ k = c
  · exact ⟨_, if_pos hc⟩
  · rw [if_neg hc, ← QMap.contains_iff]
    rcases Bool.or_eq_true _ _ ▸ hk with h1 | h1
    · exact h k h1
    · have hkc : k = c := of_decide_eq_true h1
      subst hkc
      by_cases h2 : s.components.contains k = true
      · exact h k h2
      · by_contra h3
        exact hc ⟨by simpa using h2, by simpa using h3, rfl⟩

theorem withComponent_sameTransfer (s : QGCParamWidget) (uas c : Int) :
    SameTransfer s (s.withComponent uas c) := by
  unfold withComponent
  split_ifs
  · exact addComponent_sameTransfer s uas c
  · exact sameTransfer_refl s

theorem withComponent_storeOk (s : QGCParamWidget) (uas c : Int) (h : s.StoreOk) :
    (s.withComponent uas c).StoreOk ∧ (s.withComponent uas c).parameters.contains c = true := by
  unfold withComponent
  by_cases hc : s.components.contains c = true
  · simp only [hc, Bool.not_true, Bool.false_eq_true, if_false]
    exact ⟨h, h c hc⟩
  · have hc' : s.components.contains c = false := by simpa using hc
    simp only [hc', Bool.not_false, if_true]
    have := addComponent_storeOk s uas c h
    exact ⟨this.1, this.1 c this.2⟩

theorem withComponent_contains (s : QGCParamWidget) (uas c k : Int)
    (h : s.parameters.contains k = true) : (s.withComponent uas c).parameters.contains k = true := by
  unfold withComponent
  split_ifs
  · rw [QMap.contains_iff, addComponent_parameters]
    split_ifs with h1
    · exact ⟨_, rfl⟩
    · exact (QMap.contains_iff _ _).1 h
  · exact h

/-- What a call of the slot `parameterItemChanged` that returns leaves as it is, and what it
stores. -/
theorem parameterItemChanged_facts {s t : QGCParamWidget} {key : Int} {str : QString}
    {x : Option float} (h : s.parameterItemChanged key str x = some t) :
    SameTransfer s t ∧ t.components = s.components ∧ t.tree = s.tree ∧
      (∀ k, t.parameters.contains k = s.parameters.contains k) ∧
      (∀ cur, storedValue s key str = some cur → storedValue t key str = some (x.getD cur)) := by
  unfold parameterItemChanged at h
  cases x with
  | none =>
    simp only [Option.some.injEq] at h
    subst h
    exact ⟨⟨rfl, rfl, rfl, rfl, rfl, rfl, rfl, rfl, rfl, rfl, rfl⟩, rfl, rfl, fun _ => rfl,
      fun cur hc => hc⟩
  | some v =>
    simp only at h
    cases hv : s.parameters.value key with
    | none => rw [hv] at h; cases h
    | some m =>
      rw [hv] at h
      simp only [Option.some.injEq] at h
      subst h
      refine ⟨⟨rfl, rfl, rfl, rfl, rfl, rfl, rfl, rfl, rfl, rfl, rfl⟩, rfl, rfl, ?_, ?_⟩
      · intro k
        show (QMap.modify _ _ _).contains k = _
        unfold QMap.contains
        rw [QMap.value_modify]
        by_cases hk : k = key
        · subst hk
          rw [if_pos rfl, hv]
          rfl
        · rw [if_neg hk]
      · intro cur _
        unfold storedValue
        show ((QMap.modify _ _ _).value key).bind _ = _
        rw [QMap.value_modify, if_pos rfl, hv]
        show ((if m.contains str then m.remove str else m).insert str v).value str = _
        rw [QMap.value_insert, if_pos rfl]
        rfl

theorem parameterItemChanged_total (s : QGCParamWidget) (key : Int) (str : QString)
    (x : Option float) (h : s.parameters.contains key = true) :
    ∃ t, s.parameterItemChanged key str x = some t := by
  obtain ⟨m, hm⟩ := (QMap.contains_iff _ _).1 h
  unfold parameterItemChanged
  cases x with
  | none => exact ⟨_, rfl⟩
  | some v =>
    simp only [hm]
    exact ⟨_, rfl⟩

theorem itemsChanged_facts (key : Int) (str : QString) (echoes : List (Option float)) :
    ∀ {s t : QGCParamWidget}, s.itemsChanged key str echoes = some t →
      SameTransfer s t ∧ t.components = s.components ∧ t.tree = s.tree ∧
        (∀ k, t.parameters.contains k = s.parameters.contains k) ∧
        (∀ cur, storedValue s key str = some cur →
          storedValue t key str = some (lastRead echoes cur)) := by
  induction echoes with
  | nil =>
    intro s t h
    cases h
    exact ⟨⟨rfl, rfl, rfl, rfl, rfl, rfl, rfl, rfl, rfl, rfl, rfl⟩, rfl, rfl, fun _ => rfl,
      fun cur hc => hc⟩
  | cons x xs ih =>
    intro s t h
    unfold itemsChanged at h
    cases h1 : s.parameterItemChanged key str x with
    | none => rw [h1] at h; cases h
    | some u =>
      rw [h1] at h
      have f1 := parameterItemChanged_facts h1
      have f2 := ih h
      refine ⟨?_, f2.2.1.trans f1.2.1, f2.2.2.1.trans f1.2.2.1,
        fun k => (f2.2.2.2.1 k).trans (f1.2.2.2.1 k), ?_⟩
      · exact ⟨f2.1.missing.trans f1.1.missing, f2.1.acks.trans f1.1.acks,
          f2.1.sizeKnown.trans f1.1.sizeKnown, f2.1.listMode.trans f1.1.listMode,
          f2.1.active.trans f1.1.active, f2.1.timeout.trans f1.1.timeout,
          f2.1.retransmission.trans f1.1.retransmission, f2.1.rewrite.trans f1.1.rewrite,
          f2.1.burst.trans f1.1.burst, f2.1.timer.trans f1.1.timer,
          f2.1.color.trans f1.1.color⟩
      · intro cur hc
        exact f2.2.2.2.2 _ (f1.2.2.2.2 cur hc)

theorem itemsChanged_total (key : Int) (str : QString) (echoes : List (Option float)) :
    ∀ s : QGCParamWidget, s.parameters.contains key = true →
      ∃ t, s.itemsChanged key str echoes = some t := by
  induction echoes with
  | nil => exact fun s _ => ⟨s, rfl⟩
  | cons x xs ih =>
    intro s h
    obtain ⟨u, hu⟩ := parameterItemChanged_total s key str x h
    have hc : u.parameters.contains key = true := by
      rw [(parameterItemChanged_facts hu).2.2.2.1]
      exact h
    obtain ⟨t, ht⟩ := ih u hc
    refine ⟨t, ?_⟩
    unfold itemsChanged
    rw [hu]
    exact ht

theorem addParameter4_eq (s : QGCParamWidget) (uas c : Int) (name : QString) (v : float) :
    s.addParameter4 uas c name v =
      match (s.withComponent uas c).parameters.value c with
      | none => none
      | some map =>
        match
          ({ s.withComponent uas c with
            parameters :=
              (s.withComponent uas c).parameters.modify c
                (fun _ => (if map.contains name then map.remove name else map).insert name v)
            tree := fun n => (s.withComponent uas c).tree (n + 1) } :
              QGCParamWidget).itemsChanged c name ((s.withComponent uas c).tree 0 v) with
        | none => none
        | some s3 =>
          some { s3 with
            changedValues :=
              if s3.changedValues.contains c then
                s3.changedValues.modify c (fun m => m.remove name)
              else s3.changedValues } := rfl

theorem withComponent_tree (s : QGCParamWidget) (uas c : Int) :
    (s.withComponent uas c).tree = s.tree := by
  unfold withComponent addComponent
  split_ifs <;> rfl

/-- The steps of a store update that returns. -/
theorem addParameter4_some {s t : QGCParamWidget} {uas c : Int} {name : QString}
    {v : float} (h : s.addParameter4 uas c name v = some t) :
    ∃ map s3, (s.withComponent uas c).parameters.value c = some map ∧
      ({ s.withComponent uas c with
        parameters :=
          (s.withComponent uas c).parameters.modify c
            (fun _ => (if map.contains name then map.remove name else map).insert name v)
        tree := fun n => (s.withComponent uas c).tree (n + 1) } :
          QGCParamWidget).itemsChanged c name (s.tree 0 v) = some s3 ∧
      t = { s3 with
        changedValues :=
          if s3.changedValues.contains c then
            s3.changedValues.modify c (fun m => m.remove name)
          else s3.changedValues } := by
  rw [addParameter4_eq, withComponent_tree] at h
  cases hm : (s.withComponent uas c).parameters.value c with
  | none => rw [hm] at h; cases h
  | some map =>
    rw [hm] at h
    simp only at h
    cases h3 : ({ s.withComponent uas c with
        parameters :=
          (s.withComponent uas c).parameters.modify c
            (fun _ => (if map.contains name then map.remove name else map).insert name v)
        tree := fun n => s.tree (n + 1) } :
          QGCParamWidget).itemsChanged c name (s.tree 0 v) with
    | none => rw [h3] at h; cases h
    | some s3 =>
      rw [h3] at h
      cases h
      refine ⟨map, s3, rfl, ?_, rfl⟩
      rw [withComponent_tree]
      exact h3

theorem contains_modify_const (m : QMap Int (QMap QString float)) (c k : Int)
    (x : QMap QString float) (h : m.value c ≠ none) :
    (m.modify c (fun _ => x)).contains k = m.contains k := by
  unfold QMap.contains
  rw [QMap.value_modify]
  by_cases hk : k = c
  · subst hk
    rw [if_pos rfl]
    cases hv : m.value k with
    | none => exact absurd hv h
    | some _ => rfl
  · rw [if_neg hk]

theorem addParameter4_total (s : QGCParamWidget) (uas c : Int) (name : QString) (v : float)
    (h : s.StoreOk) : ∃ t, s.addParameter4 uas c name v = some t := by
  rw [addParameter4_eq]
  have hc := (withComponent_storeOk s uas c h).2
  obtain ⟨map, hm⟩ := (QMap.contains_iff _ _).1 hc
  rw [hm]
  simp only
  obtain ⟨s3, h3⟩ := itemsChanged_total c name ((s.withComponent uas c).tree 0 v)
    ({ s.withComponent uas c with
      parameters :=
        (s.withComponent uas c).parameters.modify c
          (fun _ => (if map.contains name then map.remove name else map).insert name v)
      tree := fun n => (s.withComponent uas c).tree (n + 1) } : QGCParamWidget)
    (by
      show (QMap.modify _ _ _).contains c = true
      rw [contains_modify_const _ _ _ _ (by rw [hm]; exact fun e => Option.noConfusion e)]
      exact hc)
  rw [h3]
  exact ⟨_, rfl⟩

theorem addParameter4_sameTransfer {s t : QGCParamWidget} {uas c : Int} {name : QString}
    {v : float} (h : s.addParameter4 uas c name v = some t) : SameTransfer s t := by
  obtain ⟨map, s3, _, h3, rfl⟩ := addParameter4_some h
  have hw := withComponent_sameTransfer s uas c
  have f := (itemsChanged_facts c name _ h3).1
  exact ⟨f.missing.trans hw.missing, f.acks.trans hw.acks, f.sizeKnown.trans hw.sizeKnown,
    f.listMode.trans hw.listMode, f.active.trans hw.active, f.timeout.trans hw.timeout,
    f.retransmission.trans hw.retransmission, f.rewrite.trans hw.rewrite,
    f.burst.trans hw.burst, f.timer.trans hw.timer, f.color.trans hw.color⟩

theorem addParameter4_parameters {s t : QGCParamWidget} {uas c : Int} {name : QString}
    {v : float} (h : s.addParameter4 uas c name v = some t) (k : Int) :
    t.parameters.contains k = (s.withComponent uas c).parameters.contains k ∧
      t.components = (s.withComponent uas c).components := by
  obtain ⟨map, s3, hm, h3, rfl⟩ := addParameter4_some h
  have f := itemsChanged_facts c name _ h3
  refine ⟨?_, f.2.1⟩
  show s3.parameters.contains k = _
  rw [f.2.2.2.1 k]
  exact contains_modify_const _ _ _ _ (by rw [hm]; exact fun e => Option.noConfusion e)

theorem addParameter4_storeOk {s t : QGCParamWidget} {uas c : Int} {name : QString}
    {v : float} (h : s.addParameter4 uas c name v = some t) (hs : s.StoreOk) :
    t.StoreOk ∧ t.parameters.contains c = true ∧
      ∀ k, s.parameters.contains k = true → t.parameters.contains k = true := by
  have hw := withComponent_storeOk s uas c hs
  refine ⟨?_, ?_, ?_⟩
  · intro k hk
    rw [(addParameter4_parameters h k).2] at hk
    rw [(addParameter4_parameters h k).1]
    exact hw.1 k hk
  · rw [(addParameter4_parameters h c).1]
    exact hw.2
  · intro k hk
    rw [(addParameter4_parameters h k).1]
    exact withComponent_contains s uas c k hk

/-- The store update leaves the last number that the slot `parameterItemChanged` read from
the item of the parameter, and the value itself when the slot read none. -/
theorem addParameter4_value {s t : QGCParamWidget} {uas c : Int} {name : QString}
    {v : float} (h : s.addParameter4 uas c name v = some t) :
    storedValue t c name = some (lastRead (s.tree 0 v) v) := by
  obtain ⟨map, s3, hm, h3, rfl⟩ := addParameter4_some h
  have f := itemsChanged_facts c name _ h3
  refine f.2.2.2.2 v ?_
  unfold storedValue
  show ((QMap.modify _ _ _).value c).bind _ = _
  rw [QMap.value_modify, if_pos rfl, hm]
  show ((if map.contains name then map.remove name else map).insert name v).value name = _
  rw [QMap.value_insert, if_pos rfl]

/-- The store update makes the answers of the tree advance by one call. -/
theorem addParameter4_tree {s t : QGCParamWidget} {uas c : Int} {name : QString}
    {v : float} (h : s.addParameter4 uas c name v = some t) :
    t.tree = fun n => s.tree (n + 1) := by
  obtain ⟨map, s3, hm, h3, rfl⟩ := addParameter4_some h
  have f := itemsChanged_facts c name _ h3
  show s3.tree = _
  rw [f.2.2.1]
  show (fun n => (s.withComponent uas c).tree (n + 1)) = _
  rw [withComponent_tree]

/-! ## The slot `addParameter` in closed form -/

theorem markWriteAck_eq (s : QGCParamWidget) (c : Int) (name : QString) (v : float) :
    s.markWriteAck c name v =
      ({ s with transmissionMissingWriteAckPackets := s.acksAfter c name },
        s.acknowledges c name, s.acknowledges c name && (s.sentValue c name).ne v) := by
  unfold markWriteAck acksAfter acknowledges sentValue
  cases h : s.transmissionMissingWriteAckPackets.value c with
  | none => simp
  | some map => simp

theorem addParameter_eq (s s1 : QGCParamWidget) (uas c n i : Int) (name : QString) (v : float)
    (now : Nat) (h1 : s.addParameter4 uas c name v = some s1)
    (hb : s.retransmissionBurstRequestSize ≠ 0) :
    s.addParameter uas c n i name v now = some (s.observed s1 c n i name v now) := by
  have hf := addParameter4_sameTransfer h1
  obtain ⟨f1, f2, f3, f4, f5, f6, f7, f8, f9, f10, f11⟩ := hf
  obtain ⟨a1, a2, a3, tmp, twa, known, mode, act, tout, retx, rew, burst, timer, lbl, col,
    tr⟩ := s1
  simp only at f1 f2 f3 f4 f5 f6 f7 f8 f9 f10 f11
  subst f1 f2 f3 f4 f5 f6 f7 f8 f9 f10 f11
  unfold addParameter
  rw [h1]
  simp only
  unfold listModeBlock instantiateMissingPackets acceptListSize
  simp only
  by_cases hm : s.transmissionListMode = true
  · by_cases hk : s.transmissionListSizeKnown.contains c = true
    · simp only [hm, hk, if_true, Bool.not_true, Bool.false_eq_true, if_false, markWriteAck_eq,
        observed, seeds, Bool.and_false, readsAfter, acksAfter, acknowledges, sentValue,
        markReceived, checkLast,
        missCount, missWriteCount, setRetransmissionGuardEnabled, thisTransmissionTimeout,
        false_and]
      split_ifs <;> rfl
    · have hk' : s.transmissionListSizeKnown.contains c = false := by simpa using hk
      simp only [hm, hk', if_true, Bool.not_false, hb, if_false, markWriteAck_eq,
        observed, seeds, Bool.and_true, readsAfter, acksAfter, acknowledges, sentValue,
        markReceived, checkLast,
        missCount, missWriteCount, setRetransmissionGuardEnabled, thisTransmissionTimeout,
        true_and]
      split_ifs <;> rfl
  · have hm' : s.transmissionListMode = false := by simpa using hm
    simp only [hm', Bool.false_eq_true, if_false, markWriteAck_eq,
      observed, seeds, Bool.false_and, readsAfter, acksAfter, acknowledges, sentValue,
      markReceived, checkLast,
      missCount, missWriteCount, setRetransmissionGuardEnabled, thisTransmissionTimeout,
      false_and]
    split_ifs <;> rfl

theorem addParameter_total (s : QGCParamWidget) (uas c n i : Int) (name : QString) (v : float)
    (now : Nat) (hs : s.StoreOk) (hb : s.retransmissionBurstRequestSize ≠ 0) :
    ∃ s1, s.addParameter4 uas c name v = some s1 ∧
      s.addParameter uas c n i name v now = some (s.observed s1 c n i name v now) := by
  obtain ⟨s1, h1⟩ := addParameter4_total s uas c name v hs
  exact ⟨s1, h1, addParameter_eq s s1 uas c n i name v now h1 hb⟩

theorem addParameter_inv {s : QGCParamWidget} {uas c n i : Int} {name : QString} {v : float}
    {now : Nat} {r : Observed} (h : s.addParameter uas c n i name v now = some r)
    (hb : s.retransmissionBurstRequestSize ≠ 0) :
    ∃ s1, s.addParameter4 uas c name v = some s1 ∧ r = s.observed s1 c n i name v now := by
  cases h1 : s.addParameter4 uas c name v with
  | none =>
    unfold addParameter at h
    rw [h1] at h
    cases h
  | some s1 =>
    rw [addParameter_eq s s1 uas c n i name v now h1 hb] at h
    cases h
    exact ⟨s1, rfl, rfl⟩

/-! ## An invariant of the reachable states -/

theorem inv_congr {s t : QGCParamWidget} (h : s.Inv) (hc : t.components = s.components)
    (hp : t.parameters = s.parameters)
    (hb : t.retransmissionBurstRequestSize = s.retransmissionBurstRequestSize)
    (hm : t.transmissionMissingPackets = s.transmissionMissingPackets)
    (hk : t.transmissionListSizeKnown = s.transmissionListSizeKnown) : t.Inv := by
  refine ⟨?_, ?_, ?_, ?_⟩
  · intro k
    rw [hc, hp]
    exact h.store k
  · rw [hb]; exact h.burst
  · intro c l
    rw [hm, hk, hp]
    exact h.seeded c l
  · intro c l
    rw [hm]
    exact h.ascending c l

theorem inv_cleared {t : QGCParamWidget} (m : QMap Int (List Int)) (hs : t.StoreOk)
    (hb : t.retransmissionBurstRequestSize ≠ 0)
    (hm : t.transmissionMissingPackets = m.foreachValue (fun _ => [])) : t.Inv := by
  have key : ∀ c l, t.transmissionMissingPackets.value c = some l → l = [] := by
    intro c l hl
    rw [hm, QMap.value_foreachValue] at hl
    cases hv : m.value c with
    | none => rw [hv] at hl; cases hl
    | some l0 => rw [hv] at hl; cases hl; rfl
  refine ⟨hs, hb, ?_, ?_⟩
  · intro c l hl hne
    exact absurd (key c l hl) hne
  · intro c l hl
    rw [key c l hl]
    exact List.Pairwise.nil

theorem inv_of_isInitial {s : QGCParamWidget} (h : s.isInitial) : s.Inv := by
  obtain ⟨h1, h2, _, h4, _, _, _, _, _, _, h11⟩ := h
  have hv : ∀ c, s.transmissionMissingPackets.value c = none := by
    intro c
    unfold QMap.value
    rw [h4]
    rfl
  refine ⟨?_, ne_of_gt h11, ?_, ?_⟩
  · intro k hk
    unfold QMap.contains QMap.value at hk
    rw [h1] at hk
    cases hk
  · intro c l hl
    rw [hv c] at hl
    cases hl
  · intro c l hl
    rw [hv c] at hl
    cases hl

theorem loadSettings_burst (s : QGCParamWidget) (settings : Settings) :
    (s.loadSettings settings).retransmissionBurstRequestSize = s.retransmissionBurstRequestSize ∧
      (s.loadSettings settings).transmissionMissingPackets = s.transmissionMissingPackets ∧
      (s.loadSettings settings).transmissionMissingWriteAckPackets =
        s.transmissionMissingWriteAckPackets ∧
      (s.loadSettings settings).retransmissionTimer = s.retransmissionTimer ∧
      (s.loadSettings settings).transmissionTimeout = s.transmissionTimeout := by
  unfold loadSettings
  cases settings.PARAMETER_RETRANSMISSION_TIMEOUT <;>
    cases settings.PARAMETER_REWRITE_TIMEOUT <;> exact ⟨rfl, rfl, rfl, rfl, rfl⟩

theorem inv_requestParameterList (s : QGCParamWidget) (settings : Settings) (h : s.Inv) :
    (s.requestParameterList settings).1.Inv := by
  apply inv_cleared (s.loadSettings settings).transmissionMissingPackets
  · intro k hk
    cases hk
  · show (s.loadSettings settings).retransmissionBurstRequestSize ≠ 0
    rw [(loadSettings_burst s settings).1]
    exact h.burst
  · rfl

/-- The list of `c` before a packet is marked as received. -/
theorem readsAfter_value (s : QGCParamWidget) (c n i k : Int) :
    (s.readsAfter c n i).value k =
      if k = c then
        some (QList.removeFirst
          (if s.seeds c then
            QList.markAllMissing n ((s.transmissionMissingPackets.value c).getD [])
          else (s.transmissionMissingPackets.value c).getD []) i)
      else s.transmissionMissingPackets.value k := by
  have hinst : ∀ k', (if (!s.transmissionMissingPackets.contains c) = true then
        s.transmissionMissingPackets.insert c []
      else s.transmissionMissingPackets).value k' =
      if k' = c then some ((s.transmissionMissingPackets.value c).getD [])
      else s.transmissionMissingPackets.value k' := by
    intro k'
    cases hv : s.transmissionMissingPackets.value c with
    | none =>
      have : s.transmissionMissingPackets.contains c = false :=
        (QMap.contains_false_iff _ _).2 hv
      simp only [this, Bool.not_false, if_true, QMap.value_insert, Option.getD_none]
    | some l0 =>
      have : s.transmissionMissingPackets.contains c = true :=
        (QMap.contains_iff _ _).2 ⟨l0, hv⟩
      simp only [this, Bool.not_true, Bool.false_eq_true, if_false, Option.getD_some]
      by_cases hk : k' = c
      · rw [if_pos hk, hk, hv]
      · rw [if_neg hk]
  unfold readsAfter
  rw [QMap.value_modify]
  by_cases hk : k = c
  · subst hk
    simp only [if_true]
    by_cases hs : s.seeds k = true
    · simp only [hs, if_true, QMap.value_modify, hinst, Option.map_some']
    · simp only [hs, Bool.false_eq_true, if_false, hinst, if_true, Option.map_some']
  · simp only [hk, if_false]
    by_cases hs : s.seeds c = true
    · simp only [hs, if_true, QMap.value_modify, hk, if_false, hinst]
    · simp only [hs, Bool.false_eq_true, if_false, hinst, hk]

theorem sorted_erase {l : List Int} (h : l.Pairwise (fun a b => a < b)) (i : Int) :
    (l.erase i).Pairwise (fun a b => a < b) :=
  List.Pairwise.sublist (List.erase_sublist i l) h

theorem sorted_range (n : Int) :
    ((List.range n.toNat).map (fun (i : Nat) => (i : Int))).Pairwise (fun a b => a < b) := by
  rw [List.pairwise_map]
  exact List.Pairwise.imp (fun h => by exact_mod_cast h) (List.pairwise_lt_range n.toNat)

theorem inv_observed (s s1 : QGCParamWidget) (uas c n i : Int) (name : QString) (v : float)
    (now : Nat) (h : s.Inv) (h1 : s.addParameter4 uas c name v = some s1) :
    (s.observed s1 c n i name v now).state.Inv := by
  have hst := addParameter4_storeOk h1 h.store
  by_cases hd : QMap.sumCounts (fun l => (l.length : Int)) (s.readsAfter c n i) = 0 ∧
      QMap.sumCounts QMap.count (s.acksAfter c name) = 0
  · apply inv_cleared (s.readsAfter c n i)
    · exact hst.1
    · exact h.burst
    · show (if _ then _ else _) = _
      rw [if_pos hd]
  · have hl0 : s.seeds c = true → (s.transmissionMissingPackets.value c).getD [] = [] := by
      intro hs
      cases hv : s.transmissionMissingPackets.value c with
      | none => rfl
      | some l0 =>
        by_contra hne
        have := (h.seeded c l0 hv hne).1
        unfold seeds at hs
        rw [this] at hs
        simp at hs
    refine ⟨hst.1, h.burst, ?_, ?_⟩
    · intro k l hl hne
      have hl' : (s.readsAfter c n i).value k = some l := by
        have : (s.observed s1 c n i name v now).state.transmissionMissingPackets =
            s.readsAfter c n i := by
          show (if _ then _ else _) = _
          rw [if_neg hd]
        rw [← this]; exact hl
      have hkn : (s.observed s1 c n i name v now).state.transmissionListSizeKnown =
          if s.seeds c then s.transmissionListSizeKnown.insert c true
          else s.transmissionListSizeKnown := by
        show (if _ then _ else _) = _
        rw [if_neg hd]
      show (s.observed s1 c n i name v now).state.transmissionListSizeKnown.contains k = true ∧
        s1.parameters.contains k = true
      rw [hkn, readsAfter_value] at *
      by_cases hk : k = c
      · subst hk
        refine ⟨?_, hst.2.1⟩
        by_cases hs : s.seeds k = true
        · rw [if_pos hs]
          unfold QMap.contains
          rw [QMap.value_insert, if_pos rfl]
          rfl
        · rw [if_neg hs]
          rw [if_pos rfl] at hl'
          simp only [hs, Bool.false_eq_true, if_false, QList.removeFirst_eq_erase] at hl'
          cases hv : s.transmissionMissingPackets.value k with
          | none =>
            rw [hv] at hl'
            simp at hl'
            exact absurd hl' hne
          | some l0 =>
            rw [hv] at hl'
            simp only [Option.getD_some, Option.some.injEq] at hl'
            have : l0 ≠ [] := by
              intro e
              rw [e] at hl'
              simp at hl'
              exact hne hl'
            exact (h.seeded k l0 hv this).1
      · rw [if_neg hk] at hl'
        have := h.seeded k l hl' hne
        refine ⟨?_, hst.2.2 k this.2⟩
        by_cases hs : s.seeds c = true
        · rw [if_pos hs]
          unfold QMap.contains
          rw [QMap.value_insert, if_neg hk]
          exact this.1
        · rw [if_neg hs]
          exact this.1
    · intro k l hl
      have hl' : (s.readsAfter c n i).value k = some l := by
        have : (s.observed s1 c n i name v now).state.transmissionMissingPackets =
            s.readsAfter c n i := by
          show (if _ then _ else _) = _
          rw [if_neg hd]
        rw [← this]; exact hl
      rw [readsAfter_value] at hl'
      by_cases hk : k = c
      · subst hk
        rw [if_pos rfl] at hl'
        cases hl'
        rw [QList.removeFirst_eq_erase]
        apply sorted_erase
        by_cases hs : s.seeds k = true
        · rw [if_pos hs, hl0 hs, QList.markAllMissing_nil]
          exact sorted_range n
        · rw [if_neg hs]
          cases hv : s.transmissionMissingPackets.value k with
          | none => exact List.Pairwise.nil
          | some l0 => exact h.ascending k l0 hv
      · rw [if_neg hk] at hl'
        exact h.ascending k l hl'

theorem inv_setParameter (s : QGCParamWidget) (c : Int) (name : QString) (v : float)
    (now : Nat) (h : s.Inv) : (s.setParameter c name v now).1.Inv :=
  inv_congr h rfl rfl rfl rfl rfl

/-- A property that every call of `setParameter` keeps holds after the loops of
`setParameters`. -/
theorem setParametersLoop_induction (P : QGCParamWidget → Prop) (now : Nat)
    (hP : ∀ t c name v, P t → P (t.setParameter c name v now).1) (s : QGCParamWidget)
    (hs : P s) : P (s.setParametersLoop now).1 := by
  have inner : ∀ (c : Int) (l : List (QString × float))
      (acc : QGCParamWidget × List Signal × Int), P acc.1 →
      P (l.foldl
        (fun acc2 j =>
          ((acc2.1.setParameter c j.1 j.2 now).1,
            acc2.2.1 ++ (acc2.1.setParameter c j.1 j.2 now).2, acc2.2.2 + 1)) acc).1 := by
    intro c l
    induction l with
    | nil => intro acc h; exact h
    | cons j l ih =>
      intro acc h
      rw [List.foldl_cons]
      exact ih _ (hP _ _ _ _ h)
  have outer : ∀ (l : List (Int × QMap QString float))
      (acc : QGCParamWidget × List Signal × Int), P acc.1 →
      P (l.foldl
        (fun acc i =>
          i.2.entries.foldl
            (fun acc2 j =>
              ((acc2.1.setParameter i.1 j.1 j.2 now).1,
                acc2.2.1 ++ (acc2.1.setParameter i.1 j.1 j.2 now).2, acc2.2.2 + 1)) acc)
        acc).1 := by
    intro l
    induction l with
    | nil => intro acc h; exact h
    | cons i l ih =>
      intro acc h
      rw [List.foldl_cons]
      exact ih _ (inner i.1 i.2.entries acc h)
  exact outer s.changedValues.entries (s, [], 0) hs

theorem inv_setParameters (s : QGCParamWidget) (now : Nat) (r : QGCParamWidget × List Signal)
    (h : s.Inv) (hr : s.setParameters now = some r) : r.1.Inv := by
  have hl : (s.setParametersLoop now).1.Inv :=
    setParametersLoop_induction Inv now (fun t c name v ht => inv_setParameter t c name v now ht)
      s h
  unfold setParameters at hr
  simp only at hr
  by_cases h1 : (s.setParametersLoop now).2.2 = 0
  · rw [if_pos h1] at hr
    cases hr
    exact inv_congr hl rfl rfl rfl rfl rfl
  · rw [if_neg h1] at hr
    by_cases h2 : (s.setParametersLoop now).1.retransmissionBurstRequestSize = 0
    · rw [if_pos h2] at hr
      cases hr
    · rw [if_neg h2] at hr
      cases hr
      exact inv_congr hl rfl rfl rfl rfl rfl

theorem declareTimeout_missing (s : QGCParamWidget) :
    s.declareTimeout.transmissionMissingPackets =
      s.transmissionMissingPackets.foreachValue (fun _ => []) :=
  QMap.countAndClear_snd _ _ _

theorem declareTimeout_acks (s : QGCParamWidget) :
    s.declareTimeout.transmissionMissingWriteAckPackets =
      s.transmissionMissingWriteAckPackets.foreachValue (fun _ => QMap.empty) :=
  QMap.countAndClear_snd _ _ _

theorem inv_declareTimeout (s : QGCParamWidget) (h : s.Inv) : s.declareTimeout.Inv :=
  inv_cleared s.transmissionMissingPackets (fun k hk => h.store k hk) h.burst
    (declareTimeout_missing s)

theorem inv_retransmissionGuardTick (s : QGCParamWidget) (now : Nat) (h : s.Inv) :
    (s.retransmissionGuardTick now).1.Inv := by
  unfold retransmissionGuardTick
  split_ifs with h1 h2
  · exact inv_congr (inv_declareTimeout s h) rfl rfl rfl rfl rfl
  · exact inv_congr h rfl rfl rfl rfl rfl
  · exact inv_congr h rfl rfl rfl rfl rfl

theorem inv_loadLine (conv : Conversions) (uasId : Int) (s t : QGCParamWidget)
    (line : QString) (h : s.Inv) (ht : loadLine conv uasId s line = some t) : t.Inv := by
  unfold loadLine at ht
  split_ifs at ht with h1
  · cases ht; exact h
  · split at ht
    · rename_i p0 p1 p2 p3 _
      split_ifs at ht with h2
      · simp only at ht
        cases h4 : s.addParameter4 (conv.toInt p0) (conv.toInt p1) p2 (conv.toDouble p3) with
        | none => rw [h4] at ht; cases ht
        | some s1 =>
          rw [h4] at ht
          simp only [Option.some.injEq] at ht
          have hst := addParameter4_storeOk h4 h.store
          have hf := addParameter4_sameTransfer h4
          subst ht
          refine ⟨fun k hk => hst.1 k hk, ?_, ?_, ?_⟩
          · show s1.retransmissionBurstRequestSize ≠ 0
            rw [hf.burst]; exact h.burst
          · intro c l hl hne
            have hl' : s1.transmissionMissingPackets.value c = some l := hl
            rw [hf.missing] at hl'
            have := h.seeded c l hl' hne
            refine ⟨?_, hst.2.2 c this.2⟩
            show s1.transmissionListSizeKnown.contains c = true
            rw [hf.sizeKnown]; exact this.1
          · intro c l hl
            have hl' : s1.transmissionMissingPackets.value c = some l := hl
            rw [hf.missing] at hl'
            exact h.ascending c l hl'
      · cases ht; exact h
    · cases ht; exact h

theorem inv_loadParameters (conv : Conversions) (uasId : Int) (s t : QGCParamWidget)
    (file : Option (List QString)) (h : s.Inv)
    (ht : loadParameters conv uasId s file = some t) : t.Inv := by
  unfold loadParameters at ht
  cases file with
  | none => cases ht; exact h
  | some lines =>
    simp only at ht
    have hc : s.clear.Inv :=
      ⟨fun k hk => (by cases hk), h.burst, h.seeded, h.ascending⟩
    have key : ∀ (l : List QString) (acc : Option QGCParamWidget),
        (∀ a, acc = some a → a.Inv) → ∀ t,
        l.foldl
          (fun acc line =>
            match acc with
            | none => none
            | some t => loadLine conv uasId t line) acc = some t → t.Inv := by
      intro l
      induction l with
      | nil => intro acc ha t ht; exact ha t ht
      | cons line l ih =>
        intro acc ha t ht
        rw [List.foldl_cons] at ht
        refine ih _ ?_ t ht
        intro a hacc
        cases acc with
        | none => cases hacc
        | some a0 => exact inv_loadLine conv uasId a0 a line (ha a0 rfl) hacc
    exact key lines (some s.clear) (fun a ha => by cases ha; exact hc) t ht

theorem inv_parameterItemChanged (s t : QGCParamWidget) (key : Int) (str : QString)
    (value : Option float) (h : s.Inv) (ht : s.parameterItemChanged key str value = some t) :
    t.Inv := by
  unfold parameterItemChanged at ht
  cases value with
  | none =>
    simp only [Option.some.injEq] at ht
    subst ht
    exact inv_congr h rfl rfl rfl rfl rfl
  | some v =>
    simp only at ht
    cases hv : s.parameters.value key with
    | none => rw [hv] at ht; cases ht
    | some m =>
      rw [hv] at ht
      simp only [Option.some.injEq] at ht
      subst ht
      have hp : ∀ k, (s.parameters.modify key (fun m =>
          (if m.contains str then m.remove str else m).insert str v)).contains k =
          s.parameters.contains k := by
        intro k
        unfold QMap.contains
        rw [QMap.value_modify]
        by_cases hk : k = key
        · subst hk
          rw [if_pos rfl, hv]
          rfl
        · rw [if_neg hk]
      refine ⟨?_, h.burst, ?_, h.ascending⟩
      · intro k hk
        show (QMap.modify _ _ _).contains k = true
        rw [hp]
        exact h.store k hk
      · intro c l hl hne
        have := h.seeded c l hl hne
        refine ⟨this.1, ?_⟩
        show (QMap.modify _ _ _).contains c = true
        rw [hp]
        exact this.2

end QGCParamWidget

theorem inv_of_reachable {s : QGCParamWidget} (h : Reachable s) : s.Inv := by
  induction h with
  | init s h => exact QGCParamWidget.inv_of_isInitial h
  | requestParameterList s settings _ ih =>
    exact QGCParamWidget.inv_requestParameterList s settings ih
  | addParameter s uas component paramCount paramId parameterName value now r _ hr ih =>
    obtain ⟨s1, h1, rfl⟩ := QGCParamWidget.addParameter_inv hr ih.burst
    exact QGCParamWidget.inv_observed s s1 uas component paramCount paramId parameterName value
      now ih h1
  | setParameter s component parameterName value now _ ih =>
    exact QGCParamWidget.inv_setParameter s component parameterName value now ih
  | setParameters s now r _ hr ih => exact QGCParamWidget.inv_setParameters s now r ih hr
  | retransmissionGuardTick s now _ ih =>
    exact QGCParamWidget.inv_retransmissionGuardTick s now ih
  | loadParameters s conv uasId file t _ ht ih =>
    exact QGCParamWidget.inv_loadParameters conv uasId s t file ih ht
  | parameterItemChanged s key str value t _ _ ht ih =>
    exact QGCParamWidget.inv_parameterItemChanged s t key str value ih ht

/-! ## A list transfer for one component -/

namespace QGCParamWidget

theorem listRun_requestParameterList (s : QGCParamWidget) (settings : Settings) (c : Int)
    (n : Nat) (h : s.Inv) : ListRun c n [] (s.requestParameterList settings).1 := by
  have hv : ∀ k l, (s.requestParameterList settings).1.transmissionMissingPackets.value k =
      some l → l = [] := by
    intro k l hl
    have hl' : ((s.loadSettings settings).transmissionMissingPackets.foreachValue
        (fun _ => [])).value k = some l := hl
    rw [QMap.value_foreachValue] at hl'
    cases hx : (s.loadSettings settings).transmissionMissingPackets.value k with
    | none => rw [hx] at hl'; cases hl'
    | some l0 => rw [hx] at hl'; cases hl'; rfl
  refine ⟨fun k hk => (by cases hk), ?_, fun k l _ hl => hv k l hl, Or.inl ⟨rfl, rfl, ?_⟩⟩
  · show (s.loadSettings settings).retransmissionBurstRequestSize ≠ 0
    rw [(loadSettings_burst s settings).1]
    exact h.burst
  · cases hx : (s.requestParameterList settings).1.transmissionMissingPackets.value c with
    | none => rfl
    | some l0 => exact hv c l0 hx

theorem readsAfter_own {c : Int} {n : Nat} {seen : List Int} {s : QGCParamWidget}
    (h : ListRun c n seen s) (i : Int) :
    (s.readsAfter c n i).value c = some (remaining n (i :: seen)) := by
  rw [readsAfter_value, if_pos rfl, QList.removeFirst_eq_erase, ← remaining_erase]
  rcases h.own with ⟨h1, h2, h3⟩ | ⟨h1, h2⟩
  · rw [if_pos h1, h3, QList.markAllMissing_nil, h2, remaining_nil]
    rfl
  · rw [h1, h2]
    rfl

theorem readsAfter_others {c : Int} {n : Nat} {seen : List Int} {s : QGCParamWidget}
    (h : ListRun c n seen s) (i : Int) (k : Int) (l : List Int) (hk : k ≠ c)
    (hl : (s.readsAfter c n i).value k = some l) : l = [] := by
  rw [readsAfter_value, if_neg hk] at hl
  exact h.others k l hk hl

theorem missCount_readsAfter {c : Int} {n : Nat} {seen : List Int} {s : QGCParamWidget}
    (h : ListRun c n seen s) (i : Int) :
    QMap.sumCounts (fun l => (l.length : Int)) (s.readsAfter c n i) =
      ((remaining n (i :: seen)).length : Int) := by
  rw [QMap.sumCounts_eq]
  have key := QMap.sum_eq_single (fun l : List Int => (l.length : Int)) (s.readsAfter c n i) c
    (by
      intro k l hk hl
      rw [readsAfter_others h i k l hk hl]
      rfl)
  rw [readsAfter_own h] at key
  exact key

theorem acksAfter_noPendingWrite {s : QGCParamWidget} (h : s.NoPendingWrite) (c : Int)
    (name : QString) : s.acksAfter c name = s.transmissionMissingWriteAckPackets := by
  unfold acksAfter acknowledges
  cases hv : s.transmissionMissingWriteAckPackets.value c with
  | none => simp
  | some m =>
    have : m.contains name = false := by
      unfold QMap.contains QMap.value
      rw [h c m hv]
      rfl
    simp [this]

theorem missWriteCount_noPendingWrite {s : QGCParamWidget} (h : s.NoPendingWrite) :
    QMap.sumCounts QMap.count s.transmissionMissingWriteAckPackets = 0 := by
  rw [QMap.sumCounts_eq]
  apply QMap.sum_eq_zero
  intro k m hm
  unfold QMap.count
  rw [h k m hm]
  rfl

/-- One packet of the list transfer. -/
theorem listRun_step {c : Int} {n : Nat} {seen : List Int} {s : QGCParamWidget}
    (h : ListRun c n seen s) (uas i : Int) (name : QString) (v : float) (now : Nat) :
    ∃ r, s.addParameter uas c n i name v now = some r ∧
      ListRun c n (i :: seen) r.state ∧
      r.state.transmissionMissingPackets.value c = some (remaining n (i :: seen)) ∧
      r.missCount = ((remaining n (i :: seen)).length : Int) ∧
      (r.missCount = 0 → r.missWriteCount = 0 → r.state.transmissionActive = false) ∧
      (s.NoPendingWrite → r.state.NoPendingWrite ∧ r.missWriteCount = 0) := by
  obtain ⟨s1, h1, h2⟩ := addParameter_total s uas c n i name v now h.store h.burst
  refine ⟨_, h2, ?_, ?_, missCount_readsAfter h i, ?_, ?_⟩
  · have hst := addParameter4_storeOk h1 h.store
    by_cases hd : QMap.sumCounts (fun l => (l.length : Int)) (s.readsAfter c n i) = 0 ∧
        QMap.sumCounts QMap.count (s.acksAfter c name) = 0
    · have hm : (s.observed s1 c n i name v now).state.transmissionMissingPackets =
          (s.readsAfter c n i).foreachValue (fun _ => []) := by
        show (if _ then _ else _) = _
        rw [if_pos hd]
      have hnil : remaining n (i :: seen) = [] := by
        have := missCount_readsAfter h i
        rw [hd.1] at this
        exact List.length_eq_zero.1 (by exact_mod_cast this.symm)
      have hmode : (s.observed s1 c n i name v now).state.seeds c = false := by
        unfold seeds
        show ((if _ then false else _) && _) = false
        rw [if_pos hd]
        rfl
      refine ⟨hst.1, h.burst, ?_, Or.inr ⟨hmode, ?_⟩⟩
      · intro k l _ hl
        rw [hm, QMap.value_foreachValue] at hl
        cases hx : (s.readsAfter c n i).value k with
        | none => rw [hx] at hl; cases hl
        | some l0 => rw [hx] at hl; cases hl; rfl
      · rw [hm, QMap.value_foreachValue, readsAfter_own h, hnil]
        rfl
    · have hm : (s.observed s1 c n i name v now).state.transmissionMissingPackets =
          s.readsAfter c n i := by
        show (if _ then _ else _) = _
        rw [if_neg hd]
      have hmode : (s.observed s1 c n i name v now).state.seeds c = false := by
        unfold seeds
        show ((if _ then false else s.transmissionListMode) &&
          !(if _ then QMap.empty else if s.seeds c = true then
            s.transmissionListSizeKnown.insert c true
            else s.transmissionListSizeKnown).contains c) = false
        rw [if_neg hd, if_neg hd]
        by_cases hs : s.seeds c = true
        · rw [if_pos hs]
          unfold QMap.contains
          rw [QMap.value_insert, if_pos rfl]
          simp
        · rw [if_neg hs]
          simpa [seeds] using hs
      refine ⟨hst.1, h.burst, ?_, Or.inr ⟨hmode, ?_⟩⟩
      · intro k l hk hl
        rw [hm] at hl
        exact readsAfter_others h i k l hk hl
      · rw [hm]
        exact readsAfter_own h i
  · by_cases hd : QMap.sumCounts (fun l => (l.length : Int)) (s.readsAfter c n i) = 0 ∧
        QMap.sumCounts QMap.count (s.acksAfter c name) = 0
    · have hm : (s.observed s1 c n i name v now).state.transmissionMissingPackets =
          (s.readsAfter c n i).foreachValue (fun _ => []) := by
        show (if _ then _ else _) = _
        rw [if_pos hd]
      have hnil : remaining n (i :: seen) = [] := by
        have := missCount_readsAfter h i
        rw [hd.1] at this
        exact List.length_eq_zero.1 (by exact_mod_cast this.symm)
      rw [hm, QMap.value_foreachValue, readsAfter_own h, hnil]
      rfl
    · have hm : (s.observed s1 c n i name v now).state.transmissionMissingPackets =
          s.readsAfter c n i := by
        show (if _ then _ else _) = _
        rw [if_neg hd]
      rw [hm]
      exact readsAfter_own h i
  · intro e1 e2
    show (if _ then false else s.transmissionActive) = false
    rw [if_pos ⟨e1, e2⟩]
  · intro hw
    have ha := acksAfter_noPendingWrite hw c name
    refine ⟨?_, ?_⟩
    · intro k m hm
      have hm' : (s.acksAfter c name).value k = some m := hm
      rw [ha] at hm'
      exact hw k m hm'
    · show QMap.sumCounts QMap.count (s.acksAfter c name) = 0
      rw [ha]
      exact missWriteCount_noPendingWrite hw

end QGCParamWidget

theorem listRun_receiveAll (uas c : Int) (n : Nat) (obs : List Observation) :
    ∀ (seen : List Int) (s : QGCParamWidget), QGCParamWidget.ListRun c n seen s →
      ∃ t, receiveAll uas c n s obs = some t ∧
        QGCParamWidget.ListRun c n (seenOf obs ++ seen) t ∧
        (s.NoPendingWrite → t.NoPendingWrite) := by
  induction obs with
  | nil =>
    intro seen s h
    exact ⟨s, rfl, h, fun hw => hw⟩
  | cons o os ih =>
    intro seen s h
    obtain ⟨r, hr, hrun, _, _, _, hw⟩ :=
      QGCParamWidget.listRun_step h uas o.paramId o.parameterName o.value o.now
    obtain ⟨t, ht, htrun, htw⟩ := ih (o.paramId :: seen) r.state hrun
    refine ⟨t, ?_, ?_, fun hs => htw (hw hs).1⟩
    · unfold receiveAll
      rw [hr]
      exact ht
    · have : seenOf (o :: os) ++ seen = seenOf os ++ o.paramId :: seen := by
        unfold seenOf
        simp
      rw [this]
      exact htrun

theorem receiveAll_concat (uas c : Int) (n : Int) (pre : List Observation)
    (last : Observation) (s t : QGCParamWidget) (r : Observed)
    (h1 : receiveAll uas c n s pre = some t)
    (h2 : t.addParameter uas c n last.paramId last.parameterName last.value last.now = some r) :
    receiveAll uas c n s (pre ++ [last]) = some r.state := by
  induction pre generalizing s with
  | nil =>
    simp only [receiveAll, Option.some.injEq] at h1
    subst h1
    simp only [List.nil_append, receiveAll, h2]
  | cons o os ih =>
    unfold receiveAll at h1
    rw [List.cons_append]
    unfold receiveAll
    cases hx : s.addParameter uas c n o.paramId o.parameterName o.value o.now with
    | none => rw [hx] at h1; cases h1
    | some r0 =>
      rw [hx] at h1
      exact ih r0.state h1

theorem remaining_congr (n : Nat) {a b : List Int} (h : ∀ i, i ∈ a ↔ i ∈ b) :
    remaining n a = remaining n b := by
  unfold remaining
  apply List.filter_congr
  intro x _
  simp [h x]

theorem length_le_of_indices (n : Nat) (seen : List Int) (hnd : seen.Nodup)
    (hr : ∀ i ∈ seen, 0 ≤ i ∧ i < n) : seen.length ≤ n := by
  have hsub : seen ⊆ (List.range n).map (fun (i : Nat) => (i : Int)) := by
    intro i hi
    simp only [List.mem_map, List.mem_range]
    exact ⟨i.toNat, by have := hr i hi; omega, by have := hr i hi; omega⟩
  have := (List.Nodup.subperm hnd hsub).length_le
  simpa using this

/-! ## A packet that arrives twice -/

namespace QMap

variable {κ α : Type} [LinearOrder κ]

theorem foreachValue_idem (m : QMap κ α) (a : α) :
    (m.foreachValue (fun _ => a)).foreachValue (fun _ => a) = m.foreachValue (fun _ => a) := by
  apply ext
  rw [entries_foreachValue, entries_foreachValue, List.map_map]
  rfl

theorem sumCounts_cleared (m : QMap κ (List Int)) :
    sumCounts (fun l => (l.length : Int)) (m.foreachValue (fun _ => [])) = 0 := by
  rw [sumCounts_eq]
  refine sum_eq_zero (fun l : List Int => (l.length : Int)) _ ?_
  intro k l hl
  rw [value_foreachValue] at hl
  cases hx : m.value k with
  | none => rw [hx] at hl; cases hl
  | some l0 => rw [hx] at hl; cases hl; rfl

end QMap

namespace QGCParamWidget

theorem observed_missing (s s1 : QGCParamWidget) (c n i : Int) (name : QString) (v : float)
    (now : Nat) :
    (s.observed s1 c n i name v now).state.transmissionMissingPackets =
      if (s.observed s1 c n i name v now).missCount = 0 ∧
          (s.observed s1 c n i name v now).missWriteCount = 0 then
        (s.readsAfter c n i).foreachValue (fun _ => [])
      else s.readsAfter c n i := rfl

theorem observed_seeds (s s1 : QGCParamWidget) (c n i : Int) (name : QString) (v : float)
    (now : Nat) : (s.observed s1 c n i name v now).state.seeds c = false := by
  unfold seeds
  show ((if _ then false else s.transmissionListMode) &&
    !(if _ then QMap.empty else if s.seeds c = true then
      s.transmissionListSizeKnown.insert c true
      else s.transmissionListSizeKnown).contains c) = false
  split_ifs with hd hs
  · rfl
  · unfold QMap.contains
    rw [QMap.value_insert, if_pos rfl]
    simp
  · simpa [seeds] using hs

theorem readsAfter_not_mem (s : QGCParamWidget) (c n i : Int) (h : s.Inv) :
    ∃ l, (s.readsAfter c n i).value c = some l ∧ i ∉ l := by
  rw [readsAfter_value, if_pos rfl, QList.removeFirst_eq_erase]
  refine ⟨_, rfl, ?_⟩
  apply List.Nodup.not_mem_erase
  apply nodup_of_sorted
  by_cases hs : s.seeds c = true
  · rw [if_pos hs]
    have hl0 : (s.transmissionMissingPackets.value c).getD [] = [] := by
      cases hv : s.transmissionMissingPackets.value c with
      | none => rfl
      | some l0 =>
        by_contra hne
        have := (h.seeded c l0 hv hne).1
        unfold seeds at hs
        rw [this] at hs
        simp at hs
    rw [hl0, QList.markAllMissing_nil]
    exact sorted_range n
  · rw [if_neg hs]
    cases hv : s.transmissionMissingPackets.value c with
    | none => exact List.Pairwise.nil
    | some l0 => exact h.ascending c l0 hv

theorem observed_not_mem (s s1 : QGCParamWidget) (c n i : Int) (name : QString) (v : float)
    (now : Nat) (h : s.Inv) :
    ∃ l, (s.observed s1 c n i name v now).state.transmissionMissingPackets.value c = some l ∧
      i ∉ l := by
  obtain ⟨l, hl, hi⟩ := readsAfter_not_mem s c n i h
  rw [observed_missing]
  split_ifs
  · rw [QMap.value_foreachValue, hl]
    exact ⟨[], rfl, by simp⟩
  · exact ⟨l, hl, hi⟩

theorem acksAfter_value (s : QGCParamWidget) (c : Int) (name : QString) :
    ((s.acksAfter c name).value c).map (fun m => m.contains name) =
      (s.transmissionMissingWriteAckPackets.value c).map (fun _ => false) := by
  unfold acksAfter acknowledges
  cases hv : s.transmissionMissingWriteAckPackets.value c with
  | none => simp [hv]
  | some m =>
    by_cases hc : m.contains name = true
    · simp only [Option.map_some', Option.getD_some, hc, if_true, QMap.value_modify, hv]
      unfold QMap.contains
      rw [QMap.value_remove, if_pos rfl]
      rfl
    · have hc' : m.contains name = false := by simpa using hc
      simp [hc', hv]

theorem observed_acknowledges (s s1 : QGCParamWidget) (c n i : Int) (name : QString)
    (v : float) (now : Nat) :
    (s.observed s1 c n i name v now).state.acknowledges c name = false := by
  unfold acknowledges
  show (((s.acksAfter c name).value c).map (fun m => m.contains name)).getD false = false
  rw [acksAfter_value]
  cases s.transmissionMissingWriteAckPackets.value c <;> rfl

/-- A second delivery of the packet that has just been handled changes neither pending set. -/
theorem observed_twice (s s1 s2 : QGCParamWidget) (c n i : Int) (name : QString) (v : float)
    (now now' : Nat) (h : s.Inv) :
    ((s.observed s1 c n i name v now).state.observed s2 c n i name v now').state.transmissionMissingPackets =
        (s.observed s1 c n i name v now).state.transmissionMissingPackets ∧
      ((s.observed s1 c n i name v now).state.observed s2 c n i name v now').state.transmissionMissingWriteAckPackets =
        (s.observed s1 c n i name v now).state.transmissionMissingWriteAckPackets ∧
      ((s.observed s1 c n i name v now).state.observed s2 c n i name v now').missCount =
        (s.observed s1 c n i name v now).missCount ∧
      ((s.observed s1 c n i name v now).state.observed s2 c n i name v now').missWriteCount =
        (s.observed s1 c n i name v now).missWriteCount := by
  obtain ⟨l, hl, hi⟩ := observed_not_mem s s1 c n i name v now h
  have hreads : (s.observed s1 c n i name v now).state.readsAfter c n i =
      (s.observed s1 c n i name v now).state.transmissionMissingPackets := by
    have hc : (s.observed s1 c n i name v now).state.transmissionMissingPackets.contains c =
        true := (QMap.contains_iff _ _).2 ⟨l, hl⟩
    unfold readsAfter
    rw [observed_seeds]
    simp only [hc, Bool.not_true, Bool.false_eq_true, if_false]
    apply QMap.modify_noop
    intro l' hl'
    rw [hl] at hl'
    cases hl'
    rw [QList.removeFirst_eq_erase]
    exact List.erase_of_not_mem hi
  have hacks : (s.observed s1 c n i name v now).state.acksAfter c name =
      (s.observed s1 c n i name v now).state.transmissionMissingWriteAckPackets := by
    unfold acksAfter
    rw [observed_acknowledges]
    rfl
  have hw : ((s.observed s1 c n i name v now).state.observed s2 c n i name v now').missWriteCount =
      (s.observed s1 c n i name v now).missWriteCount := by
    show QMap.sumCounts QMap.count ((s.observed s1 c n i name v now).state.acksAfter c name) = _
    rw [hacks]
    rfl
  have hm : ((s.observed s1 c n i name v now).state.observed s2 c n i name v now').missCount =
      (s.observed s1 c n i name v now).missCount := by
    show QMap.sumCounts (fun l => (l.length : Int))
      ((s.observed s1 c n i name v now).state.readsAfter c n i) = _
    rw [hreads, observed_missing]
    split_ifs with hd
    · rw [QMap.sumCounts_cleared]
      exact hd.1.symm
    · rfl
  refine ⟨?_, hacks, hm, hw⟩
  rw [observed_missing, hm, hw, hreads]
  by_cases hd : (s.observed s1 c n i name v now).missCount = 0 ∧
      (s.observed s1 c n i name v now).missWriteCount = 0
  · rw [if_pos hd, observed_missing, if_pos hd, QMap.foreachValue_idem]
  · rw [if_neg hd]

end QGCParamWidget

/-! ## Writes and their acknowledgement -/

namespace float

theorem eq_comm (a b : float) : eq a b = eq b a := by
  unfold eq
  cases a.isNaN <;> cases b.isNaN <;> cases a.isZero <;> cases b.isZero <;>
    simp [Eq.comm]

end float

namespace QGCParamWidget

theorem setParameter_acks (s : QGCParamWidget) (c : Int) (name : QString) (v : float)
    (now : Nat) (k : Int) :
    (s.setParameter c name v now).1.transmissionMissingWriteAckPackets.value k =
      if k = c then
        some (((s.transmissionMissingWriteAckPackets.value c).getD QMap.empty).insert name v)
      else s.transmissionMissingWriteAckPackets.value k := by
  show ((if (!s.transmissionMissingWriteAckPackets.contains c) = true then
      s.transmissionMissingWriteAckPackets.insert c QMap.empty
    else s.transmissionMissingWriteAckPackets).modify c (fun m => m.insert name v)).value k = _
  rw [QMap.value_modify]
  cases hv : s.transmissionMissingWriteAckPackets.value c with
  | none =>
    have : s.transmissionMissingWriteAckPackets.contains c = false :=
      (QMap.contains_false_iff _ _).2 hv
    simp only [this, Bool.not_false, if_true, QMap.value_insert, Option.map_some',
      Option.getD_none]
    by_cases hk : k = c <;> simp [hk]
  | some m =>
    have : s.transmissionMissingWriteAckPackets.contains c = true :=
      (QMap.contains_iff _ _).2 ⟨m, hv⟩
    simp only [this, Bool.not_true, Bool.false_eq_true, if_false, hv, Option.map_some',
      Option.getD_some]

theorem acksAfter_value_of (s : QGCParamWidget) (c : Int) (name : QString)
    (m : QMap QString float) (hm : s.transmissionMissingWriteAckPackets.value c = some m)
    (hc : m.value name ≠ none) (k : Int) :
    s.acknowledges c name = true ∧
      (s.acksAfter c name).value k =
        if k = c then some (m.remove name) else s.transmissionMissingWriteAckPackets.value k := by
  have ha : s.acknowledges c name = true := by
    unfold acknowledges QMap.contains
    rw [hm]
    cases hx : m.value name with
    | none => exact absurd hx hc
    | some _ => simp [hx]
  refine ⟨ha, ?_⟩
  unfold acksAfter
  rw [if_pos ha, QMap.value_modify, hm]
  rfl

theorem entries_remove_insert (m : QMap QString float) (name : QString) (v : float)
    (h : m.entries = []) : ((m.insert name v).remove name).entries = [] := by
  show Assoc.remove name (Assoc.insert name v m.entries) = []
  rw [h]
  simp [Assoc.insert, Assoc.remove]

/-- What a guard tick sends again is stored in the map of unacknowledged writes. -/
theorem mem_writeRequests (s : QGCParamWidget) (c : Int) (key : QString) (x : float)
    (h : Signal.parameterChanged c key x ∈ s.writeRequests) :
    ∃ m, s.transmissionMissingWriteAckPackets.value c = some m ∧ m.value key = some x := by
  unfold writeRequests at h
  rw [List.mem_flatMap] at h
  obtain ⟨component, _, hmem⟩ := h
  cases hv : s.transmissionMissingWriteAckPackets.value component with
  | none => rw [hv] at hmem; simp at hmem
  | some m =>
    rw [hv] at hmem
    simp only [List.mem_map] at hmem
    obtain ⟨key', hk, he⟩ := hmem
    injection he with e1 e2 e3
    subst e1 e2
    refine ⟨m, hv, ?_⟩
    rw [burstLoop_zero] at hk
    have hk' : key' ∈ m.keys := List.mem_of_mem_take hk
    obtain ⟨e, he, rfl⟩ := List.mem_map.1 hk'
    have hval : m.value e.1 = some e.2 := (QMap.mem_entries_iff m e.1 e.2).1 he
    rw [← e3]
    unfold QMap.valueD
    rw [hval]
    rfl

theorem not_mem_readRequests (s : QGCParamWidget) (c : Int) (key : QString) (x : float) :
    Signal.parameterChanged c key x ∉ s.readRequests := by
  intro h
  unfold readRequests at h
  rw [List.mem_flatMap] at h
  obtain ⟨component, _, hmem⟩ := h
  cases hv : s.transmissionMissingPackets.value component with
  | none => rw [hv] at hmem; simp at hmem
  | some l =>
    rw [hv] at hmem
    simp only [List.mem_map] at hmem
    obtain ⟨_, _, he⟩ := hmem
    cases he

/-- The writes a guard tick sends again are stored before the tick. -/
theorem mem_retransmissionGuardTick (s : QGCParamWidget) (now : Nat) (c : Int)
    (key : QString) (x : float)
    (h : Signal.parameterChanged c key x ∈ (s.retransmissionGuardTick now).2) :
    ∃ m, s.transmissionMissingWriteAckPackets.value c = some m ∧ m.value key = some x := by
  unfold retransmissionGuardTick at h
  by_cases ha : s.transmissionActive = true
  · rw [if_pos ha] at h
    simp only at h
    by_cases ht : now > s.transmissionTimeout
    · rw [if_pos ht] at h
      rcases List.mem_append.1 h with h | h
      · exact absurd h (not_mem_readRequests _ c key x)
      · obtain ⟨m, hm, hx⟩ := mem_writeRequests _ c key x h
        rw [declareTimeout_acks, QMap.value_foreachValue] at hm
        cases hv : s.transmissionMissingWriteAckPackets.value c with
        | none => rw [hv] at hm; cases hm
        | some m0 =>
          rw [hv] at hm
          cases hm
          cases hx
    · rw [if_neg ht] at h
      rcases List.mem_append.1 h with h | h
      · exact absurd h (not_mem_readRequests _ c key x)
      · exact mem_writeRequests _ c key x h
  · rw [if_neg ha] at h
    cases h

theorem sumCounts_count_eq_zero (acks : QMap Int (QMap QString float))
    (h : ∀ k m, acks.value k = some m → m.entries = []) :
    QMap.sumCounts QMap.count acks = 0 := by
  rw [QMap.sumCounts_eq]
  apply QMap.sum_eq_zero
  intro k m hm
  unfold QMap.count
  rw [h k m hm]
  rfl

theorem observed_label (s s1 : QGCParamWidget) (c n i : Int) (name : QString) (v : float)
    (now : Nat) :
    (s.observed s1 c n i name v now).state.statusLabel =
        (statusOf (s.observed s1 c n i name v now).justWritten
          (s.observed s1 c n i name v now).writeMismatch
          (s.observed s1 c n i name v now).missCount
          (s.observed s1 c n i name v now).missWriteCount n i name v
          ((((s.acksAfter c name).value c).map
            (fun m => m.valueD name float.zero)).getD float.zero)).1 ∧
      (s.observed s1 c n i name v now).state.statusColor =
        (statusOf (s.observed s1 c n i name v now).justWritten
          (s.observed s1 c n i name v now).writeMismatch
          (s.observed s1 c n i name v now).missCount
          (s.observed s1 c n i name v now).missWriteCount n i name v
          ((((s.acksAfter c name).value c).map
            (fun m => m.valueD name float.zero)).getD float.zero)).2 :=
  ⟨rfl, rfl⟩

/-- The packet that echoes a write just issued with `setParameter`. -/
theorem observed_after_setParameter (s s1 : QGCParamWidget) (c n i : Int) (name : QString)
    (v w : float) (now now' : Nat) :
    ((s.setParameter c name v now).1.observed s1 c n i name w now').justWritten = true ∧
      ((s.setParameter c name v now).1.observed s1 c n i name w now').writeMismatch =
        v.ne w ∧
      (∀ k, ((s.setParameter c name v now).1.observed s1 c n i name w
          now').state.transmissionMissingWriteAckPackets.value k =
        if k = c then
          some ((((s.transmissionMissingWriteAckPackets.value c).getD QMap.empty).insert
            name v).remove name)
        else s.transmissionMissingWriteAckPackets.value k) := by
  have hm := setParameter_acks s c name v now c
  rw [if_pos rfl] at hm
  have hc : (((s.transmissionMissingWriteAckPackets.value c).getD QMap.empty).insert
      name v).value name ≠ none := by
    rw [QMap.value_insert, if_pos rfl]
    simp
  have ha := fun k => acksAfter_value_of (s.setParameter c name v now).1 c name _ hm hc k
  refine ⟨(ha c).1, ?_, ?_⟩
  · show ((s.setParameter c name v now).1.acknowledges c name &&
      ((s.setParameter c name v now).1.sentValue c name).ne w) = v.ne w
    rw [(ha c).1]
    unfold sentValue
    rw [hm]
    simp [QMap.valueD, QMap.value_insert]
  · intro k
    show ((s.setParameter c name v now).1.acksAfter c name).value k = _
    rw [(ha k).2]
    by_cases hk : k = c
    · rw [if_pos hk, if_pos hk]
    · rw [if_neg hk, if_neg hk, setParameter_acks, if_neg hk]

end QGCParamWidget

/-! ## The retransmission guard -/

theorem flatMap_eq_nil {α β : Type} (l : List α) (f : α → List β) (h : ∀ x ∈ l, f x = []) :
    l.flatMap f = [] := by
  induction l with
  | nil => rfl
  | cons a t ih =>
    rw [List.flatMap_cons, h a (List.mem_cons_self _ _),
      ih (fun x hx => h x (List.mem_cons_of_mem _ hx))]
    rfl

/-- Over distinct keys, a request list to which only the key `c` contributes. -/
theorem flatMap_single {β : Type} (ks : List Int) (hks : ks.Nodup) (c : Int) (A : List β) :
    ks.flatMap (fun k => if k = c then A else []) = if c ∈ ks then A else [] := by
  induction ks with
  | nil => rfl
  | cons k t ih =>
    rw [List.flatMap_cons, ih (List.nodup_cons.1 hks).2]
    by_cases hk : k = c
    · subst hk
      have : k ∉ t := (List.nodup_cons.1 hks).1
      simp [this]
    · have hne : ¬ c = k := fun e => hk e.symm
      simp only [hk, if_false, List.nil_append, List.mem_cons, hne, false_or]

theorem readRequestsFor_append (c : Int) (a b : List Signal) :
    readRequestsFor c (a ++ b) = readRequestsFor c a ++ readRequestsFor c b := by
  induction a with
  | nil => rfl
  | cons x t ih =>
    cases x with
    | requestParameters => simpa [readRequestsFor] using ih
    | requestParameter k id =>
      by_cases hk : k = c
      · simp [readRequestsFor, hk, ih]
      · simp [readRequestsFor, hk, ih]
    | parameterChanged k name v => simpa [readRequestsFor] using ih

theorem writeRequestsFor_append (c : Int) (a b : List Signal) :
    writeRequestsFor c (a ++ b) = writeRequestsFor c a ++ writeRequestsFor c b := by
  induction a with
  | nil => rfl
  | cons x t ih =>
    cases x with
    | requestParameters => simpa [writeRequestsFor] using ih
    | requestParameter k id => simpa [writeRequestsFor] using ih
    | parameterChanged k name v =>
      by_cases hk : k = c
      · simp [writeRequestsFor, hk, ih]
      · simp [writeRequestsFor, hk, ih]

theorem readRequestsFor_flatMap {α : Type} (c : Int) (l : List α) (f : α → List Signal) :
    readRequestsFor c (l.flatMap f) = l.flatMap (fun x => readRequestsFor c (f x)) := by
  induction l with
  | nil => rfl
  | cons a t ih => rw [List.flatMap_cons, readRequestsFor_append, ih, List.flatMap_cons]

theorem writeRequestsFor_flatMap {α : Type} (c : Int) (l : List α) (f : α → List Signal) :
    writeRequestsFor c (l.flatMap f) = l.flatMap (fun x => writeRequestsFor c (f x)) := by
  induction l with
  | nil => rfl
  | cons a t ih => rw [List.flatMap_cons, writeRequestsFor_append, ih, List.flatMap_cons]

theorem readRequestsFor_reads (c k : Int) (l : List Int) :
    readRequestsFor c (l.map (fun id => Signal.requestParameter k id)) =
      if k = c then l else [] := by
  induction l with
  | nil => simp [readRequestsFor]
  | cons a t ih =>
    by_cases hk : k = c
    · simp [readRequestsFor, hk] at ih ⊢
      exact ih
    · simp [readRequestsFor, hk] at ih ⊢
      exact ih

theorem readRequestsFor_writes (c k : Int) (l : List QString) (g : QString → float) :
    readRequestsFor c (l.map (fun key => Signal.parameterChanged k key (g key))) = [] := by
  induction l with
  | nil => rfl
  | cons a t ih => simpa [readRequestsFor] using ih

theorem writeRequestsFor_reads (c k : Int) (l : List Int) :
    writeRequestsFor c (l.map (fun id => Signal.requestParameter k id)) = [] := by
  induction l with
  | nil => rfl
  | cons a t ih => simpa [writeRequestsFor] using ih

theorem writeRequestsFor_writes (c k : Int) (l : List QString) (g : QString → float) :
    writeRequestsFor c (l.map (fun key => Signal.parameterChanged k key (g key))) =
      if k = c then l.map (fun key => (key, g key)) else [] := by
  induction l with
  | nil => simp [writeRequestsFor]
  | cons a t ih =>
    by_cases hk : k = c
    · simp [writeRequestsFor, hk] at ih ⊢
      exact ih
    · simp [writeRequestsFor, hk] at ih ⊢
      exact ih

namespace QGCParamWidget

/-- The read requests of one guard tick for the component `c`. -/
theorem readRequestsFor_readRequests (s : QGCParamWidget) (c : Int) :
    readRequestsFor c s.readRequests =
      if s.parameters.contains c then
        ((s.transmissionMissingPackets.value c).getD []).take
          s.retransmissionBurstRequestSize.toNat
      else [] := by
  unfold readRequests
  rw [readRequestsFor_flatMap]
  have hf : (fun component => readRequestsFor c
      (match s.transmissionMissingPackets.value component with
      | none => []
      | some paramList =>
        (burstLoop s.retransmissionBurstRequestSize 0 paramList).map
          (fun id => Signal.requestParameter component id))) =
      fun k => if k = c then
        ((s.transmissionMissingPackets.value c).getD []).take
          s.retransmissionBurstRequestSize.toNat
      else [] := by
    funext k
    cases hv : s.transmissionMissingPackets.value k with
    | none =>
      by_cases hk : k = c
      · subst hk
        simp [hv, readRequestsFor]
      · simp [hk, readRequestsFor]
    | some l =>
      simp only [readRequestsFor_reads, burstLoop_zero]
      by_cases hk : k = c
      · subst hk
        simp [hv]
      · simp [hk]
  rw [hf, flatMap_single s.parameters.keys (Assoc.nodup_keys s.parameters.sorted)]
  have hc : (c ∈ s.parameters.keys) ↔ s.parameters.contains c = true := by
    rw [QMap.contains_iff]
    constructor
    · intro h
      obtain ⟨e, he, rfl⟩ := List.mem_map.1 h
      exact ⟨e.2, (QMap.mem_entries_iff _ _ _).1 he⟩
    · rintro ⟨v, hv⟩
      exact List.mem_map.2 ⟨(c, v), (QMap.mem_entries_iff _ _ _).2 hv, rfl⟩
  by_cases h : s.parameters.contains c = true
  · rw [if_pos (hc.2 h), if_pos h]
  · rw [if_neg (fun e => h (hc.1 e)), if_neg h]

theorem writeRequestsFor_readRequests (s : QGCParamWidget) (c : Int) :
    writeRequestsFor c s.readRequests = [] := by
  unfold readRequests
  rw [writeRequestsFor_flatMap]
  apply flatMap_eq_nil
  intro k _
  cases s.transmissionMissingPackets.value k with
  | none => rfl
  | some l => exact writeRequestsFor_reads c k _

theorem readRequestsFor_writeRequests (s : QGCParamWidget) (c : Int) :
    readRequestsFor c s.writeRequests = [] := by
  unfold writeRequests
  rw [readRequestsFor_flatMap]
  apply flatMap_eq_nil
  intro k _
  cases s.transmissionMissingWriteAckPackets.value k with
  | none => rfl
  | some m => exact readRequestsFor_writes c k _ _

theorem map_keys_valueD (m : QMap QString float) (b : Nat) :
    (m.keys.take b).map (fun key => (key, m.valueD key float.zero)) = m.entries.take b := by
  unfold QMap.keys
  rw [← List.map_take, List.map_map]
  conv_rhs => rw [← List.map_id (m.entries.take b)]
  apply List.map_congr_left
  intro e he
  have hv : m.value e.1 = some e.2 :=
    (QMap.mem_entries_iff m e.1 e.2).1 (List.mem_of_mem_take he)
  simp [QMap.valueD, hv]

/-- The write requests of one guard tick for the component `c`. -/
theorem writeRequestsFor_writeRequests (s : QGCParamWidget) (c : Int) :
    writeRequestsFor c s.writeRequests =
      (((s.transmissionMissingWriteAckPackets.value c).map QMap.entries).getD []).take
        s.retransmissionBurstRequestSize.toNat := by
  unfold writeRequests
  rw [writeRequestsFor_flatMap]
  have hf : (fun component => writeRequestsFor c
      (match s.transmissionMissingWriteAckPackets.value component with
      | none => []
      | some missingParams =>
        (burstLoop s.retransmissionBurstRequestSize 0 missingParams.keys).map
          (fun key =>
            Signal.parameterChanged component key (missingParams.valueD key float.zero)))) =
      fun k => if k = c then
        (((s.transmissionMissingWriteAckPackets.value c).map QMap.entries).getD []).take
          s.retransmissionBurstRequestSize.toNat
      else [] := by
    funext k
    cases hv : s.transmissionMissingWriteAckPackets.value k with
    | none =>
      by_cases hk : k = c
      · subst hk
        simp [hv, writeRequestsFor]
      · simp [hk, writeRequestsFor]
    | some m =>
      simp only [writeRequestsFor_writes, burstLoop_zero]
      by_cases hk : k = c
      · subst hk
        simp only [if_true, hv, Option.map_some', Option.getD_some]
        exact map_keys_valueD m _
      · simp [hk]
  rw [hf, flatMap_single s.transmissionMissingWriteAckPackets.keys
    (Assoc.nodup_keys s.transmissionMissingWriteAckPackets.sorted)]
  split_ifs with h
  · rfl
  · have : s.transmissionMissingWriteAckPackets.value c = none := by
      cases hv : s.transmissionMissingWriteAckPackets.value c with
      | none => rfl
      | some m =>
        exact absurd (List.mem_map.2 ⟨(c, m), (QMap.mem_entries_iff _ _ _).2 hv, rfl⟩) h
    rw [this]
    simp

theorem readRequests_eq_nil (s : QGCParamWidget)
    (h : ∀ k l, s.transmissionMissingPackets.value k = some l → l = []) :
    s.readRequests = [] := by
  unfold readRequests
  apply flatMap_eq_nil
  intro k _
  cases hv : s.transmissionMissingPackets.value k with
  | none => rfl
  | some l =>
    rw [h k l hv]
    simp [burstLoop]

theorem writeRequests_eq_nil (s : QGCParamWidget)
    (h : ∀ k m, s.transmissionMissingWriteAckPackets.value k = some m → m.entries = []) :
    s.writeRequests = [] := by
  unfold writeRequests
  apply flatMap_eq_nil
  intro k _
  cases hv : s.transmissionMissingWriteAckPackets.value k with
  | none => rfl
  | some m =>
    simp only
    unfold QMap.keys
    rw [h k m hv]
    simp [burstLoop]

theorem declareTimeout_label (s : QGCParamWidget) :
    s.declareTimeout.statusLabel = StatusText.timeout (pendingReads s) (pendingWrites s) := by
  show StatusText.timeout
    (QMap.countAndClear (fun l => (l.length : Int)) [] s.transmissionMissingPackets).1
    (QMap.countAndClear QMap.count QMap.empty s.transmissionMissingWriteAckPackets).1 = _
  rw [QMap.countAndClear_fst, QMap.countAndClear_fst]
  rfl

theorem declareTimeout_cleared (s : QGCParamWidget) :
    (∀ k l, s.declareTimeout.transmissionMissingPackets.value k = some l → l = []) ∧
      (∀ k m, s.declareTimeout.transmissionMissingWriteAckPackets.value k = some m →
        m.entries = []) := by
  constructor
  · intro k l hl
    rw [declareTimeout_missing, QMap.value_foreachValue] at hl
    cases hv : s.transmissionMissingPackets.value k with
    | none => rw [hv] at hl; cases hl
    | some l0 => rw [hv] at hl; cases hl; rfl
  · intro k m hm
    rw [declareTimeout_acks, QMap.value_foreachValue] at hm
    cases hv : s.transmissionMissingWriteAckPackets.value k with
    | none => rw [hv] at hm; cases hm
    | some m0 => rw [hv] at hm; cases hm; rfl

/-- The guard tick of an active transfer after the deadline. -/
theorem retransmissionGuardTick_timeout (s : QGCParamWidget)
    (ha : s.transmissionActive = true) (now : Nat) (ht : s.transmissionTimeout < now) :
    (s.retransmissionGuardTick now).1.statusLabel =
        StatusText.timeout (pendingReads s) (pendingWrites s) ∧
      (∀ k l, (s.retransmissionGuardTick now).1.transmissionMissingPackets.value k = some l →
        l = []) ∧
      (∀ k m, (s.retransmissionGuardTick now).1.transmissionMissingWriteAckPackets.value k =
        some m → m.entries = []) ∧
      (s.retransmissionGuardTick now).1.transmissionActive = false ∧
      (s.retransmissionGuardTick now).1.retransmissionTimer = none := by
  have hc := declareTimeout_cleared s
  have hr := readRequests_eq_nil _ hc.1
  have hw := writeRequests_eq_nil _ hc.2
  have ht' : now > s.transmissionTimeout := ht
  unfold retransmissionGuardTick
  rw [if_pos ha, if_pos ht']
  simp only [hr, hw, List.append_nil, List.foldl_nil]
  exact ⟨declareTimeout_label s, hc.1, hc.2, rfl, rfl⟩

theorem labelAfter_not_timeout (signals : List Signal) (label : StatusText)
    (h : ∀ a b, label ≠ StatusText.timeout a b) :
    ∀ a b, signals.foldl labelAfter label ≠ StatusText.timeout a b := by
  induction signals generalizing label with
  | nil => exact h
  | cons x t ih =>
    rw [List.foldl_cons]
    apply ih
    cases x with
    | requestParameters => exact h
    | requestParameter k id => intro a b e; cases e
    | parameterChanged k name v => intro a b e; cases e

end QGCParamWidget

/-! ## The operations one at a time -/

namespace QGCParamWidget

/-- The closed form of `addParameter` in every state: the call crashes exactly when the store
update crashes or the list size is accepted with a burst size of `0`. -/
theorem addParameter_closed (s s1 : QGCParamWidget) (uas c n i : Int) (name : QString)
    (v : float) (now : Nat) (h1 : s.addParameter4 uas c name v = some s1) :
    s.addParameter uas c n i name v now =
      if s.seeds c = true ∧ s.retransmissionBurstRequestSize = 0 then none
      else some (s.observed s1 c n i name v now) := by
  by_cases hb : s.retransmissionBurstRequestSize = 0
  · by_cases hs : s.seeds c = true
    · rw [if_pos ⟨hs, hb⟩]
      have hm : s.transmissionListMode = true := by
        unfold seeds at hs
        cases hx : s.transmissionListMode
        · rw [hx] at hs; cases hs
        · rfl
      have hk : s.transmissionListSizeKnown.contains c = false := by
        unfold seeds at hs
        rw [hm] at hs
        simpa using hs
      have hf := addParameter4_sameTransfer h1
      unfold addParameter
      rw [h1]
      simp only
      unfold listModeBlock instantiateMissingPackets acceptListSize
      simp only [hf.listMode, hm, hf.sizeKnown, hk, hf.burst, hb, if_true, Bool.not_false]
    · rw [if_neg (fun h => hs h.1)]
      have hs' : s.seeds c = false := by simpa using hs
      have hf := addParameter4_sameTransfer h1
      obtain ⟨f1, f2, f3, f4, f5, f6, f7, f8, f9, f10, f11⟩ := hf
      obtain ⟨a1, a2, a3, tmp, twa, known, mode, act, tout, retx, rew, burst, timer, lbl,
        col, tr⟩ := s1
      simp only at f1 f2 f3 f4 f5 f6 f7 f8 f9 f10 f11
      subst f1 f2 f3 f4 f5 f6 f7 f8 f9 f10 f11
      unfold addParameter
      rw [h1]
      simp only
      unfold listModeBlock instantiateMissingPackets acceptListSize
      simp only
      by_cases hm : s.transmissionListMode = true
      · have hk : s.transmissionListSizeKnown.contains c = true := by
          unfold seeds at hs'
          rw [hm] at hs'
          simpa using hs'
        simp only [hm, hk, if_true, Bool.not_true, Bool.false_eq_true, if_false,
          markWriteAck_eq, observed, seeds, Bool.and_false, readsAfter, acksAfter,
          acknowledges, sentValue, markReceived, checkLast, missCount, missWriteCount,
          setRetransmissionGuardEnabled, thisTransmissionTimeout, false_and]
        split_ifs <;> rfl
      · have hm' : s.transmissionListMode = false := by simpa using hm
        simp only [hm', Bool.false_eq_true, if_false, markWriteAck_eq, observed, seeds,
          Bool.false_and, readsAfter, acksAfter, acknowledges, sentValue, markReceived,
          checkLast, missCount, missWriteCount, setRetransmissionGuardEnabled,
          thisTransmissionTimeout, false_and]
        split_ifs <;> rfl
  · rw [if_neg (fun h => hb h.2)]
    exact addParameter_eq s s1 uas c n i name v now h1 hb

/-- Whenever `addParameter` returns, it returns its closed form. -/
theorem addParameter_some {s : QGCParamWidget} {uas c n i : Int} {name : QString} {v : float}
    {now : Nat} {r : Observed} (h : s.addParameter uas c n i name v now = some r) :
    ∃ s1, s.addParameter4 uas c name v = some s1 ∧ r = s.observed s1 c n i name v now := by
  cases h1 : s.addParameter4 uas c name v with
  | none =>
    unfold addParameter at h
    rw [h1] at h
    cases h
  | some s1 =>
    rw [addParameter_closed s s1 uas c n i name v now h1] at h
    split_ifs at h
    cases h
    exact ⟨s1, rfl, rfl⟩

/-- One line of a parameter file touches only the store and the changed values. -/
theorem loadLine_sameTransfer (conv : Conversions) (uasId : Int) (s t : QGCParamWidget)
    (line : QString) (ht : loadLine conv uasId s line = some t) : SameTransfer s t := by
  unfold loadLine at ht
  split_ifs at ht with h1
  · cases ht; exact sameTransfer_refl s
  · split at ht
    · rename_i p0 p1 p2 p3 _
      split_ifs at ht with h2
      · simp only at ht
        cases h4 : s.addParameter4 (conv.toInt p0) (conv.toInt p1) p2 (conv.toDouble p3) with
        | none => rw [h4] at ht; cases ht
        | some s1 =>
          rw [h4] at ht
          simp only [Option.some.injEq] at ht
          have hf := addParameter4_sameTransfer h4
          subst ht
          exact ⟨hf.missing, hf.acks, hf.sizeKnown, hf.listMode, hf.active, hf.timeout,
            hf.retransmission, hf.rewrite, hf.burst, hf.timer, hf.color⟩
      · cases ht; exact sameTransfer_refl s
    · cases ht; exact sameTransfer_refl s

theorem sameTransfer_trans {s t u : QGCParamWidget} (h1 : SameTransfer s t)
    (h2 : SameTransfer t u) : SameTransfer s u :=
  ⟨h2.missing.trans h1.missing, h2.acks.trans h1.acks, h2.sizeKnown.trans h1.sizeKnown,
    h2.listMode.trans h1.listMode, h2.active.trans h1.active, h2.timeout.trans h1.timeout,
    h2.retransmission.trans h1.retransmission, h2.rewrite.trans h1.rewrite,
    h2.burst.trans h1.burst, h2.timer.trans h1.timer, h2.color.trans h1.color⟩

/-- Loading a parameter file touches only the tree, the store and the changed values. -/
theorem loadParameters_sameTransfer (conv : Conversions) (uasId : Int) (s t : QGCParamWidget)
    (file : Option (List QString)) (ht : loadParameters conv uasId s file = some t) :
    SameTransfer s t := by
  unfold loadParameters at ht
  cases file with
  | none => cases ht; exact sameTransfer_refl s
  | some lines =>
    simp only at ht
    have hc : SameTransfer s s.clear := ⟨rfl, rfl, rfl, rfl, rfl, rfl, rfl, rfl, rfl, rfl, rfl⟩
    have key : ∀ (l : List QString) (acc : Option QGCParamWidget),
        (∀ a, acc = some a → SameTransfer s a) → ∀ t,
        l.foldl
          (fun acc line =>
            match acc with
            | none => none
            | some t => loadLine conv uasId t line) acc = some t → SameTransfer s t := by
      intro l
      induction l with
      | nil => intro acc ha t ht; exact ha t ht
      | cons line l ih =>
        intro acc ha t ht
        rw [List.foldl_cons] at ht
        refine ih _ ?_ t ht
        intro a hacc
        cases acc with
        | none => cases hacc
        | some a0 =>
          exact sameTransfer_trans (ha a0 rfl) (loadLine_sameTransfer conv uasId a0 a line hacc)
    exact key lines (some s.clear) (fun a ha => by cases ha; exact hc) t ht

end QGCParamWidget

/-! ## Writes in a row -/

namespace QGCParamWidget

theorem pendingValue_setParameter (s : QGCParamWidget) (c : Int) (P : QString) (v : float)
    (now : Nat) (k : Int) (name : QString) :
    pendingValue (s.setParameter c P v now).1 k name =
      if k = c ∧ name = P then some v else pendingValue s k name := by
  unfold pendingValue
  rw [setParameter_acks]
  by_cases hk : k = c
  · subst hk
    simp only [if_true, Option.some_bind, QMap.value_insert, true_and]
    by_cases hn : name = P
    · rw [if_pos hn, if_pos hn]
    · rw [if_neg hn, if_neg hn]
      cases s.transmissionMissingWriteAckPackets.value k <;> rfl
  · simp only [hk, if_false, false_and]

theorem writeAll_nil (now : Nat) (s : QGCParamWidget) : writeAll now s [] = s := rfl

theorem writeAll_cons (now : Nat) (s : QGCParamWidget) (x : Int × QString × float)
    (l : List (Int × QString × float)) :
    writeAll now s (x :: l) = writeAll now (s.setParameter x.1 x.2.1 x.2.2 now).1 l := rfl

theorem writeAll_append (now : Nat) (s : QGCParamWidget) (l l' : List (Int × QString × float)) :
    writeAll now s (l ++ l') = writeAll now (writeAll now s l) l' := by
  unfold writeAll
  rw [List.foldl_append]

/-- A property that every call of `setParameter` keeps holds after a row of writes. -/
theorem writeAll_induction (P : QGCParamWidget → Prop) (now : Nat)
    (hP : ∀ t c name v, P t → P (t.setParameter c name v now).1)
    (l : List (Int × QString × float)) (s : QGCParamWidget) (hs : P s) :
    P (writeAll now s l) := by
  induction l generalizing s with
  | nil => exact hs
  | cons x l ih => exact ih _ (hP _ _ _ _ hs)

/-- The writes of other keys leave the pending value of a key as it is. -/
theorem pendingValue_writeAll_of_not_mem (now : Nat) (k : Int) (name : QString)
    (l : List (Int × QString × float)) (s : QGCParamWidget)
    (h : ∀ x ∈ l, ¬ (x.1 = k ∧ x.2.1 = name)) :
    pendingValue (writeAll now s l) k name = pendingValue s k name := by
  induction l generalizing s with
  | nil => rfl
  | cons x l ih =>
    rw [writeAll_cons, ih _ (fun y hy => h y (List.mem_cons_of_mem _ hy)),
      pendingValue_setParameter]
    have := h x (List.mem_cons_self _ _)
    rw [if_neg (fun e => this ⟨e.1.symm, e.2.symm⟩)]

/-- After a row of writes with pairwise different keys every value written is pending. -/
theorem pendingValue_writeAll_of_mem (now : Nat) (l : List (Int × QString × float))
    (hl : l.Pairwise (fun x y => ¬ (x.1 = y.1 ∧ x.2.1 = y.2.1))) (s : QGCParamWidget)
    (x : Int × QString × float) (hx : x ∈ l) :
    pendingValue (writeAll now s l) x.1 x.2.1 = some x.2.2 := by
  induction l generalizing s with
  | nil => cases hx
  | cons y l ih =>
    rw [writeAll_cons]
    rcases List.mem_cons.1 hx with h | h
    · subst h
      rw [pendingValue_writeAll_of_not_mem now x.1 x.2.1 l _
        (fun z hz e => (List.pairwise_cons.1 hl).1 z hz ⟨e.1.symm, e.2.symm⟩),
        pendingValue_setParameter, if_pos ⟨rfl, rfl⟩]
    · exact ih (List.pairwise_cons.1 hl).2 _ h

theorem dirtyList_pairwise (s : QGCParamWidget) :
    (dirtyList s).Pairwise (fun x y => ¬ (x.1 = y.1 ∧ x.2.1 = y.2.1)) := by
  unfold dirtyList
  rw [List.pairwise_flatMap]
  constructor
  · intro e _
    rw [List.pairwise_map]
    refine List.Pairwise.imp ?_ e.2.sorted
    intro a b hab h
    exact (ne_of_lt hab) h.2
  · refine List.Pairwise.imp ?_ s.changedValues.sorted
    intro a b hab x hx y hy h
    obtain ⟨_, _, rfl⟩ := List.mem_map.1 hx
    obtain ⟨_, _, rfl⟩ := List.mem_map.1 hy
    exact (ne_of_lt hab) h.1

theorem mem_dirtyList (s : QGCParamWidget) (c : Int) (m : QMap QString float)
    (name : QString) (v : float) (hm : s.changedValues.value c = some m)
    (hv : m.value name = some v) : (c, name, v) ∈ dirtyList s := by
  unfold dirtyList
  rw [List.mem_flatMap]
  exact ⟨(c, m), (QMap.mem_entries_iff _ _ _).2 hm,
    List.mem_map.2 ⟨(name, v), (QMap.mem_entries_iff _ _ _).2 hv, rfl⟩⟩

/-- The loops of `setParameters` call `setParameter` for the entries of `changedValues` in
their order, emit one signal for each and count them. -/
theorem setParametersLoop_eq (s : QGCParamWidget) (now : Nat) :
    s.setParametersLoop now =
      (writeAll now s (dirtyList s),
        (dirtyList s).map (fun x => Signal.parameterChanged x.1 x.2.1 x.2.2),
        ((dirtyList s).length : Int)) := by
  have inner : ∀ (c : Int) (l : List (QString × float))
      (acc : QGCParamWidget × List Signal × Int),
      l.foldl
        (fun acc2 j =>
          ((acc2.1.setParameter c j.1 j.2 now).1,
            acc2.2.1 ++ (acc2.1.setParameter c j.1 j.2 now).2, acc2.2.2 + 1)) acc =
      (writeAll now acc.1 (l.map (fun j => (c, j.1, j.2))),
        acc.2.1 ++ (l.map (fun j => (c, j.1, j.2))).map
          (fun x => Signal.parameterChanged x.1 x.2.1 x.2.2),
        acc.2.2 + ((l.map (fun j => (c, j.1, j.2))).length : Int)) := by
    intro c l
    induction l with
    | nil => intro acc; simp [writeAll]
    | cons j l ih =>
      intro acc
      rw [List.foldl_cons, ih]
      simp only [List.map_cons, writeAll_cons, List.length_cons, Nat.cast_add, Nat.cast_one]
      refine Prod.ext rfl (Prod.ext ?_ ?_)
      · simp [setParameter]
      · simp only
        ring
  have outer : ∀ (es : List (Int × QMap QString float))
      (acc : QGCParamWidget × List Signal × Int),
      es.foldl
        (fun acc i =>
          i.2.entries.foldl
            (fun acc2 j =>
              ((acc2.1.setParameter i.1 j.1 j.2 now).1,
                acc2.2.1 ++ (acc2.1.setParameter i.1 j.1 j.2 now).2, acc2.2.2 + 1)) acc)
        acc =
      (writeAll now acc.1 (es.flatMap (fun e => e.2.entries.map (fun j => (e.1, j.1, j.2)))),
        acc.2.1 ++ (es.flatMap (fun e => e.2.entries.map (fun j => (e.1, j.1, j.2)))).map
          (fun x => Signal.parameterChanged x.1 x.2.1 x.2.2),
        acc.2.2 +
          ((es.flatMap (fun e => e.2.entries.map (fun j => (e.1, j.1, j.2)))).length : Int)) := by
    intro es
    induction es with
    | nil => intro acc; simp [writeAll]
    | cons e es ih =>
      intro acc
      rw [List.foldl_cons, inner, ih]
      simp only [List.flatMap_cons, writeAll_append, List.map_append, List.length_append,
        Nat.cast_add, List.append_assoc]
      refine Prod.ext rfl (Prod.ext rfl ?_)
      simp only
      ring
  have := outer s.changedValues.entries (s, [], 0)
  simp only [List.nil_append, zero_add] at this
  exact this

end QGCParamWidget

namespace QGCParamWidget

theorem setParameter_timeout_le (s : QGCParamWidget) (c : Int) (name : QString) (v : float)
    (now : Nat) : s.transmissionTimeout ≤ (s.setParameter c name v now).1.transmissionTimeout := by
  show s.transmissionTimeout ≤
    if addQuint64 now (wrapInt (5 * s.rewriteTimeout)) > s.transmissionTimeout then
      addQuint64 now (wrapInt (5 * s.rewriteTimeout))
    else s.transmissionTimeout
  split_ifs with h
  · exact le_of_lt h
  · exact le_refl _

theorem setParameters_timeout_le (s : QGCParamWidget) (now : Nat)
    (r : QGCParamWidget × List Signal) (hr : s.setParameters now = some r) :
    s.transmissionTimeout ≤ r.1.transmissionTimeout := by
  have hl : s.transmissionTimeout ≤ (s.setParametersLoop now).1.transmissionTimeout :=
    setParametersLoop_induction (fun t => s.transmissionTimeout ≤ t.transmissionTimeout) now
      (fun t c name v ht => le_trans ht (setParameter_timeout_le t c name v now)) s (le_refl _)
  unfold setParameters at hr
  simp only at hr
  by_cases h1 : (s.setParametersLoop now).2.2 = 0
  · rw [if_pos h1] at hr
    cases hr
    exact hl
  · rw [if_neg h1] at hr
    by_cases h2 : (s.setParametersLoop now).1.retransmissionBurstRequestSize = 0
    · rw [if_pos h2] at hr
      cases hr
    · rw [if_neg h2] at hr
      cases hr
      refine le_trans hl ?_
      show (s.setParametersLoop now).1.transmissionTimeout ≤ if _ then _ else _
      split_ifs with h
      · exact le_of_lt h
      · exact le_refl _

theorem retransmissionGuardTick_timeout_eq (s : QGCParamWidget) (now : Nat) :
    (s.retransmissionGuardTick now).1.transmissionTimeout = s.transmissionTimeout := by
  unfold retransmissionGuardTick
  split_ifs <;> rfl

theorem observed_timeout_le (s s1 : QGCParamWidget) (c n i : Int) (name : QString) (v : float)
    (now : Nat) :
    s.transmissionTimeout ≤ (s.observed s1 c n i name v now).state.transmissionTimeout := by
  show s.transmissionTimeout ≤ if _ then _ else _
  split_ifs with h
  · exact le_of_lt h.2
  · exact le_refl _

end QGCParamWidget

theorem reachable_run {s t : QGCParamWidget} (op : Operation) (hs : Reachable s)
    (h : op.run s = some t) : Reachable t := by
  cases op with
  | requestParameterList settings =>
    simp only [Operation.run, Option.some.injEq] at h
    subst h
    exact Reachable.requestParameterList s settings hs
  | addParameter uas c n i name v now =>
    simp only [Operation.run, Option.map_eq_some'] at h
    obtain ⟨r, hr, rfl⟩ := h
    exact Reachable.addParameter s uas c n i name v now r hs hr
  | setParameter c name v now =>
    simp only [Operation.run, Option.some.injEq] at h
    subst h
    exact Reachable.setParameter s c name v now hs
  | setParameters now =>
    simp only [Operation.run, Option.map_eq_some'] at h
    obtain ⟨r, hr, rfl⟩ := h
    exact Reachable.setParameters s now r hs hr
  | retransmissionGuardTick now =>
    simp only [Operation.run, Option.some.injEq] at h
    subst h
    exact Reachable.retransmissionGuardTick s now hs
  | loadParameters conv uasId file =>
    simp only [Operation.run] at h
    exact Reachable.loadParameters s conv uasId file t hs h

theorem reachable_runAll (ops : List Operation) {s t : QGCParamWidget} (hs : Reachable s)
    (h : Operation.runAll ops s = some t) : Reachable t := by
  induction ops generalizing s with
  | nil =>
    simp only [Operation.runAll, Option.some.injEq] at h
    subst h
    exact hs
  | cons op ops ih =>
    unfold Operation.runAll at h
    cases hx : op.run s with
    | none => rw [hx] at h; cases h
    | some u =>
      rw [hx] at h
      exact ih (reachable_run op hs hx) h

namespace QMap

variable {κ α : Type} [LinearOrder κ]

theorem sumCounts_nonneg (size : α → Int) (hsize : ∀ a, 0 ≤ size a) (m : QMap κ α) :
    0 ≤ sumCounts size m := by
  rw [sumCounts_eq]
  apply List.sum_nonneg
  intro x hx
  obtain ⟨e, _, rfl⟩ := List.mem_map.1 hx
  exact hsize e.2

/-- An update that keeps the size of the value keeps the sum of the sizes. -/
theorem sum_modify (size : α → Int) (m : QMap κ α) (c : κ) (f : α → α)
    (h : ∀ a, m.value c = some a → size (f a) = size a) :
    ((m.modify c f).entries.map (fun e => size e.2)).sum =
      (m.entries.map (fun e => size e.2)).sum := by
  show ((Assoc.modify c f m.entries).map (fun e => size e.2)).sum = _
  unfold Assoc.modify
  rw [List.map_map]
  congr 1
  apply List.map_congr_left
  intro e he
  by_cases hk : e.1 = c
  · have : m.value c = some e.2 := by
      rw [← hk]
      exact (mem_entries_iff m e.1 e.2).1 he
    simp [hk, h e.2 this]
  · simp [hk]

end QMap

namespace Assoc

variable {κ α : Type} [LinearOrder κ]

theorem length_insert_of_lookup (k : κ) (v v' : α) (l : List (κ × α)) (hl : Ascending l)
    (h : lookup k l = some v') : (insert k v l).length = l.length := by
  induction l with
  | nil => simp [lookup] at h
  | cons hd t ih =>
    obtain ⟨k₁, v₁⟩ := hd
    unfold insert
    by_cases h1 : k < k₁
    · exfalso
      have hne : k₁ ≠ k := fun e => (ne_of_lt h1) e.symm
      have hn : lookup k t = none :=
        lookup_eq_none_of_lt (fun e he => lt_trans h1 ((List.pairwise_cons.1 hl).1 e he))
      simp [lookup, hne, hn] at h
    · rw [if_neg h1]
      by_cases h2 : k = k₁
      · rw [if_pos h2]
        rfl
      · rw [if_neg h2]
        have hne : k₁ ≠ k := fun e => h2 e.symm
        simp only [lookup, hne, if_false] at h
        simp [ih (List.pairwise_cons.1 hl).2 h]

/-- A key with a value has exactly one entry. -/
theorem filter_key (k : κ) (v : α) (l : List (κ × α)) (hl : Ascending l)
    (h : lookup k l = some v) : l.filter (fun e => decide (e.1 = k)) = [(k, v)] := by
  induction l with
  | nil => simp [lookup] at h
  | cons hd t ih =>
    obtain ⟨k₁, v₁⟩ := hd
    by_cases h1 : k₁ = k
    · subst h1
      simp only [lookup, if_true, Option.some.injEq] at h
      subst h
      rw [List.filter_cons_of_pos (by simp)]
      congr 1
      apply List.filter_eq_nil_iff.2
      intro e he
      have := (List.pairwise_cons.1 hl).1 e he
      simpa using (ne_of_lt this).symm
    · simp only [lookup, h1, if_false] at h
      rw [List.filter_cons_of_neg (by simpa using h1)]
      exact ih (List.pairwise_cons.1 hl).2 h

end Assoc

namespace QGCParamWidget

theorem observed_counts_nonneg (s s1 : QGCParamWidget) (c n i : Int) (name : QString)
    (v : float) (now : Nat) :
    0 ≤ (s.observed s1 c n i name v now).missCount ∧
      0 ≤ (s.observed s1 c n i name v now).missWriteCount :=
  ⟨QMap.sumCounts_nonneg (fun l : List Int => (l.length : Int))
      (fun l => Int.ofNat_nonneg l.length) (s.readsAfter c n i),
    QMap.sumCounts_nonneg (QMap.count : QMap QString float → Int)
      (fun m => Int.ofNat_nonneg m.entries.length) (s.acksAfter c name)⟩

/-- The cascade of `addParameter` follows the table of the specification. -/
theorem classOf_statusOf (jw wm : Bool) (mrc mwc : Int) (h1 : 0 ≤ mrc) (h2 : 0 ≤ mwc)
    (pc pid : Int) (name : QString) (v sent : float) :
    classOf (statusOf jw wm mrc mwc pc pid name v sent) = specStatusClass jw wm mrc mwc := by
  unfold statusOf specStatusClass
  cases jw <;> cases wm
  · by_cases h : mrc > 0
    · simp [classOf, h]
    · have : mrc = 0 := by omega
      simp [classOf, this]
  · by_cases h : mrc > 0
    · simp [classOf, h]
    · have : mrc = 0 := by omega
      simp [classOf, this]
  · by_cases h : mwc = 0
    · simp [classOf, h]
    · have : mwc > 0 := by omega
      simp [classOf, h, this]
  · simp [classOf]

theorem setParameter_contains (s : QGCParamWidget) (c : Int) (name : QString) (v : float)
    (now : Nat) :
    (s.setParameter c name v now).1.transmissionMissingWriteAckPackets.contains c = true := by
  rw [QMap.contains_iff, setParameter_acks, if_pos rfl]
  exact ⟨_, rfl⟩

theorem setParameter_acks_eq (s : QGCParamWidget) (c : Int) (name : QString) (v : float)
    (now : Nat) (h : s.transmissionMissingWriteAckPackets.contains c = true) :
    (s.setParameter c name v now).1.transmissionMissingWriteAckPackets =
      s.transmissionMissingWriteAckPackets.modify c (fun m => m.insert name v) := by
  show (if (!s.transmissionMissingWriteAckPackets.contains c) = true then
      s.transmissionMissingWriteAckPackets.insert c QMap.empty
    else s.transmissionMissingWriteAckPackets).modify c (fun m => m.insert name v) = _
  rw [h]
  rfl

end QGCParamWidget

theorem dirtyRequests_eq (s : QGCParamWidget) :
    dirtyRequests s =
      (dirtyList s).map (fun x => Signal.parameterChanged x.1 x.2.1 x.2.2) := by
  unfold dirtyRequests dirtyList
  induction s.changedValues.entries with
  | nil => rfl
  | cons e l ih =>
    simp only [List.flatMap_cons, List.map_append, List.map_map, ih]
    rfl

theorem dirtyCount_eq (s : QGCParamWidget) : dirtyCount s = ((dirtyList s).length : Int) := by
  unfold dirtyCount dirtyList
  induction s.changedValues.entries with
  | nil => rfl
  | cons e l ih =>
    simp only [List.flatMap_cons, List.map_cons, List.sum_cons, List.length_append,
      List.length_map, Nat.cast_add, ih]

namespace QGCParamWidget

theorem writeAll_burst (now : Nat) (l : List (Int × QString × float)) (s : QGCParamWidget) :
    (writeAll now s l).retransmissionBurstRequestSize = s.retransmissionBurstRequestSize :=
  writeAll_induction
    (fun t => t.retransmissionBurstRequestSize = s.retransmissionBurstRequestSize) now
    (fun _ _ _ _ h => h) l s rfl

end QGCParamWidget

/-! ## The pending sets under the operations -/

namespace QGCParamWidget

/-- The acknowledgement of one key leaves the pending values of the other keys. -/
theorem pendingValue_acksAfter (s : QGCParamWidget) (k : Int) (key : QString) (c : Int)
    (name : QString) (h : ¬ (c = k ∧ name = key)) :
    ((s.acksAfter k key).value c).bind (fun m => m.value name) = pendingValue s c name := by
  unfold acksAfter pendingValue
  split_ifs with ha
  · rw [QMap.value_modify]
    by_cases hc : c = k
    · subst hc
      rw [if_pos rfl]
      cases s.transmissionMissingWriteAckPackets.value c with
      | none => rfl
      | some m =>
        show (m.remove key).value name = m.value name
        rw [QMap.value_remove, if_neg (fun e => h ⟨rfl, e⟩)]
    · rw [if_neg hc]
  · rfl

theorem acknowledges_of_pending (s : QGCParamWidget) (c : Int) (name : QString)
    (h : pendingValue s c name ≠ none) : s.acknowledges c name = true := by
  unfold pendingValue at h
  cases hm : s.transmissionMissingWriteAckPackets.value c with
  | none => rw [hm] at h; exact absurd rfl h
  | some m =>
    rw [hm] at h
    exact (acksAfter_value_of s c name m hm h c).1

theorem pendingWrites_pos (s : QGCParamWidget) (c : Int) (name : QString)
    (h : pendingValue s c name ≠ none) : 0 < pendingWrites s := by
  unfold pendingValue at h
  cases hm : s.transmissionMissingWriteAckPackets.value c with
  | none => rw [hm] at h; exact absurd rfl h
  | some m =>
    rw [hm] at h
    have hmem : (c, m) ∈ s.transmissionMissingWriteAckPackets.entries :=
      (QMap.mem_entries_iff _ _ _).2 hm
    have hlen : 0 < m.entries.length := by
      cases hv : m.value name with
      | none => exact absurd hv h
      | some v => exact List.length_pos_of_mem ((QMap.mem_entries_iff _ _ _).2 hv)
    have hle : (m.entries.length : Int) ≤ pendingWrites s := by
      unfold pendingWrites
      apply List.single_le_sum
      · intro x hx
        obtain ⟨e, _, rfl⟩ := List.mem_map.1 hx
        exact Int.ofNat_nonneg _
      · exact List.mem_map.2 ⟨(c, m), hmem, rfl⟩
    have : (0 : Int) < (m.entries.length : Int) := by exact_mod_cast hlen
    omega

/-- A write acknowledged by a packet is reported as written or as a failure. -/
theorem classOf_statusOf_written (wm : Bool) (mrc mwc : Int)
    (pc pid : Int) (name : QString) (v sent : float) :
    classOf (statusOf true wm mrc mwc pc pid name v sent) = some StatusClass.allWritesComplete ∨
      classOf (statusOf true wm mrc mwc pc pid name v sent) = some StatusClass.wroteOne ∨
      classOf (statusOf true wm mrc mwc pc pid name v sent) = some StatusClass.writeMismatch := by
  unfold statusOf
  cases wm
  · by_cases h : mwc = 0
    · simp [classOf, h]
    · simp [classOf, h]
  · simp [classOf]

theorem requestParameterList_acks (s : QGCParamWidget) (settings : Settings) :
    (s.requestParameterList settings).1.transmissionMissingWriteAckPackets =
      s.transmissionMissingWriteAckPackets :=
  (loadSettings_burst s settings).2.2.1

theorem setParameters_writeAll {s : QGCParamWidget} {now : Nat}
    {r : QGCParamWidget × List Signal} (h : s.setParameters now = some r) :
    r.1.transmissionMissingWriteAckPackets =
        (writeAll now s (dirtyList s)).transmissionMissingWriteAckPackets ∧
      r.1.transmissionMissingPackets =
        (writeAll now s (dirtyList s)).transmissionMissingPackets ∧
      r.1.transmissionListSizeKnown =
        (writeAll now s (dirtyList s)).transmissionListSizeKnown ∧
      r.1.transmissionListMode = (writeAll now s (dirtyList s)).transmissionListMode := by
  unfold setParameters at h
  simp only [setParametersLoop_eq] at h
  split_ifs at h <;> cases h <;> exact ⟨rfl, rfl, rfl, rfl⟩

theorem writeAll_lists (now : Nat) (l : List (Int × QString × float)) (s : QGCParamWidget) :
    (writeAll now s l).transmissionMissingPackets = s.transmissionMissingPackets ∧
      (writeAll now s l).transmissionListSizeKnown = s.transmissionListSizeKnown ∧
      (writeAll now s l).transmissionListMode = s.transmissionListMode :=
  writeAll_induction
    (fun t => t.transmissionMissingPackets = s.transmissionMissingPackets ∧
      t.transmissionListSizeKnown = s.transmissionListSizeKnown ∧
      t.transmissionListMode = s.transmissionListMode) now
    (fun _ _ _ _ h => h) l s ⟨rfl, rfl, rfl⟩

theorem writeAll_pending (now : Nat) (l : List (Int × QString × float)) (s : QGCParamWidget)
    (c : Int) (name : QString) (h : pendingValue s c name ≠ none) :
    pendingValue (writeAll now s l) c name ≠ none :=
  writeAll_induction (fun t => pendingValue t c name ≠ none) now
    (fun t k key v ht => by
      show pendingValue (t.setParameter k key v now).1 c name ≠ none
      rw [pendingValue_setParameter]
      split_ifs
      · exact fun e => Option.noConfusion e
      · exact ht) l s h

/-- A guard tick that does not declare the timeout leaves both pending sets. -/
theorem retransmissionGuardTick_pending (s : QGCParamWidget) (now : Nat)
    (h : ¬ (s.transmissionActive = true ∧ s.transmissionTimeout < now)) :
    (s.retransmissionGuardTick now).1.transmissionMissingWriteAckPackets =
        s.transmissionMissingWriteAckPackets ∧
      (s.retransmissionGuardTick now).1.transmissionMissingPackets =
        s.transmissionMissingPackets := by
  unfold retransmissionGuardTick
  by_cases ha : s.transmissionActive = true
  · have ht : ¬ now > s.transmissionTimeout := fun e => h ⟨ha, e⟩
    rw [if_pos ha, if_neg ht]
    exact ⟨rfl, rfl⟩
  · rw [if_neg ha]
    exact ⟨rfl, rfl⟩

end QGCParamWidget

namespace QGCParamWidget

theorem removeFirst_sublist (l : List Int) (x : Int) : (QList.removeFirst l x).Sublist l := by
  rw [QList.removeFirst_eq_erase]
  exact List.erase_sublist x l

/-- A packet adds an index to the list of a component only when it seeds this list. -/
theorem observed_sublist (s s1 : QGCParamWidget) (k n i : Int) (key : QString) (v : float)
    (now : Nat) (c : Int) (h : s.seeds c = false ∨ c ≠ k) :
    (((s.observed s1 k n i key v now).state.transmissionMissingPackets.value c).getD
      []).Sublist ((s.transmissionMissingPackets.value c).getD []) := by
  have hr : (((s.readsAfter k n i).value c).getD []).Sublist
      ((s.transmissionMissingPackets.value c).getD []) := by
    rw [readsAfter_value]
    by_cases hk : c = k
    · subst hk
      rw [if_pos rfl]
      rcases h with h | h
      · rw [h]
        exact removeFirst_sublist _ _
      · exact absurd rfl h
    · rw [if_neg hk]
  rw [observed_missing]
  split_ifs
  · rw [QMap.value_foreachValue]
    cases (s.readsAfter k n i).value c with
    | none => exact List.nil_sublist _
    | some l => exact List.nil_sublist _
  · exact hr

/-- A packet of any component leaves a list that is seeded as seeded. -/
theorem observed_seeds_of (s s1 : QGCParamWidget) (k n i : Int) (key : QString) (v : float)
    (now : Nat) (c : Int) (h : s.seeds c = false) :
    (s.observed s1 k n i key v now).state.seeds c = false := by
  unfold seeds at h ⊢
  show ((if _ then false else s.transmissionListMode) &&
    !(if _ then QMap.empty else if s.seeds k = true then
      s.transmissionListSizeKnown.insert k true
      else s.transmissionListSizeKnown).contains c) = false
  split_ifs with hd hs
  · rfl
  · unfold QMap.contains at h ⊢
    rw [QMap.value_insert]
    by_cases hk : c = k
    · rw [if_pos hk]
      simp
    · rw [if_neg hk]
      exact h
  · exact h

theorem requestParameterList_missing (s : QGCParamWidget) (settings : Settings) (c : Int) :
    ((s.requestParameterList settings).1.transmissionMissingPackets.value c).getD [] = [] := by
  show ((((s.loadSettings settings).transmissionMissingPackets.foreachValue
    (fun _ => [])).value c).getD []) = []
  rw [QMap.value_foreachValue]
  cases (s.loadSettings settings).transmissionMissingPackets.value c <;> rfl

theorem retransmissionGuardTick_listMode (s : QGCParamWidget) (now : Nat) :
    (s.retransmissionGuardTick now).1.transmissionListMode = s.transmissionListMode ∧
      (s.retransmissionGuardTick now).1.transmissionListSizeKnown =
        s.transmissionListSizeKnown := by
  unfold retransmissionGuardTick
  split_ifs <;> exact ⟨rfl, rfl⟩

theorem retransmissionGuardTick_sublist (s : QGCParamWidget) (now : Nat) (c : Int) :
    (((s.retransmissionGuardTick now).1.transmissionMissingPackets.value c).getD []).Sublist
      ((s.transmissionMissingPackets.value c).getD []) := by
  by_cases hto : s.transmissionActive = true ∧ s.transmissionTimeout < now
  · cases hv : (s.retransmissionGuardTick now).1.transmissionMissingPackets.value c with
    | none => exact List.nil_sublist _
    | some l =>
      rw [(retransmissionGuardTick_timeout s hto.1 now hto.2).2.1 c l hv]
      exact List.nil_sublist _
  · rw [(retransmissionGuardTick_pending s now hto).2]

theorem seeds_congr {s t : QGCParamWidget} (c : Int)
    (h1 : t.transmissionListMode = s.transmissionListMode)
    (h2 : t.transmissionListSizeKnown = s.transmissionListSizeKnown) :
    t.seeds c = s.seeds c := by
  unfold seeds
  rw [h1, h2]

end QGCParamWidget

/-! ## After the timeout -/

namespace QGCParamWidget

/-- A packet never makes a transfer active. -/
theorem observed_active (s s1 : QGCParamWidget) (c n i : Int) (name : QString) (v : float)
    (now : Nat) (h : s.transmissionActive = false) :
    (s.observed s1 c n i name v now).state.transmissionActive = false := by
  show (if _ then false else s.transmissionActive) = false
  split_ifs
  · rfl
  · exact h

/-- The guard tick of a transfer that is not active sends nothing. -/
theorem retransmissionGuardTick_inactive (s : QGCParamWidget) (now : Nat)
    (h : s.transmissionActive = false) :
    (s.retransmissionGuardTick now).2 = [] ∧
      (s.retransmissionGuardTick now).1.transmissionActive = false ∧
      (s.retransmissionGuardTick now).1.retransmissionTimer = none := by
  unfold retransmissionGuardTick
  rw [h]
  exact ⟨rfl, h, rfl⟩

/-- The guard tick that declares the timeout sends nothing. -/
theorem retransmissionGuardTick_timeout_requests (s : QGCParamWidget)
    (ha : s.transmissionActive = true) (now : Nat) (ht : s.transmissionTimeout < now) :
    (s.retransmissionGuardTick now).2 = [] := by
  have hc := declareTimeout_cleared s
  have hr := readRequests_eq_nil _ hc.1
  have hw := writeRequests_eq_nil _ hc.2
  have ht' : now > s.transmissionTimeout := ht
  unfold retransmissionGuardTick
  rw [if_pos ha, if_pos ht']
  simp only [hr, hw, List.append_nil]

end QGCParamWidget

/-- In a transfer that is not active, an operation by which the caller does not start a
transfer sends no request and leaves the transfer not active. -/
theorem inactive_run (s : QGCParamWidget) (op : Operation)
    (h : s.transmissionActive = false) (hop : op.startsTransfer = false) :
    op.requests s = [] ∧ ∀ t, op.run s = some t → t.transmissionActive = false := by
  cases op with
  | requestParameterList settings => cases hop
  | addParameter uas k n i key v now =>
    refine ⟨rfl, fun t ht => ?_⟩
    cases hr : s.addParameter uas k n i key v now with
    | none =>
      have h' : (s.addParameter uas k n i key v now).map (fun r => r.state) = some t := ht
      rw [hr] at h'
      cases h'
    | some r =>
      have h' : (s.addParameter uas k n i key v now).map (fun r => r.state) = some t := ht
      rw [hr] at h'
      cases h'
      obtain ⟨s1, _, rfl⟩ := QGCParamWidget.addParameter_some hr
      exact QGCParamWidget.observed_active s s1 k n i key v now h
  | setParameter k key v now => cases hop
  | setParameters now => cases hop
  | retransmissionGuardTick now =>
    have ht := QGCParamWidget.retransmissionGuardTick_inactive s now h
    refine ⟨ht.1, fun t e => ?_⟩
    cases e
    exact ht.2.1
  | loadParameters conv uasId file =>
    refine ⟨rfl, fun t ht => ?_⟩
    rw [(QGCParamWidget.loadParameters_sameTransfer conv uasId s t file ht).active]
    exact h

theorem inactive_runAll (ops : List Operation) (s : QGCParamWidget)
    (h : s.transmissionActive = false) (hops : ∀ op ∈ ops, op.startsTransfer = false) :
    Operation.requestsAll ops s = [] ∧
      ∀ t, Operation.runAll ops s = some t → t.transmissionActive = false := by
  induction ops generalizing s with
  | nil =>
    refine ⟨rfl, fun t ht => ?_⟩
    cases ht
    exact h
  | cons op ops ih =>
    have h1 := inactive_run s op h (hops op (List.mem_cons_self _ _))
    cases hr : op.run s with
    | none =>
      refine ⟨?_, fun t ht => ?_⟩
      · simp only [Operation.requestsAll, h1.1, hr, List.append_nil]
      · simp only [Operation.runAll, hr] at ht
        cases ht
    | some u =>
      have h2 := ih u (h1.2 u hr) (fun o ho => hops o (List.mem_cons_of_mem _ ho))
      refine ⟨?_, fun t ht => ?_⟩
      · simp only [Operation.requestsAll, h1.1, hr, h2.1, List.append_nil]
      · simp only [Operation.runAll, hr] at ht
        exact h2.2 t ht

/-! ## Parameter files -/

namespace QGCParamWidget

/-- The file of one line. -/
theorem loadParameters_single (conv : Conversions) (uasId : Int) (s : QGCParamWidget)
    (line : QString) :
    loadParameters conv uasId s (some [line]) = loadLine conv uasId s.clear line := rfl

/-- A comment, a line that has not four fields and a record of another vehicle are skipped. -/
theorem loadLine_skip (conv : Conversions) (uasId : Int) (s : QGCParamWidget)
    (line : QString)
    (h : line.head? = some 35 ∨ (split 9 line).length ≠ 4 ∨
      uasId ≠ conv.toInt ((split 9 line).headD [])) :
    loadLine conv uasId s line = some s := by
  unfold loadLine
  split_ifs with h1
  · rfl
  · split
    · rename_i p0 p1 p2 p3 heq
      rw [heq] at h
      rcases h with h | h | h
      · exact absurd h h1
      · exact absurd rfl h
      · have h' : uasId ≠ conv.toInt p0 := h
        rw [if_neg h']
    · rfl

theorem loadLines_skip (conv : Conversions) (uasId : Int) (lines : List QString)
    (h : ∀ line ∈ lines, line.head? = some 35 ∨ (split 9 line).length ≠ 4 ∨
      uasId ≠ conv.toInt ((split 9 line).headD [])) (s : QGCParamWidget) :
    lines.foldl
      (fun acc line =>
        match acc with
        | none => none
        | some t => loadLine conv uasId t line) (some s) = some s := by
  induction lines with
  | nil => rfl
  | cons line lines ih =>
    rw [List.foldl_cons]
    simp only
    rw [loadLine_skip conv uasId s line (h line (List.mem_cons_self _ _))]
    exact ih (fun l hl => h l (List.mem_cons_of_mem _ hl))

/-- The store update leaves the number read from the item stored and nothing queued for the
parameter. -/
theorem addParameter4_dirty {s t : QGCParamWidget} {uas c : Int} {name : QString}
    {v : float} (h : s.addParameter4 uas c name v = some t) :
    storedValue t c name = some (lastRead (s.tree 0 v) v) ∧ dirtyValue t c name = none := by
  refine ⟨addParameter4_value h, ?_⟩
  obtain ⟨map, s3, _, _, rfl⟩ := addParameter4_some h
  unfold dirtyValue
  simp only
  split_ifs with hc
  · rw [QMap.value_modify, if_pos rfl]
    cases s3.changedValues.value c with
    | none => rfl
    | some m =>
      show (m.remove name).value name = none
      rw [QMap.value_remove, if_pos rfl]
  · have hc' : s3.changedValues.contains c = false := by simpa using hc
    rw [(QMap.contains_false_iff _ _).1 hc']
    rfl

/-- The value the comparison of `loadParameters` reads for a parameter that is not stored. -/
theorem storedDefault_of_new (s : QGCParamWidget) (c : Int) (name : QString)
    (h : storedValue s c name = none) :
    ((s.parameters.value c).map (fun m => m.valueD name float.zero)).getD float.zero =
      float.zero := by
  unfold storedValue at h
  cases hv : s.parameters.value c with
  | none => rfl
  | some m =>
    rw [hv] at h
    have h' : m.value name = none := h
    show m.valueD name float.zero = float.zero
    unfold QMap.valueD
    rw [h']
    rfl

/-- A record of the vehicle for a parameter that is not stored. -/
theorem loadLine_record (conv : Conversions) (uasId : Int) (s : QGCParamWidget)
    (line p0 p1 p2 p3 : QString) (hs : s.StoreOk) (hline : line.head? ≠ some 35)
    (hsplit : split 9 line = [p0, p1, p2, p3]) (huas : uasId = conv.toInt p0)
    (hnew : storedValue s (conv.toInt p1) p2 = none) :
    ∃ t, loadLine conv uasId s line = some t ∧
      storedValue t (conv.toInt p1) p2 =
        some (lastRead (s.tree 0 (conv.toDouble p3)) (conv.toDouble p3)) ∧
      dirtyValue t (conv.toInt p1) p2 =
        if s.parameters.contains (conv.toInt p1) = false ∨
            float.ne float.zero (conv.toDouble p3) = true then
          some (conv.toDouble p3)
        else none := by
  obtain ⟨s1, h4⟩ := addParameter4_total s (conv.toInt p0) (conv.toInt p1) p2
    (conv.toDouble p3) hs
  have hd := addParameter4_dirty h4
  unfold loadLine
  rw [if_neg hline, hsplit]
  simp only
  rw [if_pos huas, h4, storedDefault_of_new s _ _ hnew]
  simp only
  refine ⟨_, rfl, hd.1, ?_⟩
  by_cases hch : s.parameters.contains (conv.toInt p1) = false ∨
      float.ne float.zero (conv.toDouble p3) = true
  · have hb : (!s.parameters.contains (conv.toInt p1) ||
        float.ne float.zero (conv.toDouble p3)) = true := by
      rcases hch with h | h
      · rw [h]; rfl
      · rw [h]; simp
    rw [if_pos hch]
    unfold dirtyValue
    simp only [hb, if_true]
    rw [QMap.value_modify, if_pos rfl]
    have hv : ∃ m, (if (!s1.changedValues.contains (conv.toInt p1)) = true then
        s1.changedValues.insert (conv.toInt p1) QMap.empty
        else s1.changedValues).value (conv.toInt p1) = some m := by
      split_ifs with hc
      · rw [QMap.value_insert, if_pos rfl]
        exact ⟨_, rfl⟩
      · have hc' : s1.changedValues.contains (conv.toInt p1) = true := by simpa using hc
        exact (QMap.contains_iff _ _).1 hc'
    obtain ⟨m, hm⟩ := hv
    rw [hm]
    show ((if m.contains p2 then m.remove p2 else m).insert p2 (conv.toDouble p3)).value p2 = _
    rw [QMap.value_insert, if_pos rfl]
  · have hb : (!s.parameters.contains (conv.toInt p1) ||
        float.ne float.zero (conv.toDouble p3)) = false := by
      have h1 : s.parameters.contains (conv.toInt p1) = true := by
        cases hx : s.parameters.contains (conv.toInt p1) with
        | false => exact absurd (Or.inl hx) hch
        | true => rfl
      have h2 : float.ne float.zero (conv.toDouble p3) = false := by
        cases hx : float.ne float.zero (conv.toDouble p3) with
        | false => rfl
        | true => exact absurd (Or.inr hx) hch
      rw [h1, h2]
      rfl
    rw [if_neg hch]
    unfold dirtyValue
    simp only [hb, Bool.false_eq_true, if_false]
    exact hd.2

end QGCParamWidget

/-! ## Coverage of the retries and list mode -/

theorem mem_readRequestsFor (c : Int) (id : Int) (signals : List Signal) :
    id ∈ readRequestsFor c signals ↔ Signal.requestParameter c id ∈ signals := by
  induction signals with
  | nil => simp [readRequestsFor]
  | cons x t ih =>
    cases x with
    | requestParameters => simp [readRequestsFor, ih]
    | requestParameter k j =>
      unfold readRequestsFor
      by_cases hk : k = c
      · subst hk
        simp [ih]
      · have hk' : ¬ c = k := fun e => hk e.symm
        simp [hk, hk', ih]
    | parameterChanged k name v => simp [readRequestsFor, ih]

namespace QGCParamWidget

theorem setParameters_burst {s : QGCParamWidget} {now : Nat}
    {r : QGCParamWidget × List Signal} (h : s.setParameters now = some r) :
    r.1.retransmissionBurstRequestSize = s.retransmissionBurstRequestSize := by
  unfold setParameters at h
  simp only [setParametersLoop_eq] at h
  have hb := writeAll_burst now (dirtyList s) s
  split_ifs at h <;> cases h <;> exact hb

theorem retransmissionGuardTick_burst (s : QGCParamWidget) (now : Nat) :
    (s.retransmissionGuardTick now).1.retransmissionBurstRequestSize =
      s.retransmissionBurstRequestSize := by
  unfold retransmissionGuardTick
  split_ifs <;> rfl

theorem parameterItemChanged_sameTransfer {s t : QGCParamWidget} {key : Int} {str : QString}
    {value : Option float} (h : s.parameterItemChanged key str value = some t) :
    t.transmissionMissingPackets = s.transmissionMissingPackets ∧
      t.transmissionListMode = s.transmissionListMode ∧
      t.retransmissionBurstRequestSize = s.retransmissionBurstRequestSize := by
  unfold parameterItemChanged at h
  cases value with
  | none =>
    simp only [Option.some.injEq] at h
    subst h
    exact ⟨rfl, rfl, rfl⟩
  | some v =>
    simp only at h
    cases hv : s.parameters.value key with
    | none => rw [hv] at h; cases h
    | some m =>
      rw [hv] at h
      simp only [Option.some.injEq] at h
      subst h
      exact ⟨rfl, rfl, rfl⟩

/-- The read requests of a guard tick of an active transfer before the deadline. -/
theorem readRequestsFor_tick (s : QGCParamWidget) (h : s.Inv)
    (ha : s.transmissionActive = true) (now : Nat) (hd : now ≤ s.transmissionTimeout)
    (c : Int) :
    readRequestsFor c (s.retransmissionGuardTick now).2 =
      ((s.transmissionMissingPackets.value c).getD []).take
        s.retransmissionBurstRequestSize.toNat := by
  have ht' : ¬ now > s.transmissionTimeout := not_lt.2 hd
  unfold retransmissionGuardTick
  rw [if_pos ha, if_neg ht']
  simp only
  rw [readRequestsFor_append, readRequestsFor_writeRequests, List.append_nil,
    readRequestsFor_readRequests]
  by_cases hp : s.parameters.contains c = true
  · rw [if_pos hp]
  · rw [if_neg hp]
    cases hv : s.transmissionMissingPackets.value c with
    | none => simp
    | some l =>
      by_cases hl : l = []
      · simp [hl]
      · exact absurd (h.seeded c l hv hl).2 hp

/-- A packet leaves list mode off. -/
theorem observed_listMode (s s1 : QGCParamWidget) (c n i : Int) (name : QString) (v : float)
    (now : Nat) (h : s.transmissionListMode = false) :
    (s.observed s1 c n i name v now).state.transmissionListMode = false := by
  show (if _ then false else s.transmissionListMode) = false
  split_ifs
  · rfl
  · exact h

/-- The lists of missing packets a packet leaves when it leaves list mode off. -/
theorem observed_lists_empty (s s1 : QGCParamWidget) (k n i : Int) (key : QString) (v : float)
    (now : Nat)
    (ih : s.transmissionListMode = false →
      ∀ c, (s.transmissionMissingPackets.value c).getD [] = [])
    (hl : (s.observed s1 k n i key v now).state.transmissionListMode = false) (c : Int) :
    ((s.observed s1 k n i key v now).state.transmissionMissingPackets.value c).getD [] = [] := by
  cases hm : s.transmissionListMode with
  | false =>
    have hs : s.seeds c = false := by
      unfold seeds
      rw [hm]
      rfl
    have hsub := observed_sublist s s1 k n i key v now c (Or.inl hs)
    rw [ih hm c] at hsub
    exact List.sublist_nil.1 hsub
  | true =>
    have hl' : (if (s.observed s1 k n i key v now).missCount = 0 ∧
        (s.observed s1 k n i key v now).missWriteCount = 0 then false
        else s.transmissionListMode) = false := hl
    rw [observed_missing]
    split_ifs at hl' with hd
    · rw [if_pos hd, QMap.value_foreachValue]
      cases (s.readsAfter k n i).value c <;> rfl
    · rw [hm] at hl'
      cases hl'

end QGCParamWidget

/-- The burst size of a reachable state is positive. -/
theorem burst_pos_of_reachable {s : QGCParamWidget} (h : Reachable s) :
    0 < s.retransmissionBurstRequestSize := by
  induction h with
  | init s h => exact h.2.2.2.2.2.2.2.2.2.2
  | requestParameterList s settings _ ih =>
    have e : (s.requestParameterList settings).1.retransmissionBurstRequestSize =
        s.retransmissionBurstRequestSize := (QGCParamWidget.loadSettings_burst s settings).1
    rw [e]
    exact ih
  | addParameter s uas component paramCount paramId parameterName value now r _ hr ih =>
    obtain ⟨s1, _, rfl⟩ := QGCParamWidget.addParameter_some hr
    exact ih
  | setParameter s component parameterName value now _ ih => exact ih
  | setParameters s now r _ hr ih =>
    rw [QGCParamWidget.setParameters_burst hr]
    exact ih
  | retransmissionGuardTick s now _ ih =>
    rw [QGCParamWidget.retransmissionGuardTick_burst]
    exact ih
  | loadParameters s conv uasId file t _ ht ih =>
    rw [(QGCParamWidget.loadParameters_sameTransfer conv uasId s t file ht).burst]
    exact ih
  | parameterItemChanged s key str value t _ _ ht ih =>
    rw [(QGCParamWidget.parameterItemChanged_sameTransfer ht).2.2]
    exact ih

/-- While list mode is off, every list of missing packets of a reachable state is empty. -/
theorem lists_empty_of_reachable {s : QGCParamWidget} (h : Reachable s) :
    s.transmissionListMode = false →
      ∀ c, (s.transmissionMissingPackets.value c).getD [] = [] := by
  induction h with
  | init s h =>
    intro _ c
    have e : s.transmissionMissingPackets.value c = none := by
      unfold QMap.value
      rw [h.2.2.2.1]
      rfl
    rw [e]
    rfl
  | requestParameterList s settings _ ih =>
    intro hl
    have : true = false := hl
    cases this
  | addParameter s uas component paramCount paramId parameterName value now r _ hr ih =>
    obtain ⟨s1, _, rfl⟩ := QGCParamWidget.addParameter_some hr
    intro hl c
    exact QGCParamWidget.observed_lists_empty s s1 component paramCount paramId parameterName
      value now ih hl c
  | setParameter s component parameterName value now _ ih => exact ih
  | setParameters s now r _ hr ih =>
    have hw := QGCParamWidget.setParameters_writeAll hr
    have hls := QGCParamWidget.writeAll_lists now (dirtyList s) s
    intro hl c
    rw [hw.2.1, hls.1]
    rw [hw.2.2.2, hls.2.2] at hl
    exact ih hl c
  | retransmissionGuardTick s now _ ih =>
    intro hl c
    rw [(QGCParamWidget.retransmissionGuardTick_listMode s now).1] at hl
    have hsub := QGCParamWidget.retransmissionGuardTick_sublist s now c
    rw [ih hl c] at hsub
    exact List.sublist_nil.1 hsub
  | loadParameters s conv uasId file t _ ht ih =>
    have hst := QGCParamWidget.loadParameters_sameTransfer conv uasId s t file ht
    intro hl c
    rw [hst.missing]
    rw [hst.listMode] at hl
    exact ih hl c
  | parameterItemChanged s key str value t _ _ ht ih =>
    have hst := QGCParamWidget.parameterItemChanged_sameTransfer ht
    intro hl c
    rw [hst.1]
    rw [hst.2.1] at hl
    exact ih hl c

/-! ## The claims -/

theorem startState_isInitial : startState.isInitial :=
  ⟨rfl, rfl, rfl, rfl, rfl, rfl, rfl, rfl, by decide, by decide, by decide⟩

theorem startState_reachable : Reachable startState :=
  Reachable.init _ startState_isInitial

theorem thrMinLoaded_reachable : Reachable thrMinLoaded := by
  unfold thrMinLoaded
  cases h : QGCParamWidget.loadParameters exampleConversions 5 startState
      (some [qs "5\t50\tTHR_MIN\t0.25"]) with
  | none => exact startState_reachable
  | some t => exact Reachable.loadParameters _ _ _ _ t startState_reachable h

theorem writePending_reachable : Reachable writePending :=
  Reachable.setParameter _ _ _ _ _ (Reachable.requestParameterList _ _ startState_reachable)

theorem startState_noPendingWrite : startState.NoPendingWrite := by
  intro k m h
  cases h

/-- C1, full-list completion. From a reachable state without a pending write,
`requestParameterList` followed by `n ≥ 1` packets of component `c`, all carrying the parameter
count `n` and with the indices `0, ..., n-1` in any order, is carried out without a crash and
leaves the list of missing packets of `c` empty and `transmissionActive` false. -/
theorem C1_full_list_completion (s : QGCParamWidget) (hs : Reachable s)
    (hw : s.NoPendingWrite) (settings : Settings) (uas c : Int) (n : Nat) (hn : 1 ≤ n)
    (obs : List Observation)
    (hperm : (obs.map (fun o => o.paramId)).Perm
      ((List.range n).map (fun (i : Nat) => (i : Int)))) :
    ∃ t, receiveAll uas c n (s.requestParameterList settings).1 obs = some t ∧
      t.transmissionMissingPackets.value c = some [] ∧ t.transmissionActive = false := by
  have hlen : obs.length = n := by
    have := hperm.length_eq
    simpa using this
  rcases List.eq_nil_or_concat obs with h | ⟨pre, last, h⟩
  · rw [h] at hlen
    simp at hlen
    omega
  · rw [List.concat_eq_append] at h
    subst h
    have h0 := QGCParamWidget.listRun_requestParameterList s settings c n (inv_of_reachable hs)
    have hw0 : (s.requestParameterList settings).1.NoPendingWrite := by
      intro k m hm
      have hm' : (s.loadSettings settings).transmissionMissingWriteAckPackets.value k =
          some m := hm
      rw [(QGCParamWidget.loadSettings_burst s settings).2.2.1] at hm'
      exact hw k m hm'
    obtain ⟨t, ht, htrun, htw⟩ := listRun_receiveAll uas c n pre [] _ h0
    obtain ⟨r, hr, _, hval, hcount, hact, hwr⟩ :=
      QGCParamWidget.listRun_step htrun uas last.paramId last.parameterName last.value last.now
    have hnil : remaining n (last.paramId :: (seenOf pre ++ [])) = [] := by
      apply remaining_eq_nil_of_perm
      refine List.Perm.trans ?_ hperm
      unfold seenOf
      simp only [List.append_nil, List.map_append, List.map_cons, List.map_nil]
      exact (List.perm_append_singleton _ _).symm.trans
        (List.Perm.append_right _ (List.reverse_perm _))
    rw [hnil] at hval hcount
    refine ⟨r.state, receiveAll_concat uas c n pre last _ t r ht hr, hval, ?_⟩
    exact hact (by simpa using hcount) (hwr (htw hw0)).2

/-- C1 at a list of three parameters that arrive in the order 2, 0, 1. -/
theorem C1_full_list_completion_witness :
    ∃ t, receiveAll 0 1 3 (startState.requestParameterList ⟨none, none⟩).1
        [⟨2, qs "C", ⟨3⟩, 1000⟩, ⟨0, qs "A", ⟨1⟩, 1001⟩, ⟨1, qs "B", ⟨2⟩, 1002⟩] = some t ∧
      t.transmissionMissingPackets.value 1 = some [] ∧ t.transmissionActive = false :=
  C1_full_list_completion startState startState_reachable startState_noPendingWrite
    ⟨none, none⟩ 0 1 3 (by decide) _ (by decide)

/-- C2, missing-count accounting. After `requestParameterList` on a reachable state and the
packets `pre` followed by the packet `last`, all for component `c` with the parameter count `n`
and with pairwise distinct indices in `[0, n)`, the count `missCount` that the call for `last`
computes is `n` minus the number of packets, and the list of missing packets of `c` holds
exactly the indices of `[0, n)` that have not arrived, in ascending order. -/
theorem C2_missing_count (s : QGCParamWidget) (hs : Reachable s) (settings : Settings)
    (uas c : Int) (n : Nat) (pre : List Observation) (last : Observation)
    (hnd : ((pre ++ [last]).map (fun o => o.paramId)).Nodup)
    (hr : ∀ o ∈ pre ++ [last], 0 ≤ o.paramId ∧ o.paramId < n) :
    ∃ t r, receiveAll uas c n (s.requestParameterList settings).1 pre = some t ∧
      t.addParameter uas c n last.paramId last.parameterName last.value last.now = some r ∧
      r.missCount = (n : Int) - ((pre.length : Int) + 1) ∧
      r.state.transmissionMissingPackets.value c =
        some (remaining n ((pre ++ [last]).map (fun o => o.paramId))) := by
  have h0 := QGCParamWidget.listRun_requestParameterList s settings c n (inv_of_reachable hs)
  obtain ⟨t, ht, htrun, _⟩ := listRun_receiveAll uas c n pre [] _ h0
  obtain ⟨r, hr1, _, hval, hcount, _, _⟩ :=
    QGCParamWidget.listRun_step htrun uas last.paramId last.parameterName last.value last.now
  have hcongr : remaining n (last.paramId :: (seenOf pre ++ [])) =
      remaining n ((pre ++ [last]).map (fun o => o.paramId)) := by
    apply remaining_congr
    intro i
    unfold seenOf
    simp only [List.append_nil, List.mem_cons, List.mem_reverse, List.map_append, List.map_cons,
      List.map_nil, List.mem_append, List.mem_singleton, List.mem_nil_iff, or_false]
    exact or_comm
  have hr' : ∀ i ∈ (pre ++ [last]).map (fun o => o.paramId), 0 ≤ i ∧ i < (n : Int) := by
    intro i hi
    obtain ⟨o, ho, rfl⟩ := List.mem_map.1 hi
    exact hr o ho
  have hlen := length_remaining n _ hnd hr'
  have hle := length_le_of_indices n _ hnd hr'
  rw [hcongr] at hval hcount
  refine ⟨t, r, ht, hr1, ?_, hval⟩
  rw [hcount, hlen]
  simp only [List.length_map, List.length_append, List.length_singleton] at hle ⊢
  omega

/-- C2 at the scenario of the specification: three parameters, index 0 and then index 2 have
arrived. -/
theorem C2_missing_count_witness :
    ∃ t r, receiveAll 0 1 3 (startState.requestParameterList ⟨none, none⟩).1
        [⟨0, qs "A", ⟨1⟩, 1000⟩] = some t ∧
      t.addParameter 0 1 3 2 (qs "C") ⟨3⟩ 1001 = some r ∧
      r.missCount = 3 - ((1 : Int) + 1) ∧
      r.state.transmissionMissingPackets.value 1 = some (remaining 3 [0, 2]) :=
  C2_missing_count startState startState_reachable ⟨none, none⟩ 0 1 3
    [⟨0, qs "A", ⟨1⟩, 1000⟩] ⟨2, qs "C", ⟨3⟩, 1001⟩ (by decide) (by decide)

/-- C3, a duplicate packet. In a reachable state, handling the same packet twice in a row
is carried out without a crash, and the second call leaves every list of missing packets and
every map of unacknowledged writes as the first call left them and computes the same `missCount`
and `missWriteCount`; the index of the packet is in the list of its component after neither
call. -/
theorem C3_duplicate_observation (s : QGCParamWidget) (hs : Reachable s)
    (uas c n i : Int) (name : QString) (v : float) (now now' : Nat) :
    ∃ r1 r2, s.addParameter uas c n i name v now = some r1 ∧
      r1.state.addParameter uas c n i name v now' = some r2 ∧
      r2.state.transmissionMissingPackets = r1.state.transmissionMissingPackets ∧
      r2.state.transmissionMissingWriteAckPackets =
        r1.state.transmissionMissingWriteAckPackets ∧
      r2.missCount = r1.missCount ∧ r2.missWriteCount = r1.missWriteCount ∧
      (∃ l, r1.state.transmissionMissingPackets.value c = some l ∧ i ∉ l) ∧
      (∃ l, r2.state.transmissionMissingPackets.value c = some l ∧ i ∉ l) := by
  have hinv := inv_of_reachable hs
  obtain ⟨s1, h1, e1⟩ :=
    QGCParamWidget.addParameter_total s uas c n i name v now hinv.store hinv.burst
  have hinv1 := QGCParamWidget.inv_observed s s1 uas c n i name v now hinv h1
  obtain ⟨s2, h2, e2⟩ :=
    QGCParamWidget.addParameter_total (s.observed s1 c n i name v now).state uas c n i name v
      now' hinv1.store hinv1.burst
  have ht := QGCParamWidget.observed_twice s s1 s2 c n i name v now now' hinv
  have hn1 := QGCParamWidget.observed_not_mem s s1 c n i name v now hinv
  refine ⟨_, _, e1, e2, ht.1, ht.2.1, ht.2.2.1, ht.2.2.2, hn1, ?_⟩
  rw [ht.1]
  exact hn1

/-- C3 at the first packet after a list request, delivered twice. -/
theorem C3_duplicate_observation_witness :
    ∃ r1 r2,
      (startState.requestParameterList ⟨none, none⟩).1.addParameter 0 1 3 1 (qs "B") ⟨2⟩ 1000 =
        some r1 ∧
      r1.state.addParameter 0 1 3 1 (qs "B") ⟨2⟩ 1001 = some r2 ∧
      r2.state.transmissionMissingPackets = r1.state.transmissionMissingPackets ∧
      r2.state.transmissionMissingWriteAckPackets =
        r1.state.transmissionMissingWriteAckPackets ∧
      r2.missCount = r1.missCount ∧ r2.missWriteCount = r1.missWriteCount ∧
      (∃ l, r1.state.transmissionMissingPackets.value 1 = some l ∧ (1 : Int) ∉ l) ∧
      (∃ l, r2.state.transmissionMissingPackets.value 1 = some l ∧ (1 : Int) ∉ l) :=
  C3_duplicate_observation _
    (Reachable.requestParameterList startState ⟨none, none⟩ startState_reachable)
    0 1 3 1 (qs "B") ⟨2⟩ 1000 1001

/-- C4, write round trip. In a reachable state without a pending write, `setParameter(c, P, v)`
followed by a packet for `(c, P)` whose value `w` satisfies `w == v` is carried out without a
crash; the packet removes `P` from the unacknowledged writes of `c`, is classified as
`justWritten` without mismatch, computes `missWriteCount = 0`, and sets the status text
"SUCCESS: WROTE ALL PARAMETERS". A NaN is not equal to itself, so no packet echoes a NaN. -/
theorem C4_write_round_trip (s : QGCParamWidget) (hs : Reachable s) (hw : s.NoPendingWrite)
    (uas c n i : Int) (P : QString) (v w : float) (heq : float.eq w v = true)
    (now now' : Nat) :
    ∃ r, (s.setParameter c P v now).1.addParameter uas c n i P w now' = some r ∧
      (∃ m, r.state.transmissionMissingWriteAckPackets.value c = some m ∧
        m.value P = none) ∧
      r.justWritten = true ∧ r.writeMismatch = false ∧ r.missWriteCount = 0 ∧
      r.state.statusLabel = StatusText.wroteAll := by
  have hinv := QGCParamWidget.inv_setParameter s c P v now (inv_of_reachable hs)
  obtain ⟨s1, _, e⟩ := QGCParamWidget.addParameter_total (s.setParameter c P v now).1
    uas c n i P w now' hinv.store hinv.burst
  obtain ⟨hj, hm, hacks⟩ := QGCParamWidget.observed_after_setParameter s s1 c n i P v w now now'
  have hm' : ((s.setParameter c P v now).1.observed s1 c n i P w now').writeMismatch = false := by
    rw [hm]
    unfold float.ne
    rw [float.eq_comm, heq]
    rfl
  have hempty : ((s.transmissionMissingWriteAckPackets.value c).getD QMap.empty).entries = [] := by
    cases hv : s.transmissionMissingWriteAckPackets.value c with
    | none => rfl
    | some m0 => exact hw c m0 hv
  have hcount : ((s.setParameter c P v now).1.observed s1 c n i P w now').missWriteCount = 0 := by
    apply QGCParamWidget.sumCounts_count_eq_zero
    intro k m hk
    have hk' := hacks k
    by_cases hkc : k = c
    · rw [if_pos hkc] at hk'
      have := hk'.symm.trans hk
      cases this
      exact QGCParamWidget.entries_remove_insert _ P v hempty
    · rw [if_neg hkc] at hk'
      exact hw k m (hk'.symm.trans hk)
  refine ⟨_, e, ⟨_, (hacks c).trans (if_pos rfl), ?_⟩, hj, hm', hcount, ?_⟩
  · rw [QMap.value_remove, if_pos rfl]
  · rw [(QGCParamWidget.observed_label _ s1 c n i P w now').1, hj, hm', hcount]
    rfl

/-- C4 at the write of 5.0 to the parameter P of component 1, echoed with 5.0. -/
theorem C4_write_round_trip_witness :
    ∃ r, (startState.setParameter 1 (qs "P") ⟨0x40A00000⟩ 10).1.addParameter 0 1 1 0 (qs "P")
        ⟨0x40A00000⟩ 20 = some r ∧
      (∃ m, r.state.transmissionMissingWriteAckPackets.value 1 = some m ∧
        m.value (qs "P") = none) ∧
      r.justWritten = true ∧ r.writeMismatch = false ∧ r.missWriteCount = 0 ∧
      r.state.statusLabel = StatusText.wroteAll :=
  C4_write_round_trip startState startState_reachable startState_noPendingWrite 0 1 1 0
    (qs "P") ⟨0x40A00000⟩ ⟨0x40A00000⟩ (by decide) 10 20

/-- C5, write mismatch. In a reachable state, `setParameter(c, P, v)` followed by a packet for
`(c, P)` with a value `w != v` is carried out without a crash; the packet is classified as
`justWritten` with `writeMismatch`, the status label turns red with the text "FAILURE: Wrote
...", and `P` is removed from the unacknowledged writes of `c`, so that the next guard tick, at
any time, sends no write for `(c, P)`. What `parameters[c][P]` holds afterwards is the number
the slot `parameterItemChanged` last read from the item of `P` while the tree was updated, and
`w` itself only when the slot was not called with a number: the store update writes `w`, and
the signal `itemChanged` of the tree then writes the number the item shows over it. -/
theorem C5_write_mismatch (s : QGCParamWidget) (hs : Reachable s)
    (uas c n i : Int) (P : QString) (v w : float) (hne : float.ne v w = true)
    (now now' : Nat) :
    ∃ r, (s.setParameter c P v now).1.addParameter uas c n i P w now' = some r ∧
      r.justWritten = true ∧ r.writeMismatch = true ∧
      (∃ sent, r.state.statusLabel = StatusText.failure P sent w) ∧
      r.state.statusColor = Color.red ∧
      (∃ m, r.state.transmissionMissingWriteAckPackets.value c = some m ∧
        m.value P = none) ∧
      (∀ tick x, Signal.parameterChanged c P x ∉ (r.state.retransmissionGuardTick tick).2) ∧
      storedValue r.state c P = some (lastRead (s.tree 0 w) w) := by
  have hinv := QGCParamWidget.inv_setParameter s c P v now (inv_of_reachable hs)
  obtain ⟨s1, h1, e⟩ := QGCParamWidget.addParameter_total (s.setParameter c P v now).1
    uas c n i P w now' hinv.store hinv.burst
  obtain ⟨hj, hm, hacks⟩ := QGCParamWidget.observed_after_setParameter s s1 c n i P v w now now'
  rw [hne] at hm
  have hrem : ∃ m, ((s.setParameter c P v now).1.observed s1 c n i P w
      now').state.transmissionMissingWriteAckPackets.value c = some m ∧ m.value P = none :=
    ⟨_, (hacks c).trans (if_pos rfl), by rw [QMap.value_remove, if_pos rfl]⟩
  have hstore : storedValue s1 c P =
      some (lastRead ((s.setParameter c P v now).1.tree 0 w) w) :=
    QGCParamWidget.addParameter4_value h1
  refine ⟨_, e, hj, hm, ?_, ?_, hrem, ?_, hstore⟩
  · rw [(QGCParamWidget.observed_label _ s1 c n i P w now').1, hj, hm]
    exact ⟨_, rfl⟩
  · rw [(QGCParamWidget.observed_label _ s1 c n i P w now').2, hj, hm]
    rfl
  · intro tick x hx
    obtain ⟨m, hm1, hm2⟩ := hrem
    obtain ⟨m', hm1', hm2'⟩ := QGCParamWidget.mem_retransmissionGuardTick _ tick c P x hx
    rw [hm1] at hm1'
    cases hm1'
    rw [hm2] at hm2'
    cases hm2'

set_option maxRecDepth 8000 in
/-- C5 at the failing input: 5.0 is written to the parameter P of component 1, which has no
item in the tree yet, and the vehicle reports 1234567.0. The packet is classified as a
mismatch, and the value stored for P is 1234570.0, the number that the new item shows with 6
significant digits, not the value 1234567.0 of the vehicle. -/
theorem C5_write_mismatch_witness :
    (∃ r, (startState.setParameter 1 (qs "P") ⟨0x40A00000⟩ 10).1.addParameter 0 1 1 0 (qs "P")
        ⟨0x4996B438⟩ 20 = some r ∧
      r.justWritten = true ∧ r.writeMismatch = true ∧
      storedValue r.state 1 (qs "P") = some ⟨0x4996B450⟩) ∧
      float.ne ⟨0x4996B450⟩ ⟨0x4996B438⟩ = true := by
  obtain ⟨r, h, hj, hm, _, _, _, _, hst⟩ := C5_write_mismatch startState startState_reachable
    0 1 1 0 (qs "P") ⟨0x40A00000⟩ ⟨0x4996B438⟩ (by decide) 10 20
  exact ⟨⟨r, h, hj, hm, hst.trans (by decide)⟩, by decide⟩

theorem midTransfer_reachable : Reachable midTransfer := by
  unfold midTransfer
  cases h : firstPacket with
  | none => exact startState_reachable
  | some r =>
    exact Reachable.setParameter _ _ _ _ _
      (Reachable.addParameter _ _ _ _ _ _ _ _ r
        (Reachable.requestParameterList _ _ startState_reachable) h)

/-- C6, outcome of a timeout. For every state with an active transfer: a guard tick at a time
after `transmissionTimeout` sets the text "TIMEOUT! MISSING: r read, w write." with `r` the sum
of the sizes of all lists of missing packets and `w` the sum of the sizes of all maps of
unacknowledged writes before the tick, leaves all these lists and maps empty, the transfer
inactive and the timer stopped; a tick at a time not after `transmissionTimeout` leaves the
lists, the maps, the active flag and the timer as they are and sets no timeout text. -/
theorem C6_timeout_outcome (s : QGCParamWidget) (ha : s.transmissionActive = true)
    (now : Nat) :
    (s.transmissionTimeout < now →
      (s.retransmissionGuardTick now).1.statusLabel =
        StatusText.timeout (pendingReads s) (pendingWrites s) ∧
      (∀ k l, (s.retransmissionGuardTick now).1.transmissionMissingPackets.value k = some l →
        l = []) ∧
      (∀ k m, (s.retransmissionGuardTick now).1.transmissionMissingWriteAckPackets.value k =
        some m → m.entries = []) ∧
      (s.retransmissionGuardTick now).1.transmissionActive = false ∧
      (s.retransmissionGuardTick now).1.retransmissionTimer = none) ∧
    (now ≤ s.transmissionTimeout →
      (s.retransmissionGuardTick now).1.transmissionMissingPackets =
        s.transmissionMissingPackets ∧
      (s.retransmissionGuardTick now).1.transmissionMissingWriteAckPackets =
        s.transmissionMissingWriteAckPackets ∧
      (s.retransmissionGuardTick now).1.transmissionActive = true ∧
      (s.retransmissionGuardTick now).1.retransmissionTimer = s.retransmissionTimer ∧
      ((∀ a b, s.statusLabel ≠ StatusText.timeout a b) →
        ∀ a b, (s.retransmissionGuardTick now).1.statusLabel ≠ StatusText.timeout a b)) := by
  constructor
  · exact QGCParamWidget.retransmissionGuardTick_timeout s ha now
  · intro ht
    have ht' : ¬ now > s.transmissionTimeout := not_lt.2 ht
    unfold QGCParamWidget.retransmissionGuardTick
    rw [if_pos ha, if_neg ht']
    refine ⟨rfl, rfl, ha, rfl, ?_⟩
    intro h
    exact QGCParamWidget.labelAfter_not_timeout _ _ h

/-- C6 in the middle of a transfer, at a tick long after the deadline. -/
theorem C6_timeout_outcome_witness :
    (midTransfer.transmissionTimeout < 1000000 →
      (midTransfer.retransmissionGuardTick 1000000).1.statusLabel =
        StatusText.timeout (pendingReads midTransfer) (pendingWrites midTransfer) ∧
      (∀ k l, (midTransfer.retransmissionGuardTick 1000000).1.transmissionMissingPackets.value k =
        some l → l = []) ∧
      (∀ k m,
        (midTransfer.retransmissionGuardTick 1000000).1.transmissionMissingWriteAckPackets.value
          k = some m → m.entries = []) ∧
      (midTransfer.retransmissionGuardTick 1000000).1.transmissionActive = false ∧
      (midTransfer.retransmissionGuardTick 1000000).1.retransmissionTimer = none) ∧
    (1000000 ≤ midTransfer.transmissionTimeout →
      (midTransfer.retransmissionGuardTick 1000000).1.transmissionMissingPackets =
        midTransfer.transmissionMissingPackets ∧
      (midTransfer.retransmissionGuardTick 1000000).1.transmissionMissingWriteAckPackets =
        midTransfer.transmissionMissingWriteAckPackets ∧
      (midTransfer.retransmissionGuardTick 1000000).1.transmissionActive = true ∧
      (midTransfer.retransmissionGuardTick 1000000).1.retransmissionTimer =
        midTransfer.retransmissionTimer ∧
      ((∀ a b, midTransfer.statusLabel ≠ StatusText.timeout a b) →
        ∀ a b,
          (midTransfer.retransmissionGuardTick 1000000).1.statusLabel ≠
            StatusText.timeout a b)) :=
  C6_timeout_outcome midTransfer (by decide) 1000000

/-- C7, read burst. In a reachable state with an active transfer, at a time not after
`transmissionTimeout` and with a burst size `b ≥ 1`, the guard tick sends for a component `c`
with the list `l` of missing packets exactly the requests `requestParameter(c, id)` for the
first `b` entries of `l`: they are `min(|l|, b)` requests, in ascending order, hence each index
once, and every index of `l` that is not requested is larger than every requested one. -/
theorem C7_read_burst (s : QGCParamWidget) (hs : Reachable s)
    (ha : s.transmissionActive = true) (now : Nat) (hd : now ≤ s.transmissionTimeout)
    (hb : 1 ≤ s.retransmissionBurstRequestSize) (c : Int) :
    readRequestsFor c (s.retransmissionGuardTick now).2 =
        ((s.transmissionMissingPackets.value c).getD []).take
          s.retransmissionBurstRequestSize.toNat ∧
      ((readRequestsFor c (s.retransmissionGuardTick now).2).length : Int) =
        min (((s.transmissionMissingPackets.value c).getD []).length : Int)
          s.retransmissionBurstRequestSize ∧
      (readRequestsFor c (s.retransmissionGuardTick now).2).Pairwise (fun a b => a < b) ∧
      (∀ x ∈ readRequestsFor c (s.retransmissionGuardTick now).2,
        ∀ y ∈ (s.transmissionMissingPackets.value c).getD [],
          y ∉ readRequestsFor c (s.retransmissionGuardTick now).2 → x < y) := by
  have hinv := inv_of_reachable hs
  have hsorted : ((s.transmissionMissingPackets.value c).getD []).Pairwise
      (fun a b => a < b) := by
    cases hv : s.transmissionMissingPackets.value c with
    | none => exact List.Pairwise.nil
    | some l => exact hinv.ascending c l hv
  have key : readRequestsFor c (s.retransmissionGuardTick now).2 =
      ((s.transmissionMissingPackets.value c).getD []).take
        s.retransmissionBurstRequestSize.toNat := by
    have ht' : ¬ now > s.transmissionTimeout := not_lt.2 hd
    unfold QGCParamWidget.retransmissionGuardTick
    rw [if_pos ha, if_neg ht']
    simp only
    rw [readRequestsFor_append, QGCParamWidget.readRequestsFor_writeRequests,
      List.append_nil, QGCParamWidget.readRequestsFor_readRequests]
    by_cases hp : s.parameters.contains c = true
    · rw [if_pos hp]
    · rw [if_neg hp]
      cases hv : s.transmissionMissingPackets.value c with
      | none => simp
      | some l =>
        by_cases hl : l = []
        · simp [hl]
        · exact absurd (hinv.seeded c l hv hl).2 hp
  rw [key]
  refine ⟨rfl, ?_, List.Pairwise.sublist (List.take_sublist _ _) hsorted, ?_⟩
  · rw [List.length_take]
    have : ((s.retransmissionBurstRequestSize.toNat : Nat) : Int) =
        s.retransmissionBurstRequestSize := Int.toNat_of_nonneg (by omega)
    rw [min_comm]
    omega
  · intro x hx y hy hny
    have hsplit := List.take_append_drop s.retransmissionBurstRequestSize.toNat
      ((s.transmissionMissingPackets.value c).getD [])
    rw [← hsplit] at hy hsorted
    rcases List.mem_append.1 hy with h | h
    · exact absurd h hny
    · exact (List.pairwise_append.1 hsorted).2.2 x hx y h

/-- C7 in the middle of a transfer: the indices 1 and 2 are missing, the burst size is 2. -/
theorem C7_read_burst_witness :
    readRequestsFor 1 (midTransfer.retransmissionGuardTick 3000).2 =
        ((midTransfer.transmissionMissingPackets.value 1).getD []).take
          midTransfer.retransmissionBurstRequestSize.toNat ∧
      ((readRequestsFor 1 (midTransfer.retransmissionGuardTick 3000).2).length : Int) =
        min (((midTransfer.transmissionMissingPackets.value 1).getD []).length : Int)
          midTransfer.retransmissionBurstRequestSize ∧
      (readRequestsFor 1 (midTransfer.retransmissionGuardTick 3000).2).Pairwise
        (fun a b => a < b) ∧
      (∀ x ∈ readRequestsFor 1 (midTransfer.retransmissionGuardTick 3000).2,
        ∀ y ∈ (midTransfer.transmissionMissingPackets.value 1).getD [],
          y ∉ readRequestsFor 1 (midTransfer.retransmissionGuardTick 3000).2 → x < y) :=
  C7_read_burst midTransfer midTransfer_reachable (by decide) 3000 (by decide) (by decide) 1

/-- C8, write burst. In a state with an active transfer, at a time not after
`transmissionTimeout` and with a burst size `b ≥ 1`, the guard tick sends for a component `c`
exactly the signals `parameterChanged(c, name, value)` for the first `b` entries of the map of
unacknowledged writes of `c`: they are `min(w, b)` requests for `w` entries, no name occurs
twice, every pair sent is stored in the map, and the maps are left as they are. -/
theorem C8_write_burst (s : QGCParamWidget) (ha : s.transmissionActive = true) (now : Nat)
    (hd : now ≤ s.transmissionTimeout) (hb : 1 ≤ s.retransmissionBurstRequestSize)
    (c : Int) :
    writeRequestsFor c (s.retransmissionGuardTick now).2 =
        (((s.transmissionMissingWriteAckPackets.value c).map QMap.entries).getD []).take
          s.retransmissionBurstRequestSize.toNat ∧
      ((writeRequestsFor c (s.retransmissionGuardTick now).2).length : Int) =
        min (((s.transmissionMissingWriteAckPackets.value c).map QMap.count).getD 0)
          s.retransmissionBurstRequestSize ∧
      ((writeRequestsFor c (s.retransmissionGuardTick now).2).map Prod.fst).Nodup ∧
      (∀ p ∈ writeRequestsFor c (s.retransmissionGuardTick now).2,
        ∃ m, s.transmissionMissingWriteAckPackets.value c = some m ∧
          m.value p.1 = some p.2) ∧
      (s.retransmissionGuardTick now).1.transmissionMissingWriteAckPackets =
        s.transmissionMissingWriteAckPackets := by
  have ht' : ¬ now > s.transmissionTimeout := not_lt.2 hd
  have key : writeRequestsFor c (s.retransmissionGuardTick now).2 =
      (((s.transmissionMissingWriteAckPackets.value c).map QMap.entries).getD []).take
        s.retransmissionBurstRequestSize.toNat := by
    unfold QGCParamWidget.retransmissionGuardTick
    rw [if_pos ha, if_neg ht']
    simp only
    rw [writeRequestsFor_append, QGCParamWidget.writeRequestsFor_readRequests,
      List.nil_append, QGCParamWidget.writeRequestsFor_writeRequests]
  have hstate : (s.retransmissionGuardTick now).1.transmissionMissingWriteAckPackets =
      s.transmissionMissingWriteAckPackets := by
    unfold QGCParamWidget.retransmissionGuardTick
    rw [if_pos ha, if_neg ht']
  rw [key]
  have hnn : ((s.retransmissionBurstRequestSize.toNat : Nat) : Int) =
      s.retransmissionBurstRequestSize := Int.toNat_of_nonneg (by omega)
  cases hv : s.transmissionMissingWriteAckPackets.value c with
  | none =>
    refine ⟨rfl, ?_, ?_, ?_, hstate⟩
    · simp only [Option.map_none', Option.getD_none, List.take_nil, List.length_nil]
      omega
    · simp
    · intro p hp
      simp at hp
  | some m =>
    refine ⟨rfl, ?_, ?_, ?_, hstate⟩
    · simp only [Option.map_some', Option.getD_some]
      rw [List.length_take]
      unfold QMap.count
      rw [min_comm]
      omega
    · simp only [Option.map_some', Option.getD_some]
      rw [List.map_take]
      exact List.Nodup.sublist (List.take_sublist _ _) (Assoc.nodup_keys m.sorted)
    · intro p hp
      simp only [Option.map_some', Option.getD_some] at hp
      exact ⟨m, rfl, (QMap.mem_entries_iff m p.1 p.2).1 (List.mem_of_mem_take hp)⟩

/-- C8 in the middle of a transfer: one write of component 1 is not acknowledged. -/
theorem C8_write_burst_witness :
    writeRequestsFor 1 (midTransfer.retransmissionGuardTick 3000).2 =
        (((midTransfer.transmissionMissingWriteAckPackets.value 1).map QMap.entries).getD
          []).take midTransfer.retransmissionBurstRequestSize.toNat ∧
      ((writeRequestsFor 1 (midTransfer.retransmissionGuardTick 3000).2).length : Int) =
        min (((midTransfer.transmissionMissingWriteAckPackets.value 1).map QMap.count).getD 0)
          midTransfer.retransmissionBurstRequestSize ∧
      ((writeRequestsFor 1 (midTransfer.retransmissionGuardTick 3000).2).map Prod.fst).Nodup ∧
      (∀ p ∈ writeRequestsFor 1 (midTransfer.retransmissionGuardTick 3000).2,
        ∃ m, midTransfer.transmissionMissingWriteAckPackets.value 1 = some m ∧
          m.value p.1 = some p.2) ∧
      (midTransfer.retransmissionGuardTick 3000).1.transmissionMissingWriteAckPackets =
        midTransfer.transmissionMissingWriteAckPackets :=
  C8_write_burst midTransfer (by decide) 3000 (by decide) (by decide) 1

/-- C9, counterexample. After `requestParameterList` in the state the constructor leaves, the
retransmission timer is not running. -/
theorem C9_timer_not_started :
    ¬ ((startState.requestParameterList ⟨none, none⟩).1.retransmissionTimer.isSome = true) := by
  decide

/-- C9 as amended. `requestParameterList` leaves the retransmission timer as it is, running or
stopped; in a reachable state, the packet handled next is handled without a crash and leaves
the timer running with the current retransmission interval. -/
theorem C9_timer_started_by_first_packet (s : QGCParamWidget) (hs : Reachable s)
    (settings : Settings) (uas c n i : Int) (name : QString) (v : float) (now : Nat) :
    (s.requestParameterList settings).1.retransmissionTimer = s.retransmissionTimer ∧
      ∃ r, (s.requestParameterList settings).1.addParameter uas c n i name v now = some r ∧
        r.state.retransmissionTimer = some r.state.retransmissionTimeout := by
  have hinv := QGCParamWidget.inv_requestParameterList s settings (inv_of_reachable hs)
  obtain ⟨s1, _, e⟩ := QGCParamWidget.addParameter_total (s.requestParameterList settings).1
    uas c n i name v now hinv.store hinv.burst
  exact ⟨(QGCParamWidget.loadSettings_burst s settings).2.2.2.1, _, e, rfl⟩

/-- C9 as amended, at the first packet after a list request in the state the constructor
leaves. -/
theorem C9_timer_started_by_first_packet_witness :
    (startState.requestParameterList ⟨none, none⟩).1.retransmissionTimer =
        startState.retransmissionTimer ∧
      ∃ r, (startState.requestParameterList ⟨none, none⟩).1.addParameter 0 1 3 0 (qs "A")
          ⟨0x3F800000⟩ 1000 = some r ∧
        r.state.retransmissionTimer = some r.state.retransmissionTimeout :=
  C9_timer_started_by_first_packet startState startState_reachable ⟨none, none⟩ 0 1 3 0
    (qs "A") ⟨0x3F800000⟩ 1000

/-- C10, counterexample. A list request in the state the constructor leaves, no packet, and a
guard tick after the deadline: the text reports 0 missing reads, whatever the number of
parameters of the vehicle, and not 10. -/
theorem C10_reports_zero :
    ((startState.requestParameterList ⟨none, none⟩).1.retransmissionGuardTick 1).1.statusLabel =
        StatusText.timeout 0 0 ∧
      ¬ ∃ w,
        ((startState.requestParameterList ⟨none, none⟩).1.retransmissionGuardTick
          1).1.statusLabel = StatusText.timeout 10 w := by
  have h : ((startState.requestParameterList ⟨none, none⟩).1.retransmissionGuardTick
      1).1.statusLabel = StatusText.timeout 0 0 := by decide
  refine ⟨h, ?_⟩
  rintro ⟨w, hw⟩
  rw [h] at hw
  injection hw with h1 _
  exact absurd h1 (by decide)

/-- C10 as amended. After `requestParameterList` and without any packet, a guard tick at a time
after `transmissionTimeout` reports 0 missing reads, together with the number of writes that
were unacknowledged before the request, leaves every list of missing packets empty and the
transfer inactive. -/
theorem C10_timeout_without_packet (s : QGCParamWidget) (settings : Settings) (now : Nat)
    (ht : (s.requestParameterList settings).1.transmissionTimeout < now) :
    ((s.requestParameterList settings).1.retransmissionGuardTick now).1.statusLabel =
        StatusText.timeout 0 (pendingWrites s) ∧
      (∀ k l,
        ((s.requestParameterList settings).1.retransmissionGuardTick
          now).1.transmissionMissingPackets.value k = some l → l = []) ∧
      ((s.requestParameterList settings).1.retransmissionGuardTick now).1.transmissionActive =
        false := by
  obtain ⟨h1, h2, _, h4, _⟩ :=
    QGCParamWidget.retransmissionGuardTick_timeout (s.requestParameterList settings).1 rfl now ht
  refine ⟨?_, h2, h4⟩
  rw [h1]
  have hr : pendingReads (s.requestParameterList settings).1 = 0 := by
    unfold pendingReads
    refine QMap.sum_eq_zero (fun l : List Int => (l.length : Int)) _ ?_
    intro k l hl
    have hl' : ((s.loadSettings settings).transmissionMissingPackets.foreachValue
        (fun _ => [])).value k = some l := hl
    rw [QMap.value_foreachValue] at hl'
    cases hx : (s.loadSettings settings).transmissionMissingPackets.value k with
    | none => rw [hx] at hl'; cases hl'
    | some l0 => rw [hx] at hl'; cases hl'; rfl
  have hw : pendingWrites (s.requestParameterList settings).1 = pendingWrites s := by
    unfold pendingWrites
    show (List.map _ (s.loadSettings settings).transmissionMissingWriteAckPackets.entries).sum = _
    rw [(QGCParamWidget.loadSettings_burst s settings).2.2.1]
  rw [hr, hw]

/-- C10 as amended, at a list request in the state the constructor leaves and a tick at the
time 1. -/
theorem C10_timeout_without_packet_witness :
    (startState.requestParameterList ⟨none, none⟩).1.transmissionTimeout < 1 ∧
      ((startState.requestParameterList ⟨none, none⟩).1.retransmissionGuardTick
        1).1.statusLabel = StatusText.timeout 0 (pendingWrites startState) ∧
      (∀ k l,
        ((startState.requestParameterList ⟨none, none⟩).1.retransmissionGuardTick
          1).1.transmissionMissingPackets.value k = some l → l = []) ∧
      ((startState.requestParameterList ⟨none, none⟩).1.retransmissionGuardTick
        1).1.transmissionActive = false :=
  ⟨by decide, C10_timeout_without_packet startState ⟨none, none⟩ 1 (by decide)⟩

/-- C11, a list request keeps the pending writes. In every state, `requestParameterList`
leaves the map of unacknowledged writes as it is, for every component and name, leaves every
list of missing packets empty and leaves no component with a known list size. -/
theorem C11_request_keeps_pending_writes (s : QGCParamWidget) (settings : Settings) :
    (s.requestParameterList settings).1.transmissionMissingWriteAckPackets =
        s.transmissionMissingWriteAckPackets ∧
      (∀ c name, pendingValue (s.requestParameterList settings).1 c name =
        pendingValue s c name) ∧
      (∀ c l, (s.requestParameterList settings).1.transmissionMissingPackets.value c = some l →
        l = []) ∧
      (s.requestParameterList settings).1.transmissionListSizeKnown.entries = [] := by
  have h1 : (s.requestParameterList settings).1.transmissionMissingWriteAckPackets =
      s.transmissionMissingWriteAckPackets :=
    (QGCParamWidget.loadSettings_burst s settings).2.2.1
  refine ⟨h1, ?_, ?_, rfl⟩
  · intro c name
    unfold pendingValue
    rw [h1]
  · intro c l hl
    have hl' : ((s.loadSettings settings).transmissionMissingPackets.foreachValue
        (fun _ => [])).value c = some l := hl
    rw [QMap.value_foreachValue] at hl'
    cases hx : (s.loadSettings settings).transmissionMissingPackets.value c with
    | none => rw [hx] at hl'; cases hl'
    | some l0 => rw [hx] at hl'; cases hl'; rfl

set_option maxRecDepth 8000 in
/-- C12, counterexample. In the middle of a transfer the value 1.0 is stored for the parameter
A of component 1; after `requestParameterList` nothing is stored for it. -/
theorem C12_request_loses_values :
    storedValue midTransfer 1 (qs "A") = some ⟨0x3F800000⟩ ∧
      storedValue (midTransfer.requestParameterList ⟨none, none⟩).1 1 (qs "A") = none := by
  decide

/-- C12 as amended. In every state, `requestParameterList` leaves `parameters` empty: no value
is stored for any component and name after it returns. -/
theorem C12_request_clears_store (s : QGCParamWidget) (settings : Settings) :
    (s.requestParameterList settings).1.parameters.entries = [] ∧
      ∀ c name, storedValue (s.requestParameterList settings).1 c name = none :=
  ⟨rfl, fun _ _ => rfl⟩

/-- C13, the deadline is never shortened. In every state, whenever one of the operations
`requestParameterList`, `addParameter`, `setParameter`, `setParameters`,
`retransmissionGuardTick` and `loadParameters` returns, `transmissionTimeout` is at least what
it was before the call. -/
theorem C13_deadline_never_shortened (s t : QGCParamWidget) (op : Operation)
    (h : op.run s = some t) : s.transmissionTimeout ≤ t.transmissionTimeout := by
  cases op with
  | requestParameterList settings =>
    simp only [Operation.run, Option.some.injEq] at h
    subst h
    exact le_of_eq (QGCParamWidget.loadSettings_burst s settings).2.2.2.2.symm
  | addParameter uas c n i name v now =>
    simp only [Operation.run, Option.map_eq_some'] at h
    obtain ⟨r, hr, rfl⟩ := h
    obtain ⟨s1, _, rfl⟩ := QGCParamWidget.addParameter_some hr
    exact QGCParamWidget.observed_timeout_le s s1 c n i name v now
  | setParameter c name v now =>
    simp only [Operation.run, Option.some.injEq] at h
    subst h
    exact QGCParamWidget.setParameter_timeout_le s c name v now
  | setParameters now =>
    simp only [Operation.run, Option.map_eq_some'] at h
    obtain ⟨r, hr, rfl⟩ := h
    exact QGCParamWidget.setParameters_timeout_le s now r hr
  | retransmissionGuardTick now =>
    simp only [Operation.run, Option.some.injEq] at h
    subst h
    exact le_of_eq (QGCParamWidget.retransmissionGuardTick_timeout_eq s now).symm
  | loadParameters conv uasId file =>
    simp only [Operation.run] at h
    exact le_of_eq (QGCParamWidget.loadParameters_sameTransfer conv uasId s t file h).timeout.symm

/-- C13 at a write in the middle of a transfer. -/
theorem C13_deadline_never_shortened_witness :
    (Operation.setParameter 1 (qs "Q") ⟨0x40A00000⟩ 9000).run midTransfer =
        some (midTransfer.setParameter 1 (qs "Q") ⟨0x40A00000⟩ 9000).1 ∧
      midTransfer.transmissionTimeout ≤
        (midTransfer.setParameter 1 (qs "Q") ⟨0x40A00000⟩ 9000).1.transmissionTimeout :=
  ⟨rfl, C13_deadline_never_shortened midTransfer _
    (Operation.setParameter 1 (qs "Q") ⟨0x40A00000⟩ 9000) rfl⟩

/-- C14, the failing run. A list request, the first packet of component 1, a guard tick after
the deadline and then the first packet of component 2: the state is reachable, the indices 1 to
4 of component 2 are missing, `transmissionActive` is false, and the next guard tick sends no
request and stops the timer. -/
theorem C14_pending_reads_without_active :
    ∃ t, Operation.runAll lateFirstPacket startState = some t ∧ Reachable t ∧
      t.transmissionMissingPackets.value 2 = some [1, 2, 3, 4] ∧
      t.transmissionActive = false ∧
      (t.retransmissionGuardTick 6350).2 = [] ∧
      (t.retransmissionGuardTick 6350).1.retransmissionTimer = none := by
  have key : (Operation.runAll lateFirstPacket startState).map
      (fun t => (t.transmissionMissingPackets.value 2, t.transmissionActive,
        (t.retransmissionGuardTick 6350).2,
        (t.retransmissionGuardTick 6350).1.retransmissionTimer)) =
      some (some [1, 2, 3, 4], false, [], none) := by decide
  cases h : Operation.runAll lateFirstPacket startState with
  | none => rw [h] at key; cases key
  | some t =>
    rw [h] at key
    simp only [Option.map_some', Option.some.injEq, Prod.mk.injEq] at key
    exact ⟨t, rfl, reachable_runAll _ startState_reachable h, key.1, key.2.1, key.2.2.1,
      key.2.2.2⟩

/-- C15, the value named as sent. In a reachable state, when `setParameter(c, P, v)` is
followed by a packet for `(c, P)` with a value `w != v`, the text of the mismatch is "FAILURE:
Wrote P: sent 0 != onboard w": the value named as sent is read from the map after the entry has
been removed from it, so it is `0.0` and not `v`. -/
theorem C15_mismatch_names_zero (s : QGCParamWidget) (hs : Reachable s)
    (uas c n i : Int) (P : QString) (v w : float) (hne : float.ne v w = true)
    (now now' : Nat) :
    ∃ r, (s.setParameter c P v now).1.addParameter uas c n i P w now' = some r ∧
      r.state.statusLabel = StatusText.failure P float.zero w := by
  have hinv := QGCParamWidget.inv_setParameter s c P v now (inv_of_reachable hs)
  obtain ⟨s1, _, e⟩ := QGCParamWidget.addParameter_total (s.setParameter c P v now).1
    uas c n i P w now' hinv.store hinv.burst
  obtain ⟨hj, hm, hacks⟩ := QGCParamWidget.observed_after_setParameter s s1 c n i P v w now now'
  rw [hne] at hm
  refine ⟨_, e, ?_⟩
  have hsent : ((((s.setParameter c P v now).1.acksAfter c P).value c).map
      (fun m => m.valueD P float.zero)).getD float.zero = float.zero := by
    have := hacks c
    rw [if_pos rfl] at this
    have h2 : ((s.setParameter c P v now).1.acksAfter c P).value c = _ := this
    rw [h2]
    simp [QMap.valueD, QMap.value_remove]
  rw [(QGCParamWidget.observed_label _ s1 c n i P w now').1, hj, hm, hsent]
  rfl

/-- C15 at the failing input: 5.0 is written to the parameter P of component 1, the vehicle
reports 6.0, and the text names 0.0, which is not 5.0, as the value sent. -/
theorem C15_mismatch_names_zero_witness :
    (∃ r, (startState.setParameter 1 (qs "P") ⟨0x40A00000⟩ 10).1.addParameter 0 1 1 0 (qs "P")
        ⟨0x40C00000⟩ 20 = some r ∧
      r.state.statusLabel = StatusText.failure (qs "P") float.zero ⟨0x40C00000⟩) ∧
      float.zero ≠ (⟨0x40A00000⟩ : float) :=
  ⟨C15_mismatch_names_zero startState startState_reachable 0 1 1 0 (qs "P") ⟨0x40A00000⟩
    ⟨0x40C00000⟩ (by decide) 10 20, by decide⟩

/-- C16, the status table. For every combination of the flags `justWritten` and
`writeMismatch` and of two counts that are not negative, the row of the status that the cascade
of `addParameter` sets is the row the table of the specification gives, and each row is taken
exactly under the condition of the table, so the five rows exclude each other and leave no case
out. Every call of `addParameter` that returns sets the status of this cascade for its own
flags and counts, which are not negative. -/
theorem C16_status_table (jw wm : Bool) (mrc mwc : Int) (h1 : 0 ≤ mrc) (h2 : 0 ≤ mwc)
    (pc pid : Int) (name : QString) (v sent : float) :
    (classOf (QGCParamWidget.statusOf jw wm mrc mwc pc pid name v sent) = specStatusClass jw wm mrc mwc ∧
      (classOf (QGCParamWidget.statusOf jw wm mrc mwc pc pid name v sent) =
          some StatusClass.allWritesComplete ↔ jw = true ∧ wm = false ∧ mwc = 0) ∧
      (classOf (QGCParamWidget.statusOf jw wm mrc mwc pc pid name v sent) = some StatusClass.wroteOne ↔
        jw = true ∧ wm = false ∧ mwc > 0) ∧
      (classOf (QGCParamWidget.statusOf jw wm mrc mwc pc pid name v sent) = some StatusClass.writeMismatch ↔
        jw = true ∧ wm = true) ∧
      (classOf (QGCParamWidget.statusOf jw wm mrc mwc pc pid name v sent) = some StatusClass.receivedMissing ↔
        jw = false ∧ mrc > 0) ∧
      (classOf (QGCParamWidget.statusOf jw wm mrc mwc pc pid name v sent) =
          some StatusClass.receivedComplete ↔ jw = false ∧ mrc = 0)) ∧
    (∀ (s : QGCParamWidget) (uas c n i : Int) (P : QString) (x : float) (now : Nat)
      (r : Observed), s.addParameter uas c n i P x now = some r →
        classOf (r.state.statusLabel, r.state.statusColor) =
          specStatusClass r.justWritten r.writeMismatch r.missCount r.missWriteCount) := by
  constructor
  · rw [QGCParamWidget.classOf_statusOf jw wm mrc mwc h1 h2]
    unfold specStatusClass
    cases jw <;> cases wm
    · by_cases h : mrc > 0
      · have h' : mrc ≠ 0 := by omega
        simp [h, h']
      · have : mrc = 0 := by omega
        simp [this]
    · by_cases h : mrc > 0
      · have h' : mrc ≠ 0 := by omega
        simp [h, h']
      · have : mrc = 0 := by omega
        simp [this]
    · by_cases h : mwc = 0
      · simp [h]
      · have : mwc > 0 := by omega
        simp [h, this]
    · simp
  · intro s uas c n i P x now r hr
    obtain ⟨s1, _, rfl⟩ := QGCParamWidget.addParameter_some hr
    have hn := QGCParamWidget.observed_counts_nonneg s s1 c n i P x now
    have hl := QGCParamWidget.observed_label s s1 c n i P x now
    rw [hl.1, hl.2]
    exact QGCParamWidget.classOf_statusOf _ _ _ _ hn.1 hn.2 _ _ _ _ _

/-- C16 at a write that is acknowledged while one other write is pending. -/
theorem C16_status_table_witness :
    classOf (QGCParamWidget.statusOf true false 0 1 3 0 (qs "P") ⟨0x40A00000⟩ float.zero) =
      some StatusClass.wroteOne :=
  ((C16_status_table true false 0 1 (by decide) (by decide) 3 0 (qs "P") ⟨0x40A00000⟩
    float.zero).1.2.2.1).2 ⟨rfl, rfl, by decide⟩

/-- C17, the last write wins. In every state, after `setParameter(c, P, v1)` followed by
`setParameter(c, P, v2)` the pending value of `(c, P)` is `v2`, the map of component `c` has
exactly one entry for `P` and as many entries as after the first call, the sum of the sizes of
all maps of unacknowledged writes is the one after the first call, and the pending values of
all other keys are those after the first call. -/
theorem C17_last_write_wins (s : QGCParamWidget) (c : Int) (P : QString) (v1 v2 : float)
    (now now' : Nat) :
    pendingValue ((s.setParameter c P v1 now).1.setParameter c P v2 now').1 c P = some v2 ∧
      (∃ m1 m2,
        (s.setParameter c P v1 now).1.transmissionMissingWriteAckPackets.value c = some m1 ∧
        ((s.setParameter c P v1 now).1.setParameter c P v2
          now').1.transmissionMissingWriteAckPackets.value c = some m2 ∧
        m2.entries.filter (fun e => decide (e.1 = P)) = [(P, v2)] ∧
        m2.entries.length = m1.entries.length) ∧
      pendingWrites ((s.setParameter c P v1 now).1.setParameter c P v2 now').1 =
        pendingWrites (s.setParameter c P v1 now).1 ∧
      (∀ k name, ¬ (k = c ∧ name = P) →
        pendingValue ((s.setParameter c P v1 now).1.setParameter c P v2 now').1 k name =
          pendingValue (s.setParameter c P v1 now).1 k name) := by
  have hm1 := QGCParamWidget.setParameter_acks s c P v1 now c
  rw [if_pos rfl] at hm1
  have hm2 := QGCParamWidget.setParameter_acks (s.setParameter c P v1 now).1 c P v2 now' c
  rw [if_pos rfl, hm1] at hm2
  simp only [Option.getD_some] at hm2
  have hP : (((s.transmissionMissingWriteAckPackets.value c).getD QMap.empty).insert P
      v1).value P = some v1 := by
    rw [QMap.value_insert, if_pos rfl]
  have hlen : ∀ m : QMap QString float, m.value P = some v1 →
      (m.insert P v2).entries.length = m.entries.length :=
    fun m hm => Assoc.length_insert_of_lookup P v2 v1 m.entries m.sorted hm
  refine ⟨?_, ⟨_, _, hm1, hm2, ?_, hlen _ hP⟩, ?_, ?_⟩
  · rw [QGCParamWidget.pendingValue_setParameter, if_pos ⟨rfl, rfl⟩]
  · have h := Assoc.filter_key P v2 _
      ((((s.transmissionMissingWriteAckPackets.value c).getD QMap.empty).insert P
        v1).insert P v2).sorted (Assoc.lookup_insert_self P v2 _)
    convert h
  · unfold pendingWrites
    rw [QGCParamWidget.setParameter_acks_eq _ c P v2 now'
      (QGCParamWidget.setParameter_contains s c P v1 now)]
    refine QMap.sum_modify (fun m : QMap QString float => (m.entries.length : Int)) _ c _ ?_
    intro a ha
    rw [hm1] at ha
    cases ha
    simp only
    rw [hlen _ hP]
  · intro k name hk
    rw [QGCParamWidget.pendingValue_setParameter, if_neg hk]

/-- C18, `setParameters` commits every dirty entry. In a state whose burst size is not `0`,
`setParameters` returns; with `N` the number of entries of `changedValues` over all components,
it emits exactly the `N` write requests of these entries, one for each in their order, its
counter `parametersSent` is `N` and for `N` other than `0` the status names `N`; every entry
`(c, name, value)` of `changedValues` is pending with its value afterwards, and `changedValues`
is empty. For `N = 0` it emits no request and leaves the unacknowledged writes, the flag
`transmissionActive`, the deadline and the timer as they were, with the status of no
transmission. -/
theorem C18_setParameters_commits (s : QGCParamWidget) (now : Nat)
    (hb : s.retransmissionBurstRequestSize ≠ 0) :
    ∃ r, s.setParameters now = some r ∧
      r.2 = dirtyRequests s ∧
      (r.2.length : Int) = dirtyCount s ∧
      (s.setParametersLoop now).2.2 = dirtyCount s ∧
      (dirtyCount s ≠ 0 → r.1.statusLabel = StatusText.transmitting (dirtyCount s)) ∧
      (∀ c m name v, s.changedValues.value c = some m → m.value name = some v →
        pendingValue r.1 c name = some v) ∧
      r.1.changedValues.entries = [] ∧
      (dirtyCount s = 0 →
        r.2 = [] ∧
        r.1.transmissionMissingWriteAckPackets = s.transmissionMissingWriteAckPackets ∧
        r.1.transmissionActive = s.transmissionActive ∧
        r.1.transmissionTimeout = s.transmissionTimeout ∧
        r.1.retransmissionTimer = s.retransmissionTimer ∧
        r.1.statusLabel = StatusText.noTransmission) := by
  have hloop := QGCParamWidget.setParametersLoop_eq s now
  have hreq := dirtyRequests_eq s
  have hcnt := dirtyCount_eq s
  have hpend : ∀ c m name v, s.changedValues.value c = some m → m.value name = some v →
      pendingValue (writeAll now s (dirtyList s)) c name = some v := fun c m name v hm hv =>
    QGCParamWidget.pendingValue_writeAll_of_mem now _ (QGCParamWidget.dirtyList_pairwise s) s
      (c, name, v) (QGCParamWidget.mem_dirtyList s c m name v hm hv)
  have hburst := QGCParamWidget.writeAll_burst now (dirtyList s) s
  by_cases h0 : ((dirtyList s).length : Int) = 0
  · have hnil : dirtyList s = [] := List.length_eq_zero.1 (by exact_mod_cast h0)
    unfold QGCParamWidget.setParameters
    simp only [hloop]
    rw [if_pos h0]
    refine ⟨_, rfl, ?_⟩
    · rw [hreq, hcnt, hnil]
      refine ⟨rfl, rfl, rfl, fun h => absurd rfl h, ?_, rfl, fun _ => ⟨rfl, rfl, rfl, rfl, rfl, rfl⟩⟩
      intro c m name v hm hv
      have := hpend c m name v hm hv
      rw [hnil] at this
      exact this
  · unfold QGCParamWidget.setParameters
    simp only [hloop]
    rw [if_neg h0, if_neg (by rw [hburst]; exact hb)]
    refine ⟨_, rfl, ?_⟩
    · rw [hreq, hcnt]
      refine ⟨rfl, by simp, rfl, fun _ => rfl, ?_, rfl, fun h => absurd h h0⟩
      intro c m name v hm hv
      exact hpend c m name v hm hv

/-- C18 at a state with two changed values of component 1. -/
theorem C18_setParameters_commits_witness :
    dirtyState.retransmissionBurstRequestSize ≠ 0 ∧
      ∃ r, dirtyState.setParameters 3000 = some r ∧
        r.2 = [Signal.parameterChanged 1 (qs "P") ⟨0x40A00000⟩,
          Signal.parameterChanged 1 (qs "Q") ⟨0x40C00000⟩] ∧
        pendingValue r.1 1 (qs "Q") = some ⟨0x40C00000⟩ ∧
        r.1.changedValues.entries = [] := by
  refine ⟨by decide, ?_⟩
  obtain ⟨r, h1, h2, _, _, _, h6, h7, _⟩ :=
    C18_setParameters_commits dirtyState 3000 (by decide)
  exact ⟨r, h1, h2.trans rfl, h6 1 _ (qs "Q") ⟨0x40C00000⟩ rfl rfl, h7⟩

/-- C19, pending writes are not dropped silently. For every state and every operation that
returns, when `(c, name)` has an unacknowledged write before the operation and none after it,
the operation is either the packet `addParameter` of that same component and name, which
counts as written and sets one of the three texts of a write (all written, one written, or
failure), or a guard tick of an active transfer after the deadline, whose text of the timeout
reports the number of unacknowledged writes before it, a number that is positive. So
`requestParameterList`, `setParameter`, `setParameters`, `loadParameters`, the other guard
ticks and the packets of other keys remove no unacknowledged write. -/
theorem C19_pending_write_not_dropped (s t : QGCParamWidget) (op : Operation)
    (h : op.run s = some t) (c : Int) (name : QString)
    (hbefore : pendingValue s c name ≠ none) (hafter : pendingValue t c name = none) :
    (∃ uas n i v now r, op = Operation.addParameter uas c n i name v now ∧
        s.addParameter uas c n i name v now = some r ∧ r.state = t ∧ r.justWritten = true ∧
        (classOf (t.statusLabel, t.statusColor) = some StatusClass.allWritesComplete ∨
          classOf (t.statusLabel, t.statusColor) = some StatusClass.wroteOne ∨
          classOf (t.statusLabel, t.statusColor) = some StatusClass.writeMismatch)) ∨
      (∃ now, op = Operation.retransmissionGuardTick now ∧ s.transmissionActive = true ∧
        s.transmissionTimeout < now ∧
        t.statusLabel = StatusText.timeout (pendingReads s) (pendingWrites s) ∧
        0 < pendingWrites s) := by
  cases op with
  | requestParameterList settings =>
    exfalso
    cases h
    apply hbefore
    rw [← hafter]
    unfold pendingValue
    rw [QGCParamWidget.requestParameterList_acks]
  | addParameter uas k n i key v now =>
    left
    cases hr : s.addParameter uas k n i key v now with
    | none =>
      exfalso
      have h' : (s.addParameter uas k n i key v now).map (fun r => r.state) = some t := h
      rw [hr] at h'
      cases h'
    | some r =>
      have h' : (s.addParameter uas k n i key v now).map (fun r => r.state) = some t := h
      rw [hr] at h'
      cases h'
      obtain ⟨s1, _, hobs⟩ := QGCParamWidget.addParameter_some hr
      by_cases hk : c = k ∧ name = key
      · obtain ⟨rfl, rfl⟩ := hk
        have hj : r.justWritten = true := by
          rw [hobs]
          exact QGCParamWidget.acknowledges_of_pending s c name hbefore
        refine ⟨uas, n, i, v, now, r, rfl, hr, rfl, hj, ?_⟩
        have hl := QGCParamWidget.observed_label s s1 c n i name v now
        rw [← hobs] at hl
        rw [hl.1, hl.2, hj]
        exact QGCParamWidget.classOf_statusOf_written _ _ _ _ _ _ _ _
      · exfalso
        apply hbefore
        rw [← hafter, hobs]
        exact (QGCParamWidget.pendingValue_acksAfter s k key c name hk).symm
  | setParameter k key v now =>
    exfalso
    cases h
    rw [QGCParamWidget.pendingValue_setParameter] at hafter
    split_ifs at hafter
    exact hbefore hafter
  | setParameters now =>
    exfalso
    cases hr : s.setParameters now with
    | none =>
      have h' : (s.setParameters now).map (fun r => r.1) = some t := h
      rw [hr] at h'
      cases h'
    | some r =>
      have h' : (s.setParameters now).map (fun r => r.1) = some t := h
      rw [hr] at h'
      cases h'
      apply QGCParamWidget.writeAll_pending now (dirtyList s) s c name hbefore
      rw [← hafter]
      unfold pendingValue
      rw [(QGCParamWidget.setParameters_writeAll hr).1]
  | retransmissionGuardTick now =>
    cases h
    by_cases hto : s.transmissionActive = true ∧ s.transmissionTimeout < now
    · right
      exact ⟨now, rfl, hto.1, hto.2,
        (QGCParamWidget.retransmissionGuardTick_timeout s hto.1 now hto.2).1,
        QGCParamWidget.pendingWrites_pos s c name hbefore⟩
    · exfalso
      apply hbefore
      rw [← hafter]
      unfold pendingValue
      rw [(QGCParamWidget.retransmissionGuardTick_pending s now hto).1]
  | loadParameters conv uasId file =>
    exfalso
    apply hbefore
    rw [← hafter]
    unfold pendingValue
    rw [(QGCParamWidget.loadParameters_sameTransfer conv uasId s t file h).acks]

/-- C19 at the guard tick after the deadline of a transfer with one unacknowledged write. -/
theorem C19_pending_write_not_dropped_witness :
    (Operation.retransmissionGuardTick 100000).run midTransfer =
        some (midTransfer.retransmissionGuardTick 100000).1 ∧
      pendingValue midTransfer 1 (qs "P") ≠ none ∧
      pendingValue (midTransfer.retransmissionGuardTick 100000).1 1 (qs "P") = none ∧
      ((∃ uas n i v now r,
          Operation.retransmissionGuardTick 100000 =
            Operation.addParameter uas 1 n i (qs "P") v now ∧
          midTransfer.addParameter uas 1 n i (qs "P") v now = some r ∧
          r.state = (midTransfer.retransmissionGuardTick 100000).1 ∧ r.justWritten = true ∧
          (classOf ((midTransfer.retransmissionGuardTick 100000).1.statusLabel,
              (midTransfer.retransmissionGuardTick 100000).1.statusColor) =
                some StatusClass.allWritesComplete ∨
            classOf ((midTransfer.retransmissionGuardTick 100000).1.statusLabel,
              (midTransfer.retransmissionGuardTick 100000).1.statusColor) =
                some StatusClass.wroteOne ∨
            classOf ((midTransfer.retransmissionGuardTick 100000).1.statusLabel,
              (midTransfer.retransmissionGuardTick 100000).1.statusColor) =
                some StatusClass.writeMismatch)) ∨
        (∃ now, Operation.retransmissionGuardTick 100000 = Operation.retransmissionGuardTick now ∧
          midTransfer.transmissionActive = true ∧ midTransfer.transmissionTimeout < now ∧
          (midTransfer.retransmissionGuardTick 100000).1.statusLabel =
            StatusText.timeout (pendingReads midTransfer) (pendingWrites midTransfer) ∧
          0 < pendingWrites midTransfer)) :=
  ⟨rfl, by decide, by decide,
    C19_pending_write_not_dropped midTransfer _ (Operation.retransmissionGuardTick 100000) rfl 1
      (qs "P") (by decide) (by decide)⟩

/-- C20, the first observation wins. For every state, every operation that returns and every
component `c`: a packet `addParameter` of `c` leaves the list of `c` seeded, whatever
`paramCount` it carries; once the list of `c` is seeded, it stays seeded under every operation
other than `requestParameterList`; and the list of missing packets of `c` after the operation
is a sublist of the one before, so no index is added, unless the operation is a packet of `c`
that seeds the list. -/
theorem C20_first_observation_wins (s t : QGCParamWidget) (op : Operation)
    (h : op.run s = some t) (c : Int) :
    ((∃ uas n i name v now, op = Operation.addParameter uas c n i name v now) →
        t.seeds c = false) ∧
      (s.seeds c = false → (∀ settings, op ≠ Operation.requestParameterList settings) →
        t.seeds c = false) ∧
      ((s.seeds c = false ∨ ∀ uas n i name v now,
          op ≠ Operation.addParameter uas c n i name v now) →
        ((t.transmissionMissingPackets.value c).getD []).Sublist
          ((s.transmissionMissingPackets.value c).getD [])) := by
  cases op with
  | requestParameterList settings =>
    cases h
    refine ⟨fun ⟨_, _, _, _, _, _, e⟩ => Operation.noConfusion e,
      fun _ hne => absurd rfl (hne settings), fun _ => ?_⟩
    rw [QGCParamWidget.requestParameterList_missing]
    exact List.nil_sublist _
  | addParameter uas k n i key v now =>
    cases hr : s.addParameter uas k n i key v now with
    | none =>
      have h' : (s.addParameter uas k n i key v now).map (fun r => r.state) = some t := h
      rw [hr] at h'
      cases h'
    | some r =>
      have h' : (s.addParameter uas k n i key v now).map (fun r => r.state) = some t := h
      rw [hr] at h'
      cases h'
      obtain ⟨s1, _, rfl⟩ := QGCParamWidget.addParameter_some hr
      refine ⟨?_, fun hc _ => QGCParamWidget.observed_seeds_of s s1 k n i key v now c hc, ?_⟩
      · rintro ⟨_, _, _, _, _, _, e⟩
        cases e
        exact QGCParamWidget.observed_seeds s s1 c n i key v now
      · intro hc
        apply QGCParamWidget.observed_sublist
        rcases hc with hc | hc
        · exact Or.inl hc
        · exact Or.inr (fun e => hc uas n i key v now (by rw [e]))
  | setParameter k key v now =>
    cases h
    exact ⟨fun ⟨_, _, _, _, _, _, e⟩ => Operation.noConfusion e, fun hc _ => hc,
      fun _ => List.Sublist.refl _⟩
  | setParameters now =>
    cases hr : s.setParameters now with
    | none =>
      have h' : (s.setParameters now).map (fun r => r.1) = some t := h
      rw [hr] at h'
      cases h'
    | some r =>
      have h' : (s.setParameters now).map (fun r => r.1) = some t := h
      rw [hr] at h'
      cases h'
      have hw := QGCParamWidget.setParameters_writeAll hr
      have hl := QGCParamWidget.writeAll_lists now (dirtyList s) s
      refine ⟨fun ⟨_, _, _, _, _, _, e⟩ => Operation.noConfusion e, fun hc _ => ?_, fun _ => ?_⟩
      · rw [QGCParamWidget.seeds_congr c (hw.2.2.2.trans hl.2.2) (hw.2.2.1.trans hl.2.1)]
        exact hc
      · rw [hw.2.1, hl.1]
  | retransmissionGuardTick now =>
    cases h
    have hl := QGCParamWidget.retransmissionGuardTick_listMode s now
    refine ⟨fun ⟨_, _, _, _, _, _, e⟩ => Operation.noConfusion e, fun hc _ => ?_,
      fun _ => QGCParamWidget.retransmissionGuardTick_sublist s now c⟩
    rw [QGCParamWidget.seeds_congr c hl.1 hl.2]
    exact hc
  | loadParameters conv uasId file =>
    have hst := QGCParamWidget.loadParameters_sameTransfer conv uasId s t file h
    refine ⟨fun ⟨_, _, _, _, _, _, e⟩ => Operation.noConfusion e, fun hc _ => ?_, fun _ => ?_⟩
    · rw [QGCParamWidget.seeds_congr c hst.listMode hst.sizeKnown]
      exact hc
    · rw [hst.missing]

/-- C20 at a packet of component 1 that carries a count of 7 in a transfer seeded with 3. -/
theorem C20_first_observation_wins_witness :
    ∃ t, (Operation.addParameter 0 1 7 2 (qs "C") ⟨0x40400000⟩ 2500).run midTransfer = some t ∧
      midTransfer.seeds 1 = false ∧ t.seeds 1 = false ∧
      ((t.transmissionMissingPackets.value 1).getD []).Sublist
        ((midTransfer.transmissionMissingPackets.value 1).getD []) :=
  ⟨_, rfl, by decide,
    (C20_first_observation_wins midTransfer _
      (Operation.addParameter 0 1 7 2 (qs "C") ⟨0x40400000⟩ 2500) rfl 1).2.1 (by decide)
      (fun _ e => Operation.noConfusion e),
    (C20_first_observation_wins midTransfer _
      (Operation.addParameter 0 1 7 2 (qs "C") ⟨0x40400000⟩ 2500) rfl 1).2.2
      (Or.inl (by decide))⟩

/-- C21, the hard give-up after the timeout. A guard tick of an active transfer after the
deadline sends no request, neither for a read nor for a write. After it, along every sequence
of packets `addParameter`, guard ticks and `loadParameters`, so as long as none of
`requestParameterList`, `setParameter` and `setParameters` is called, no request is sent and
the transfer stays not active, so that every further guard tick sends nothing and stops the
timer. -/
theorem C21_hard_give_up (s : QGCParamWidget) (now : Nat)
    (ha : s.transmissionActive = true) (ht : s.transmissionTimeout < now) :
    (s.retransmissionGuardTick now).2 = [] ∧
      ∀ ops : List Operation, (∀ op ∈ ops, op.startsTransfer = false) →
        Operation.requestsAll ops (s.retransmissionGuardTick now).1 = [] ∧
        ∀ t, Operation.runAll ops (s.retransmissionGuardTick now).1 = some t →
          t.transmissionActive = false ∧
          ∀ later, (t.retransmissionGuardTick later).2 = [] ∧
            (t.retransmissionGuardTick later).1.retransmissionTimer = none := by
  have hto := QGCParamWidget.retransmissionGuardTick_timeout s ha now ht
  refine ⟨QGCParamWidget.retransmissionGuardTick_timeout_requests s ha now ht, ?_⟩
  intro ops hops
  have h := inactive_runAll ops _ hto.2.2.2.1 hops
  refine ⟨h.1, fun t hrun => ⟨h.2 t hrun, fun later => ?_⟩⟩
  have hi := QGCParamWidget.retransmissionGuardTick_inactive t later (h.2 t hrun)
  exact ⟨hi.1, hi.2.2⟩

/-- C21 at a transfer with two missing packets and one unacknowledged write: the guard tick
after the deadline sends nothing, and neither do the guard ticks after a late packet. -/
theorem C21_hard_give_up_witness :
    midTransfer.transmissionActive = true ∧ midTransfer.transmissionTimeout < 100000 ∧
      (midTransfer.retransmissionGuardTick 100000).2 = [] ∧
      Operation.requestsAll
        [Operation.addParameter 0 1 3 1 (qs "B") ⟨0x40000000⟩ 100100,
          Operation.retransmissionGuardTick 100350]
        (midTransfer.retransmissionGuardTick 100000).1 = [] :=
  ⟨by decide, by decide, (C21_hard_give_up midTransfer 100000 (by decide) (by decide)).1,
    ((C21_hard_give_up midTransfer 100000 (by decide) (by decide)).2 _
      (by intro op hop; simp only [List.mem_cons, List.mem_singleton, List.not_mem_nil,
        or_false] at hop; rcases hop with rfl | rfl <;> rfl)).1⟩

/-- C22, loading a record for a parameter that is not stored. In every state, for a line that
is no comment, splits at the tabulators into the four fields `p0`, `p1`, `p2`, `p3` and has the
id of the vehicle in `p0`, when no value is stored for the parameter `p2` of the component
`p1`: `loadParameters` of the file with this line returns; the value stored for the parameter
afterwards is the number the slot `parameterItemChanged` last read from the item of the
parameter while the tree was updated, and the value of `p3` itself only when the slot was not
called with a number; and the value of `p3` is queued for the parameter in `changedValues`
exactly when the component had no map in `parameters` or the value differs from `0.0`, so a
value `0.0` for a component that has a map is not queued. -/
theorem C22_load_unknown_parameter (conv : Conversions) (uasId : Int) (s : QGCParamWidget)
    (line p0 p1 p2 p3 : QString) (hline : line.head? ≠ some 35)
    (hsplit : QGCParamWidget.split 9 line = [p0, p1, p2, p3]) (huas : uasId = conv.toInt p0)
    (hnew : storedValue s (conv.toInt p1) p2 = none) :
    ∃ t, QGCParamWidget.loadParameters conv uasId s (some [line]) = some t ∧
      storedValue t (conv.toInt p1) p2 =
        some (lastRead (s.tree 0 (conv.toDouble p3)) (conv.toDouble p3)) ∧
      dirtyValue t (conv.toInt p1) p2 =
        if s.parameters.contains (conv.toInt p1) = false ∨
            float.ne float.zero (conv.toDouble p3) = true then
          some (conv.toDouble p3)
        else none := by
  rw [QGCParamWidget.loadParameters_single]
  exact QGCParamWidget.loadLine_record conv uasId s.clear line p0 p1 p2 p3
    (fun k hk => (by cases hk)) hline hsplit huas hnew

set_option maxRecDepth 8000 in
/-- C22 at the failing inputs, while component 50 is stored with the parameter THR_MIN only.
The record `5 TAB 50 TAB THR_MAX TAB 0` of the vehicle 5 leaves the value 0 stored for THR_MAX
and nothing queued for it; the record `5 TAB 50 TAB THR_MAX TAB 1234567` leaves the value
1234570.0 stored, the number the new item shows with 6 significant digits, and the value
1234567.0 queued. -/
theorem C22_load_unknown_parameter_witness :
    storedValue thrMinLoaded 50 (qs "THR_MAX") = none ∧
      thrMinLoaded.parameters.contains 50 = true ∧
      (∃ t, QGCParamWidget.loadParameters exampleConversions 5 thrMinLoaded
          (some [qs "5\t50\tTHR_MAX\t0"]) = some t ∧
        storedValue t 50 (qs "THR_MAX") = some float.zero ∧
        dirtyValue t 50 (qs "THR_MAX") = none) ∧
      (∃ t, QGCParamWidget.loadParameters exampleConversions 5 thrMinLoaded
          (some [qs "5\t50\tTHR_MAX\t1234567"]) = some t ∧
        storedValue t 50 (qs "THR_MAX") = some ⟨0x4996B450⟩ ∧
        dirtyValue t 50 (qs "THR_MAX") = some ⟨0x4996B438⟩) := by
  refine ⟨by decide, by decide, ?_, ?_⟩
  · obtain ⟨t, h1, h2, h3⟩ := C22_load_unknown_parameter exampleConversions 5 thrMinLoaded
      (qs "5\t50\tTHR_MAX\t0") (qs "5") (qs "50") (qs "THR_MAX") (qs "0") (by decide)
      (by decide) (by decide) (by decide)
    rw [if_neg (by decide)] at h3
    exact ⟨t, h1, h2.trans (by decide), h3⟩
  · obtain ⟨t, h1, h2, h3⟩ := C22_load_unknown_parameter exampleConversions 5 thrMinLoaded
      (qs "5\t50\tTHR_MAX\t1234567") (qs "5") (qs "50") (qs "THR_MAX") (qs "1234567")
      (by decide) (by decide) (by decide) (by decide)
    rw [if_pos (Or.inr (by decide))] at h3
    exact ⟨t, h1, h2.trans (by decide), h3⟩

/-- C23, tolerant parsing. In every state, for a file of which every line begins with the hash
sign, or does not split at the tabulators into exactly four fields, or has a first field that
is not the id of the vehicle: the loop body `loadLine` leaves every state as it is for each of
these lines, and `loadParameters` returns and leaves `parameters`, `changedValues`, both
pending sets, the flag `transmissionActive` and the deadline unchanged. -/
theorem C23_tolerant_parsing (conv : Conversions) (uasId : Int) (s : QGCParamWidget)
    (lines : List QString)
    (h : ∀ line ∈ lines, line.head? = some 35 ∨ (QGCParamWidget.split 9 line).length ≠ 4 ∨
      uasId ≠ conv.toInt ((QGCParamWidget.split 9 line).headD [])) :
    (∀ line ∈ lines, ∀ u, QGCParamWidget.loadLine conv uasId u line = some u) ∧
      ∃ t, QGCParamWidget.loadParameters conv uasId s (some lines) = some t ∧
        t.parameters = s.parameters ∧ t.changedValues = s.changedValues ∧
        t.transmissionMissingPackets = s.transmissionMissingPackets ∧
        t.transmissionMissingWriteAckPackets = s.transmissionMissingWriteAckPackets ∧
        t.transmissionActive = s.transmissionActive ∧
        t.transmissionTimeout = s.transmissionTimeout :=
  ⟨fun line hl u => QGCParamWidget.loadLine_skip conv uasId u line (h line hl),
    s.clear, QGCParamWidget.loadLines_skip conv uasId lines h s.clear,
    rfl, rfl, rfl, rfl, rfl, rfl⟩

/-- C23 at a file with a comment, a record of three fields and a record of the vehicle 7,
loaded for the vehicle 5 in the middle of a transfer. -/
theorem C23_tolerant_parsing_witness :
    ∃ t, QGCParamWidget.loadParameters exampleConversions 5 midTransfer
        (some [qs "# onboard parameters", qs "5\t50\tTHR_MAX", qs "7\t50\tTHR_MAX\t0.75"]) =
          some t ∧
      t.parameters = midTransfer.parameters ∧ t.changedValues = midTransfer.changedValues ∧
      t.transmissionMissingPackets = midTransfer.transmissionMissingPackets ∧
      t.transmissionMissingWriteAckPackets = midTransfer.transmissionMissingWriteAckPackets ∧
      t.transmissionActive = midTransfer.transmissionActive ∧
      t.transmissionTimeout = midTransfer.transmissionTimeout :=
  (C23_tolerant_parsing exampleConversions 5 midTransfer
    [qs "# onboard parameters", qs "5\t50\tTHR_MAX", qs "7\t50\tTHR_MAX\t0.75"]
    (by
      intro line hl
      simp only [List.mem_cons, List.mem_singleton, List.not_mem_nil, or_false] at hl
      rcases hl with rfl | rfl | rfl
      · exact Or.inl (by decide)
      · exact Or.inr (Or.inl (by decide))
      · exact Or.inr (Or.inr (by decide)))).2

/-- C24, the race of the global counts. After a list request and a write to the parameter P
of component 2, a reachable state, the packet of the only parameter of component 1 is not the
acknowledgement of a write and leaves no packet missing, so its status is the one of a complete
list (the text "Got ... (0 missing)" on green), although the write to component 2 is still
unacknowledged and the transfer stays active. -/
theorem C24_complete_status_with_pending_write :
    ∃ s r, Reachable s ∧ s.addParameter 0 1 1 0 (qs "A") ⟨0x3F800000⟩ 200 = some r ∧
      classOf (r.state.statusLabel, r.state.statusColor) = some StatusClass.receivedComplete ∧
      r.justWritten = false ∧ r.missCount = 0 ∧
      pendingValue r.state 2 (qs "P") = some ⟨0x40A00000⟩ ∧
      r.state.transmissionActive = true := by
  have key : (writePending.addParameter 0 1 1 0 (qs "A") ⟨0x3F800000⟩ 200).map
      (fun r => (classOf (r.state.statusLabel, r.state.statusColor), r.justWritten,
        r.missCount, pendingValue r.state 2 (qs "P"), r.state.transmissionActive)) =
      some (some StatusClass.receivedComplete, false, 0, some ⟨0x40A00000⟩, true) := by
    decide
  cases h : writePending.addParameter 0 1 1 0 (qs "A") ⟨0x3F800000⟩ 200 with
  | none => rw [h] at key; cases key
  | some r =>
    rw [h] at key
    simp only [Option.map_some', Option.some.injEq, Prod.mk.injEq] at key
    exact ⟨writePending, r, writePending_reachable, h, key.1, key.2.1, key.2.2.1, key.2.2.2.1,
      key.2.2.2.2⟩

/-- C25, the coverage of the retries. In every reachable state, every component with a
non-empty list of missing packets has a map in `parameters`; the store update
`addParameter(uas, component, parameterName, value)` finds a map for every component, so it
never meets a null pointer; and a guard tick of an active transfer not after the deadline
sends, for every component with a non-empty list `l` of missing packets, the requests
`requestParameter` for the first entries of `l` up to the burst size, which is at least one
request. -/
theorem C25_retry_coverage (s : QGCParamWidget) (hs : Reachable s) :
    (∀ c l, s.transmissionMissingPackets.value c = some l → l ≠ [] →
        ∃ m, s.parameters.value c = some m) ∧
      (∀ uas c name v, ∃ t, s.addParameter4 uas c name v = some t) ∧
      (∀ now c l, s.transmissionActive = true → now ≤ s.transmissionTimeout →
        s.transmissionMissingPackets.value c = some l → l ≠ [] →
        readRequestsFor c (s.retransmissionGuardTick now).2 =
            l.take s.retransmissionBurstRequestSize.toNat ∧
          (∀ id ∈ l.take s.retransmissionBurstRequestSize.toNat,
            Signal.requestParameter c id ∈ (s.retransmissionGuardTick now).2) ∧
          l.take s.retransmissionBurstRequestSize.toNat ≠ []) := by
  have hinv := inv_of_reachable hs
  have hb := burst_pos_of_reachable hs
  refine ⟨?_, ?_, ?_⟩
  · intro c l hl hne
    exact (QMap.contains_iff _ _).1 (hinv.seeded c l hl hne).2
  · intro uas c name v
    exact QGCParamWidget.addParameter4_total s uas c name v hinv.store
  · intro now c l ha hd hl hne
    have key := QGCParamWidget.readRequestsFor_tick s hinv ha now hd c
    rw [hl] at key
    have key' : readRequestsFor c (s.retransmissionGuardTick now).2 =
        l.take s.retransmissionBurstRequestSize.toNat := key
    refine ⟨key', ?_, ?_⟩
    · intro id hid
      rw [← key'] at hid
      exact (mem_readRequestsFor c id _).1 hid
    · have hn : 0 < s.retransmissionBurstRequestSize.toNat := by omega
      cases l with
      | nil => exact absurd rfl hne
      | cons x xs =>
        obtain ⟨k, hk⟩ : ∃ k, s.retransmissionBurstRequestSize.toNat = k + 1 :=
          ⟨s.retransmissionBurstRequestSize.toNat - 1, by omega⟩
        rw [hk, List.take_succ_cons]
        exact List.cons_ne_nil _ _

/-- C25 in the middle of a transfer: the packets 1 and 2 of component 1 are missing, and the
guard tick requests the packet 1. -/
theorem C25_retry_coverage_witness :
    Reachable midTransfer ∧
      Signal.requestParameter 1 1 ∈ (midTransfer.retransmissionGuardTick 3000).2 :=
  ⟨midTransfer_reachable,
    ((C25_retry_coverage midTransfer midTransfer_reachable).2.2 3000 1 [1, 2] (by decide)
      (by decide) (by decide) (by decide)).2.1 1 (by decide)⟩

/-- C26, no seeding outside list mode. In every reachable state in which
`transmissionListMode` is false, every list of missing packets is empty; every packet
`addParameter`, whatever component and `paramCount` it carries, is handled without a crash,
leaves every list of missing packets empty, leaves list mode off and leaves the transfer not
active unless it was active before; and every operation other than `requestParameterList`
leaves list mode off. -/
theorem C26_no_seeding_outside_list_mode (s : QGCParamWidget) (hs : Reachable s)
    (hl : s.transmissionListMode = false) :
    (∀ c l, s.transmissionMissingPackets.value c = some l → l = []) ∧
      (∀ uas c n i name v now, ∃ r, s.addParameter uas c n i name v now = some r ∧
        (∀ k l, r.state.transmissionMissingPackets.value k = some l → l = []) ∧
        r.state.transmissionListMode = false ∧
        (r.state.transmissionActive = true → s.transmissionActive = true)) ∧
      (∀ (op : Operation) t, op.run s = some t →
        (∀ settings, op ≠ Operation.requestParameterList settings) →
        t.transmissionListMode = false) := by
  have hinv := inv_of_reachable hs
  refine ⟨?_, ?_, ?_⟩
  · intro c l hv
    have h := lists_empty_of_reachable hs hl c
    rw [hv] at h
    exact h
  · intro uas c n i name v now
    obtain ⟨s1, _, hr⟩ := QGCParamWidget.addParameter_total s uas c n i name v now hinv.store
      hinv.burst
    have hmode := QGCParamWidget.observed_listMode s s1 c n i name v now hl
    refine ⟨_, hr, ?_, hmode, ?_⟩
    · intro k l hv
      have h := lists_empty_of_reachable
        (Reachable.addParameter s uas c n i name v now _ hs hr) hmode k
      rw [hv] at h
      exact h
    · intro ha
      cases hact : s.transmissionActive with
      | true => rfl
      | false =>
        rw [QGCParamWidget.observed_active s s1 c n i name v now hact] at ha
        cases ha
  · intro op t hrun hop
    cases op with
    | requestParameterList settings => exact absurd rfl (hop settings)
    | addParameter uas k n i key v now =>
      cases hr : s.addParameter uas k n i key v now with
      | none =>
        have h' : (s.addParameter uas k n i key v now).map (fun r => r.state) = some t := hrun
        rw [hr] at h'
        cases h'
      | some r =>
        have h' : (s.addParameter uas k n i key v now).map (fun r => r.state) = some t := hrun
        rw [hr] at h'
        cases h'
        obtain ⟨s1, _, rfl⟩ := QGCParamWidget.addParameter_some hr
        exact QGCParamWidget.observed_listMode s s1 k n i key v now hl
    | setParameter k key v now =>
      cases hrun
      exact hl
    | setParameters now =>
      cases hr : s.setParameters now with
      | none =>
        have h' : (s.setParameters now).map (fun r => r.1) = some t := hrun
        rw [hr] at h'
        cases h'
      | some r =>
        have h' : (s.setParameters now).map (fun r => r.1) = some t := hrun
        rw [hr] at h'
        cases h'
        rw [(QGCParamWidget.setParameters_writeAll hr).2.2.2,
          (QGCParamWidget.writeAll_lists now (dirtyList s) s).2.2]
        exact hl
    | retransmissionGuardTick now =>
      cases hrun
      rw [(QGCParamWidget.retransmissionGuardTick_listMode s now).1]
      exact hl
    | loadParameters conv uasId file =>
      rw [(QGCParamWidget.loadParameters_sameTransfer conv uasId s t file hrun).listMode]
      exact hl

/-- C26 in the state the constructor leaves: the first packet of component 2, which carries a
count of 5, leaves nothing missing and the transfer not active. -/
theorem C26_no_seeding_outside_list_mode_witness :
    startState.transmissionListMode = false ∧
      ∃ r, startState.addParameter 0 2 5 0 (qs "X") ⟨0x40000000⟩ 100 = some r ∧
        (∀ k l, r.state.transmissionMissingPackets.value k = some l → l = []) ∧
        r.state.transmissionListMode = false ∧
        (r.state.transmissionActive = true → startState.transmissionActive = true) :=
  ⟨rfl, (C26_no_seeding_outside_list_mode startState startState_reachable rfl).2.1 0 2 5 0
    (qs "X") ⟨0x40000000⟩ 100⟩

end QGC
